import Mathlib

/-!
# F1 telemetry recorder: header decoding, recording format and playback

A shallow embedding of the Go packages `internal/telemetry`, `internal/recorder`,
`internal/playback` and `internal/session`, and of the tyre temperature shown by
`internal/menu`.

* A byte is a `Fin 256`; a byte slice is a `List Byte`.
* Unsigned machine integers are `Nat` reduced modulo `2^w`, signed ones are `Int`
  wrapped into the two's-complement range.
* A `float32` is represented by its IEEE-754 bit pattern.
* A Go `error` is a value of `Error`; `nil` is `none`.
* The operating system (files, clock) is explicit: every call that asks the
  system for something takes the system's answer as an argument.
-/

namespace F1TR

/-- One octet. -/
abbrev Byte := Fin 256

/-- Go `error` values that occur in the embedded code. -/
inductive Error where
  /-- The sentinel `io.EOF`. -/
  | EOF
  /-- The sentinel `io.ErrUnexpectedEOF`. -/
  | ErrUnexpectedEOF
  /-- The error of an operation on a closed file (`os.ErrClosed`). -/
  | ErrClosed
  /-- The error of an operation on a nil file (`os.ErrInvalid`). -/
  | ErrInvalid
  /-- A write the file system did not take in full. -/
  | ErrNoSpace
  /-- Any other error reported by the operating system. -/
  | ErrSystem
  /-- An error made by `errors.New(s)` or `fmt.Errorf(s)`. -/
  | errorString (s : String)
  /-- An error made by `fmt.Errorf(msg + ": %w", err)`. -/
  | wrapError (msg : String) (err : Error)
  deriving DecidableEq, Repr

/-! ## `encoding/binary`, little-endian -/

namespace binary

/-- The unsigned number whose little-endian digits are the bytes of `b`:
`b[0] | b[1]<<8 | b[2]<<16 | ...`. -/
def leUint : List Byte → Nat
  | [] => 0
  | b :: bs => b.val + 256 * leUint bs

/-- The `w` low little-endian bytes of `v`: `byte(v), byte(v>>8), ...`. -/
def lePut : Nat → Nat → List Byte
  | 0, _ => []
  | w + 1, v => ⟨v % 256, Nat.mod_lt _ (by decide)⟩ :: lePut w (v / 256)

/-- `binary.LittleEndian.Uint16(b)`, reading `b[0]` and `b[1]`. -/
def Uint16 (b : List Byte) : Nat := leUint (b.take 2)

/-- `binary.LittleEndian.Uint32(b)`, reading `b[0..3]`. -/
def Uint32 (b : List Byte) : Nat := leUint (b.take 4)

/-- `binary.LittleEndian.Uint64(b)`, reading `b[0..7]`. -/
def Uint64 (b : List Byte) : Nat := leUint (b.take 8)

/-- The bytes `binary.Write` sends for a `uint16` value. -/
def PutUint16 (v : Nat) : List Byte := lePut 2 v

/-- The bytes `binary.Write` sends for a `uint32` value. -/
def PutUint32 (v : Nat) : List Byte := lePut 4 v

/-- The bytes `binary.Write` sends for a `uint64` value. -/
def PutUint64 (v : Nat) : List Byte := lePut 8 v

end binary

/-- The conversion `uint64(v)` of a signed value. -/
def toUint64 (v : Int) : Nat := (v % (2 ^ 64 : Int)).toNat

/-- The conversion `int64(u)`: the two's-complement reading of the low 64 bits. -/
def toInt64 (u : Int) : Int := (u + 2 ^ 63) % 2 ^ 64 - 2 ^ 63

/-- The conversion `uint32(n)`. -/
def toUint32 (n : Nat) : Nat := n % 2 ^ 32

/-- A `time.Time`: an instant, as a count of nanoseconds since the Unix epoch.
The count is not bounded: Go instants reach beyond the `int64` nanosecond range. -/
structure Time where
  nanos : Int
  deriving DecidableEq, Repr

/-- `t.UnixNano()`: the count of nanoseconds computed in `int64` arithmetic. -/
def Time.UnixNano (t : Time) : Int := toInt64 t.nanos

/-- `time.Unix(0, nsec)`. -/
def Time.Unix0 (nsec : Int) : Time := ⟨nsec⟩

/-! ## Package `telemetry`: the packet header -/

namespace telemetry

/-- A `float32`, held as its IEEE-754 bit pattern. -/
structure Float32 where
  bits : Nat
  deriving DecidableEq, Repr

/-- `ErrInvalidPacket = errors.New("invalid packet data")`. -/
def ErrInvalidPacket : Error := Error.errorString "invalid packet data"

/-- The common header of every telemetry packet. -/
structure PacketHeader where
  PacketFormat : Nat
  GameYear : Nat
  GameMajorVersion : Nat
  GameMinorVersion : Nat
  PacketVersion : Nat
  PacketID : Nat
  SessionUID : Nat
  SessionTime : Float32
  FrameIdentifier : Nat
  OverallFrameIdentifier : Nat
  PlayerCarIndex : Nat
  SecondaryPlayerCarIndex : Nat
  deriving DecidableEq, Repr

/-- A packet with its receive time. -/
structure RecordedPacket where
  Timestamp : Time
  Data : List Byte
  Header : PacketHeader
  deriving DecidableEq, Repr

/-- The slice expression `data[lo:hi]`. -/
def slice (data : List Byte) (lo hi : Nat) : List Byte := (data.drop lo).take (hi - lo)

/-- `float32frombits`: reinterprets the 32 bits as a `float32`. -/
def float32frombits (b : Nat) : Float32 := ⟨b⟩

/-- `float32FromBytes`: the `float32` whose bits are the little-endian `u32` in `b`. -/
def float32FromBytes (b : List Byte) : Float32 := float32frombits (binary.Uint32 b)

/-- `ParseHeader`: the pair (header pointer, error) the Go function returns. -/
def ParseHeader (data : List Byte) : Option PacketHeader × Option Error :=
  if h : data.length < 29 then
    (none, some ErrInvalidPacket)
  else
    (some {
      PacketFormat := binary.Uint16 (slice data 0 2)
      GameYear := data[2].val
      GameMajorVersion := data[3].val
      GameMinorVersion := data[4].val
      PacketVersion := data[5].val
      PacketID := data[6].val
      SessionUID := binary.Uint64 (slice data 7 15)
      SessionTime := float32FromBytes (slice data 15 19)
      FrameIdentifier := binary.Uint32 (slice data 19 23)
      OverallFrameIdentifier := binary.Uint32 (slice data 23 27)
      PlayerCarIndex := data[27].val
      SecondaryPlayerCarIndex := data[28].val }, none)

/-- A buffered channel of packets, `make(chan *RecordedPacket, cap)`: the packets
waiting in it, oldest first, its capacity, and whether it has been closed. -/
structure PacketChan where
  buf : List RecordedPacket
  cap : Nat
  closed : Bool
  deriving DecidableEq, Repr

/-- The statement `select { case c <- v: ... default: ... }`: `none` when the send
panics (the channel is closed); otherwise the channel afterwards and whether the
`case` was taken. The packet is buffered when there is room, and the `default`
branch runs when the buffer is full. -/
def PacketChan.trySend (c : PacketChan) (v : RecordedPacket) : Option (PacketChan × Bool) :=
  if c.closed then none
  else if c.buf.length < c.cap then some ({ c with buf := c.buf ++ [v] }, true)
  else some (c, false)

/-- A receive `<-c` by the consumer of the channel when a packet is waiting: the
oldest packet and the channel afterwards. -/
def PacketChan.receive (c : PacketChan) : Option (RecordedPacket × PacketChan) :=
  match c.buf with
  | [] => none
  | v :: rest => some (v, { c with buf := rest })

/-- The receiver configuration; `Timeout` is a `time.Duration` in nanoseconds. -/
structure ReceiverConfig where
  Port : Int
  Address : String
  BufferSize : Int
  Timeout : Int
  deriving DecidableEq, Repr

/-- Receiver statistics; the three counters are `uint64`. -/
structure ReceiverStats where
  PacketsReceived : Nat
  BytesReceived : Nat
  Errors : Nat
  StartTime : Time
  deriving DecidableEq, Repr

/-- A UDP socket made by `net.ListenUDP`. -/
structure ListenConn where
  closed : Bool
  deriving DecidableEq, Repr

/-- The receiver. `stopChan` is held as the flag "the channel is closed" and `wg`
as the counter of the wait group. The mutex is not part of the state: every
locked section runs from `Lock` to `Unlock` without another one in between. -/
structure Receiver where
  config : ReceiverConfig
  conn : Option ListenConn
  packets : PacketChan
  stopChan : Bool
  wg : Nat
  running : Bool
  stats : ReceiverStats
  deriving DecidableEq, Repr

/-- The zero value of `time.Time`: January 1, year 1, 00:00:00 UTC. -/
def zeroTime : Time := ⟨-62135596800 * 1000000000⟩

/-- `NewReceiver`. -/
def NewReceiver (config : ReceiverConfig) : Receiver :=
  { config := config
    conn := none
    packets := { buf := [], cap := 100, closed := false }
    stopChan := false
    wg := 0
    running := false
    stats := { PacketsReceived := 0, BytesReceived := 0, Errors := 0, StartTime := zeroTime } }

/-- `incrementErrors`. -/
def Receiver.incrementErrors (r : Receiver) : Receiver :=
  { r with stats := { r.stats with Errors := (r.stats.Errors + 1) % 2 ^ 64 } }

/-- `processPacket`, with `now` the value of `time.Now()`: the receiver afterwards,
or `none` when the send on the channel panics. -/
def Receiver.processPacket (r : Receiver) (data : List Byte) (now : Time) : Option Receiver :=
  -- Parse header
  match ParseHeader data with
  | (_, some _) => some r.incrementErrors
  | (none, none) => none   -- `*header` on a nil pointer
  | (some header, none) =>
    -- Create recorded packet
    let packetData := data
    let packet : RecordedPacket := { Timestamp := now, Data := packetData, Header := header }
    -- Update stats
    let r := { r with stats := { r.stats with
                PacketsReceived := (r.stats.PacketsReceived + 1) % 2 ^ 64 } }
    let r := { r with stats := { r.stats with
                BytesReceived := (r.stats.BytesReceived + data.length % 2 ^ 64) % 2 ^ 64 } }
    -- Send to channel (non-blocking)
    match r.packets.trySend packet with
    | none => none
    | some (packets, true) => some { r with packets := packets }
    | some (packets, false) =>
      -- Channel full, drop packet
      some { r with packets := packets }.incrementErrors

end telemetry

/-! ## The operating system: files

A file the recorder creates is only ever appended to (the recorder never seeks), so
its state is its content. A file the player opens is only ever read, so its state
is its content and the read offset. -/

namespace os

/-- The largest size of a file: file offsets are `int64`. -/
def maxFileSize : Nat := 2 ^ 63 - 1

/-- A file made by `os.Create`, written sequentially. `limit` is the number of
bytes the file system will hold for this file (free space, quota). -/
structure WFile where
  content : List Byte
  limit : Nat
  closed : Bool
  deriving DecidableEq, Repr

/-- The number of bytes the file can still take. -/
def WFile.room (f : WFile) : Nat := min f.limit maxFileSize - f.content.length

/-- `f.Write(b)` on a possibly nil file: the file afterwards, the count of bytes
written and the error. A closed or nil file takes nothing; otherwise the bytes
that fit are appended, and the write fails when not all of them fit. -/
def Write (file : Option WFile) (b : List Byte) : Option WFile × Nat × Option Error :=
  match file with
  | none => (none, 0, some Error.ErrInvalid)
  | some f =>
    if f.closed then (some f, 0, some Error.ErrClosed)
    else
      let n := min b.length f.room
      (some { f with content := f.content ++ b.take n }, n,
        if n < b.length then some Error.ErrNoSpace else none)

/-- `f.Close()` on a file being written. -/
def Close (file : Option WFile) : Option WFile × Option Error :=
  match file with
  | none => (none, some Error.ErrInvalid)
  | some f =>
    if f.closed then (some f, some Error.ErrClosed)
    else (some { f with closed := true }, none)

/-- A file opened by `os.Open`, read sequentially from `offset`. -/
structure RFile where
  content : List Byte
  offset : Nat
  closed : Bool
  deriving DecidableEq, Repr

/-- `f.Close()` on a file being read. -/
def RClose (file : Option RFile) : Option RFile × Option Error :=
  match file with
  | none => (none, some Error.ErrInvalid)
  | some f =>
    if f.closed then (some f, some Error.ErrClosed)
    else (some { f with closed := true }, none)

end os

namespace binary

/-- `binary.Write(w, binary.LittleEndian, v)` for a fixed-size value whose encoding
is `bs`: one `Write` of the encoded bytes, whose error is returned. -/
def Write (file : Option os.WFile) (bs : List Byte) : Option os.WFile × Option Error :=
  let (file, _, err) := os.Write file bs
  (file, err)

end binary

/-! ## Package `recorder` -/

namespace recorder

/-- The zero value of `time.Time`: January 1, year 1, 00:00:00 UTC. -/
def zeroTime : Time := ⟨-62135596800 * 1000000000⟩

/-- Recording statistics; both counters are `uint64`. -/
structure RecorderStats where
  PacketsRecorded : Nat
  BytesWritten : Nat
  StartTime : Time
  SessionName : String
  deriving DecidableEq, Repr

/-- The recorder. The mutex is not part of the state: every method holds it from
entry to return, so the methods run one at a time. -/
structure Recorder where
  outputPath : String
  file : Option os.WFile
  stats : RecorderStats
  running : Bool
  deriving DecidableEq, Repr

/-- The header put at the start of a recording file. -/
structure FileHeader where
  Magic : List Byte
  Version : Nat
  Created : Time
  Reserved : List Byte
  deriving DecidableEq, Repr

/-- What the system answers during `NewRecorder`. -/
structure NewSys where
  /-- The result of `os.MkdirAll(outputDir, 0755)`. -/
  mkdirAll : Option Error
  /-- The text of `time.Now().Format("2006-01-02_15-04-05")`. -/
  timestamp : String
  /-- The function `filepath.Join`. -/
  join : String → String → String

/-- `NewRecorder(outputDir, sessionName)`. -/
def NewRecorder (sys : NewSys) (outputDir sessionName : String) :
    Option Recorder × Option Error :=
  match sys.mkdirAll with
  | some err => (none, some (Error.wrapError "failed to create output directory" err))
  | none =>
    let filename := sys.timestamp ++ "_" ++ sessionName ++ ".f1tr"
    let outputPath := sys.join outputDir filename
    (some {
      outputPath := outputPath
      file := none
      stats := { PacketsRecorded := 0, BytesWritten := 0, StartTime := zeroTime,
                 SessionName := sessionName }
      running := false }, none)

/-- `writeFileHeader`, with `now` the value of `time.Now()`. -/
def Recorder.writeFileHeader (r : Recorder) (now : Time) : Recorder × Option Error :=
  let header : FileHeader :=
    { Magic := [70, 49, 84, 82]   -- 'F', '1', 'T', 'R'
      Version := 1
      Created := now
      Reserved := List.replicate 32 0 }
  -- Write magic
  let (file, _, err) := os.Write r.file header.Magic
  let r := { r with file := file }
  if err.isSome then (r, err) else
  -- Write version
  let (file, err) := binary.Write r.file (binary.PutUint16 header.Version)
  let r := { r with file := file }
  if err.isSome then (r, err) else
  -- Write creation timestamp
  let createdNano := header.Created.UnixNano
  let (file, err) := binary.Write r.file (binary.PutUint64 (toUint64 createdNano))
  let r := { r with file := file }
  if err.isSome then (r, err) else
  -- Write reserved space
  let (file, _, err) := os.Write r.file header.Reserved
  let r := { r with file := file }
  if err.isSome then (r, err) else
  (r, none)

/-- What the system answers during `Start`. -/
structure StartSys where
  /-- The result of `os.Create(outputPath)`: an error, or a new empty file with
  the given limit. -/
  create : Except Error Nat
  /-- The value of `time.Now()` stored as `StartTime`. -/
  now : Time
  /-- The value of `time.Now()` taken by `writeFileHeader`. -/
  headerNow : Time

/-- `Start`. -/
def Recorder.Start (r : Recorder) (sys : StartSys) : Recorder × Option Error :=
  if r.running then
    (r, some (Error.errorString "recorder already running"))
  else
    -- Open output file
    match sys.create with
    | .error err => (r, some (Error.wrapError "failed to create output file" err))
    | .ok limit =>
      let r := { r with file := some { content := [], limit := limit, closed := false } }
      let r := { r with running := true }
      let r := { r with stats := { r.stats with StartTime := sys.now } }
      -- Write file header
      let (r, err) := r.writeFileHeader sys.headerNow
      match err with
      | some err =>
        let r := { r with file := (os.Close r.file).1 }
        (r, some (Error.wrapError "failed to write file header" err))
      | none => (r, none)

/-- `Stop`. -/
def Recorder.Stop (r : Recorder) : Recorder × Option Error :=
  if !r.running then (r, none)
  else
    let r := { r with running := false }
    match r.file with
    | some _ =>
      let (file, err) := os.Close r.file
      let r := { r with file := file }
      match err with
      | some err => (r, some (Error.wrapError "failed to close file" err))
      | none => (r, none)
    | none => (r, none)

/-- `RecordPacket`. -/
def Recorder.RecordPacket (r : Recorder) (packet : telemetry.RecordedPacket) :
    Recorder × Option Error :=
  if !r.running then
    (r, some (Error.errorString "recorder not running"))
  else
    -- Write timestamp (8 bytes)
    let timestamp := packet.Timestamp.UnixNano
    let (file, err) := binary.Write r.file (binary.PutUint64 (toUint64 timestamp))
    let r := { r with file := file }
    match err with
    | some err => (r, some (Error.wrapError "failed to write timestamp" err))
    | none =>
    -- Write packet size (4 bytes)
    let packetSize := toUint32 packet.Data.length
    let (file, err) := binary.Write r.file (binary.PutUint32 packetSize)
    let r := { r with file := file }
    match err with
    | some err => (r, some (Error.wrapError "failed to write packet size" err))
    | none =>
    -- Write packet data
    let (file, n, err) := os.Write r.file packet.Data
    let r := { r with file := file }
    match err with
    | some err => (r, some (Error.wrapError "failed to write packet data" err))
    | none =>
    -- Update stats
    let r := { r with stats := { r.stats with
                PacketsRecorded := (r.stats.PacketsRecorded + 1) % 2 ^ 64 } }
    let r := { r with stats := { r.stats with
                BytesWritten := (r.stats.BytesWritten + (n + 12) % 2 ^ 64) % 2 ^ 64 } }
    (r, none)

/-- `Stats`. -/
def Recorder.Stats (r : Recorder) : RecorderStats := r.stats

/-- `IsRunning`. -/
def Recorder.IsRunning (r : Recorder) : Bool := r.running

/-- `OutputPath`. -/
def Recorder.OutputPath (r : Recorder) : String := r.outputPath

end recorder

/-! ## Package `io` and reading with `encoding/binary` -/

namespace io

/-- `io.ReadFull(f, buf)` with `len(buf) = n`: the file afterwards, the bytes read
and the error. Exactly `n` bytes are read when the file has them; the error is
`EOF` when no byte was left and `ErrUnexpectedEOF` when some but fewer than `n`
were. An empty buffer is filled without touching the file. -/
def ReadFull (file : Option os.RFile) (n : Nat) :
    Option os.RFile × List Byte × Option Error :=
  if n = 0 then (file, [], none)
  else
    match file with
    | none => (none, [], some Error.ErrInvalid)
    | some f =>
      if f.closed then (some f, [], some Error.ErrClosed)
      else
        let avail := f.content.drop f.offset
        if n ≤ avail.length then
          (some { f with offset := f.offset + n }, avail.take n, none)
        else if avail.length = 0 then
          (some f, [], some Error.EOF)
        else
          (some { f with offset := f.offset + avail.length }, avail,
            some Error.ErrUnexpectedEOF)

end io

namespace binary

/-- `binary.Read(r, binary.LittleEndian, &v)` for a value of `size` bytes: one
`io.ReadFull` of `size` bytes, whose error is returned; the bytes are the
encoding of the value when the error is nil. -/
def Read (file : Option os.RFile) (size : Nat) :
    Option os.RFile × List Byte × Option Error :=
  io.ReadFull file size

end binary

/-! ## Package `playback` -/

namespace playback

/-- A `float64`, held as its IEEE-754 bit pattern. -/
structure Float64 where
  bits : Nat
  deriving DecidableEq, Repr

/-- A UDP socket made by `net.DialUDP`: the datagrams sent on it, oldest first. -/
structure UDPConn where
  sent : List (List Byte)
  closed : Bool
  deriving DecidableEq, Repr

/-- The channel `packets`, `make(chan *telemetry.RecordedPacket, 100)`. -/
abbrev PacketChan := telemetry.PacketChan

/-- Playback statistics; both counters are `uint64`. -/
structure PlayerStats where
  PacketsPlayed : Nat
  BytesSent : Nat
  StartTime : Time
  CurrentTime : Time
  RecordingTime : Time
  deriving DecidableEq, Repr

/-- The player. `stopChan` is held as the flag "the channel is closed". -/
structure Player where
  filePath : String
  file : Option os.RFile
  targetAddress : String
  targetPort : Int
  speed : Float64
  conn : Option UDPConn
  stats : PlayerStats
  running : Bool
  paused : Bool
  stopChan : Bool
  packets : PacketChan
  deriving DecidableEq, Repr

/-- `NewPlayer`. -/
def NewPlayer (filePath targetAddress : String) (targetPort : Int) (speed : Float64) :
    Player × Option Error :=
  ({ filePath := filePath
     file := none
     targetAddress := targetAddress
     targetPort := targetPort
     speed := speed
     conn := none
     stats := { PacketsPlayed := 0, BytesSent := 0, StartTime := recorder.zeroTime,
                CurrentTime := recorder.zeroTime, RecordingTime := recorder.zeroTime }
     running := false
     paused := false
     stopChan := false
     packets := { buf := [], cap := 100, closed := false } }, none)

/-- The bytes of the string "F1TR". -/
def magicF1TR : List Byte := [70, 49, 84, 82]

/-- `readFileHeader`. -/
def Player.readFileHeader (p : Player) : Player × Option Error :=
  -- Read magic
  let (file, magic, err) := io.ReadFull p.file 4
  let p := { p with file := file }
  if err.isSome then (p, err) else
  if magic ≠ magicF1TR then (p, some (Error.errorString "invalid magic number")) else
  -- Read version
  let (file, _version, err) := binary.Read p.file 2
  let p := { p with file := file }
  if err.isSome then (p, err) else
  -- Read creation timestamp
  let (file, _createdNano, err) := binary.Read p.file 8
  let p := { p with file := file }
  if err.isSome then (p, err) else
  -- Skip reserved space
  let (file, _reserved, err) := io.ReadFull p.file 32
  let p := { p with file := file }
  if err.isSome then (p, err) else
  (p, none)

/-- `readPacket`: the player afterwards and the triple (timestamp, data, error).
A nil slice is the empty list. -/
def Player.readPacket (p : Player) : Player × Int × List Byte × Option Error :=
  -- Read timestamp
  let (file, bs, err) := binary.Read p.file 8
  let p := { p with file := file }
  match err with
  | some err => (p, 0, [], some err)
  | none =>
  let timestamp := toInt64 (binary.Uint64 bs)
  -- Read packet size
  let (file, bs, err) := binary.Read p.file 4
  let p := { p with file := file }
  match err with
  | some err => (p, 0, [], some err)
  | none =>
  let packetSize := binary.Uint32 bs
  -- Read packet data
  let (file, packetData, err) := io.ReadFull p.file packetSize
  let p := { p with file := file }
  match err with
  | some err => (p, 0, [], some err)
  | none => (p, timestamp, packetData, none)

/-- What the system answers during `Start`. -/
structure StartSys where
  /-- The result of `os.Open(filePath)`: an error, or the content of the file. -/
  open_ : Except Error (List Byte)
  /-- The result of `net.DialUDP`: an error, or nil for a new socket. -/
  dial : Option Error
  /-- The value of `time.Now()`. -/
  now : Time

/-- `Start`. When it returns nil the playback loop has been launched. -/
def Player.Start (p : Player) (sys : StartSys) : Player × Option Error :=
  if p.running then
    (p, some (Error.errorString "player already running"))
  else
    -- Open recording file
    match sys.open_ with
    | .error err => (p, some (Error.wrapError "failed to open recording file" err))
    | .ok content =>
      let p := { p with file := some { content := content, offset := 0, closed := false } }
      -- Validate and skip file header
      let (p, err) := p.readFileHeader
      match err with
      | some err =>
        let p := { p with file := (os.RClose p.file).1 }
        (p, some (Error.wrapError "invalid recording file" err))
      | none =>
        -- Setup UDP connection for sending
        match sys.dial with
        | some err =>
          let p := { p with file := (os.RClose p.file).1 }
          (p, some (Error.wrapError "failed to create UDP connection" err))
        | none =>
          let p := { p with conn := some { sent := [], closed := false } }
          let p := { p with running := true }
          let p := { p with paused := false }
          let p := { p with stats := { PacketsPlayed := 0, BytesSent := 0, StartTime := sys.now,
                                       CurrentTime := recorder.zeroTime,
                                       RecordingTime := recorder.zeroTime } }
          (p, none)

/-- `IsRunning`. -/
def Player.IsRunning (p : Player) : Bool := p.running

/-- Successive calls of `readPacket`, at most `n` of them, stopping at the first
one that returns an error: the (timestamp, data) pairs of the calls that
succeeded, the error of the call that failed (nil when all `n` succeeded), and
the player afterwards. -/
def Player.readPackets : Nat → Player → List (Int × List Byte) × Option Error × Player
  | 0, p => ([], none, p)
  | n + 1, p =>
    match p.readPacket with
    | (p, _, _, some err) => ([], some err, p)
    | (p, timestamp, packetData, none) =>
      let (rest, err, p) := Player.readPackets n p
      ((timestamp, packetData) :: rest, err, p)

/-- The comparison `x > 0` of a `float64`, on its bit pattern: the sign bit is 0,
the value is not +0, and it is not a NaN (the patterns above that of +Inf). -/
def Float64.gtZero (x : Float64) : Bool :=
  decide (0 < x.bits ∧ x.bits ≤ 0x7FF0000000000000)

/-- `SetSpeed`. -/
def Player.SetSpeed (p : Player) (speed : Float64) : Player :=
  if speed.gtZero then { p with speed := speed } else p

/-- `Pause`. -/
def Player.Pause (p : Player) : Player := { p with paused := true }

/-- `Resume`. -/
def Player.Resume (p : Player) : Player := { p with paused := false }

/-- `IsPaused`. -/
def Player.IsPaused (p : Player) : Bool := p.paused

/-- `Stop`: `none` when the call panics on closing a channel that is already
closed. The 50 ms sleep before the output channel is closed changes no state. -/
def Player.Stop (p : Player) : Option (Player × Option Error) :=
  if !p.running then some (p, none)
  else
    -- Signal stop and mark as not running
    if p.stopChan then none
    else
      let p := { p with stopChan := true }
      let p := { p with running := false }
      -- Close connections
      let p := match p.conn with
        | some c => { p with conn := some { c with closed := true } }
        | none => p
      let p := match p.file with
        | some _ => { p with file := (os.RClose p.file).1 }
        | none => p
      -- Now safe to close the packets channel
      if p.packets.closed then none
      else some ({ p with packets := { p.packets with closed := true } }, none)

/-- `sendPacket`: the datagram is handed to the socket unless the socket is nil or
closed. -/
def Player.sendPacket (p : Player) (data : List Byte) : Player × Option Error :=
  match p.conn with
  | none => (p, some Error.ErrInvalid)
  | some c =>
    if c.closed then (p, some Error.ErrClosed)
    else ({ p with conn := some { c with sent := c.sent ++ [data] } }, none)

/-- What the system answers during `playbackLoop`. -/
structure LoopSys where
  /-- The floating-point computation `time.Duration(float64(timeDiff) / speed)`. -/
  adjust : Int → Float64 → Int
  /-- The value of `time.Now()` at the stats update made after the given number
  of events. -/
  now : Nat → Time

/-- What the playback loop does that can be seen from outside, in order: a 100 ms
poll while paused, a pacing sleep of some nanoseconds, a call of `sendPacket`. -/
inductive LoopEvent where
  | pausePoll
  | sleep (d : Int)
  | send (data : List Byte)
  deriving DecidableEq, Repr

/-- The state of the goroutine `playbackLoop`: the player, the local variable
`lastTimestamp`, and the events so far. -/
structure Loop where
  p : Player
  lastTimestamp : Int
  events : List LoopEvent

/-- The outcome of a stretch of the loop: it goes on, it has returned, or it has
panicked. -/
inductive LoopStep where
  | next (l : Loop)
  | done (l : Loop)
  | panicked

/-- The block "Calculate delay based on timestamp difference" of `playbackLoop`:
the events with the sleep it makes, if it makes one. -/
def Loop.pace (sys : LoopSys) (l : Loop) (timestamp : Int) : List LoopEvent :=
  if l.lastTimestamp ≠ 0 then
    let timeDiff := toInt64 (timestamp - l.lastTimestamp)
    let adjustedDelay := sys.adjust timeDiff l.p.speed
    if adjustedDelay > 0 then l.events ++ [LoopEvent.sleep adjustedDelay] else l.events
  else l.events

/-- The block "Parse and send packet to channel" of `playbackLoop`: `none` when the
send on the channel panics. -/
def Player.publish (p : Player) (timestamp : Int) (packetData : List Byte) : Option Player :=
  if p.IsRunning then
    match telemetry.ParseHeader packetData with
    | (some header, none) =>
      let packet : telemetry.RecordedPacket :=
        { Timestamp := Time.Unix0 timestamp, Data := packetData, Header := header }
      match p.packets.trySend packet with
      | none => none
      | some (packets, _) => some { p with packets := packets }
    | _ => some p
  else some p

/-- One pass of the body of the `for` loop of `playbackLoop`, with no other
goroutine acting on the player meanwhile. A pass that finds the player paused
makes one 100 ms poll and starts over: the inner loop and the outer one test the
same stop channel. -/
def Loop.iteration (sys : LoopSys) (l : Loop) : LoopStep :=
  if l.p.stopChan then LoopStep.done l
  else if l.p.IsPaused then LoopStep.next { l with events := l.events ++ [LoopEvent.pausePoll] }
  else
    -- Read next packet
    let (p, timestamp, packetData, err) := l.p.readPacket
    match err with
    | some _ =>
      -- Reached end of recording, or read error: stop playback
      match p.Stop with
      | none => LoopStep.panicked
      | some (p, _) => LoopStep.done { l with p := p }
    | none =>
      -- Calculate delay based on timestamp difference
      let events := Loop.pace sys { l with p := p } timestamp
      -- Send packet
      let (p, _) := p.sendPacket packetData
      let events := events ++ [LoopEvent.send packetData]
      -- Parse and send packet to channel for telemetry display
      match p.publish timestamp packetData with
      | none => LoopStep.panicked
      | some p =>
        -- Update stats
        let p := { p with stats := { p.stats with
                    PacketsPlayed := (p.stats.PacketsPlayed + 1) % 2 ^ 64
                    BytesSent := (p.stats.BytesSent + packetData.length % 2 ^ 64) % 2 ^ 64
                    CurrentTime := sys.now events.length
                    RecordingTime := Time.Unix0 timestamp } }
        LoopStep.next { p := p, lastTimestamp := timestamp, events := events }

/-- At most `fuel` passes of the loop. -/
def Loop.run (sys : LoopSys) : Nat → Loop → LoopStep
  | 0, l => LoopStep.next l
  | fuel + 1, l =>
    match l.iteration sys with
    | LoopStep.next l => Loop.run sys fuel l
    | step => step

/-- `playbackLoop`, for at most `fuel` passes. -/
def Player.playbackLoop (p : Player) (sys : LoopSys) (fuel : Nat) : LoopStep :=
  Loop.run sys fuel { p := p, lastTimestamp := 0, events := [] }

end playback

/-! ## Go strings and the standard library functions the session package calls

A Go `string` is a sequence of bytes, not necessarily valid UTF-8: it is a
`List Byte`. The functions below are those of the Go standard library
(`unicode/utf8`, `unicode`, `strings`), written after their Go sources. -/

/-- The bytes of a string of ASCII characters. -/
def str (s : String) : List Byte := s.toList.map (fun c => (Fin.ofNat c.toNat : Byte))

namespace utf8

/-- The rune `utf8.RuneError`, U+FFFD. -/
def RuneError : Nat := 0xFFFD

/-- The constant `utf8.RuneSelf`: bytes below it are single-byte runes. -/
def RuneSelf : Nat := 0x80

/-- The constant `utf8.UTFMax`. -/
def UTFMax : Nat := 4

/-- `utf8.RuneStart(b)`: `b` is not a continuation byte. -/
def RuneStart (b : Byte) : Bool := decide (b.val / 64 ≠ 2)

/-- `utf8.DecodeRuneInString(s)`: the first rune of `s` and its width in bytes;
`(RuneError, 0)` for the empty string and `(RuneError, 1)` for an invalid encoding.
A shift and an or of disjoint bit fields are written as a product and a sum. -/
def DecodeRune (s : List Byte) : Nat × Nat :=
  match s with
  | [] => (RuneError, 0)
  | s0 :: rest =>
    if s0.val < 0x80 then (s0.val, 1)
    else if s0.val < 0xC2 ∨ 0xF5 ≤ s0.val then (RuneError, 1)
    else
      let sz : Nat := if s0.val < 0xE0 then 2 else if s0.val < 0xF0 then 3 else 4
      let lo : Nat := if s0.val = 0xE0 then 0xA0 else if s0.val = 0xF0 then 0x90 else 0x80
      let hi : Nat := if s0.val = 0xED then 0x9F else if s0.val = 0xF4 then 0x8F else 0xBF
      if s.length < sz then (RuneError, 1)
      else
        match rest with
        | [] => (RuneError, 1)
        | s1 :: rest =>
          if s1.val < lo ∨ hi < s1.val then (RuneError, 1)
          else if sz ≤ 2 then (s0.val % 32 * 64 + s1.val % 64, 2)
          else
            match rest with
            | [] => (RuneError, 1)
            | s2 :: rest =>
              if s2.val < 0x80 ∨ 0xBF < s2.val then (RuneError, 1)
              else if sz ≤ 3 then (s0.val % 16 * 4096 + s1.val % 64 * 64 + s2.val % 64, 3)
              else
                match rest with
                | [] => (RuneError, 1)
                | s3 :: _ =>
                  if s3.val < 0x80 ∨ 0xBF < s3.val then (RuneError, 1)
                  else (s0.val % 8 * 262144 + s1.val % 64 * 4096 + s2.val % 64 * 64
                    + s3.val % 64, 4)

/-- The loop `for start--; start >= lim; start-- { if RuneStart(s[start]) { break } }`
of `DecodeLastRuneInString`, entered with `start` already decremented. -/
def backScan (s : List Byte) (lim : Int) : Nat → Int → Int
  | 0, start => start
  | fuel + 1, start =>
    if start ≥ lim then
      if RuneStart (s.getD start.toNat 0) then start else backScan s lim fuel (start - 1)
    else start

/-- `utf8.DecodeLastRuneInString(s)`: the last rune of `s` and its width. -/
def DecodeLastRune (s : List Byte) : Nat × Nat :=
  let end_ := s.length
  if end_ = 0 then (RuneError, 0)
  else
    let start := end_ - 1
    let r := (s.getD start 0).val
    if r < RuneSelf then (r, 1)
    else
      let lim : Int := if (end_ : Int) - UTFMax < 0 then 0 else (end_ : Int) - UTFMax
      let start : Int := backScan s lim UTFMax ((start : Int) - 1)
      let start : Nat := if start < 0 then 0 else start.toNat
      let (r, size) := DecodeRune ((s.drop start).take (end_ - start))
      if start + size ≠ end_ then (RuneError, 1) else (r, size)

/-- `utf8.AppendRune(nil, r)`, the bytes `strings.Builder.WriteRune(r)` writes. -/
def EncodeRune (r : Nat) : List Byte :=
  if r ≤ 0x7F then [Fin.ofNat r]
  else if r ≤ 0x7FF then [Fin.ofNat (0xC0 + r / 64), Fin.ofNat (0x80 + r % 64)]
  else if 0x10FFFF < r ∨ (0xD800 ≤ r ∧ r ≤ 0xDFFF) then [0xEF, 0xBF, 0xBD]
  else if r ≤ 0xFFFF then
    [Fin.ofNat (0xE0 + r / 4096), Fin.ofNat (0x80 + r / 64 % 64), Fin.ofNat (0x80 + r % 64)]
  else
    [Fin.ofNat (0xF0 + r / 262144), Fin.ofNat (0x80 + r / 4096 % 64),
     Fin.ofNat (0x80 + r / 64 % 64), Fin.ofNat (0x80 + r % 64)]

end utf8

namespace unicode

/-- `unicode.IsSpace(r)`. -/
def IsSpace (r : Nat) : Bool :=
  if r ≤ 0xFF then
    decide (r = 9 ∨ r = 10 ∨ r = 11 ∨ r = 12 ∨ r = 13 ∨ r = 32 ∨ r = 0x85 ∨ r = 0xA0)
  else
    decide (r = 0x1680 ∨ (0x2000 ≤ r ∧ r ≤ 0x200A) ∨ r = 0x2028 ∨ r = 0x2029 ∨ r = 0x202F
      ∨ r = 0x205F ∨ r = 0x3000)

end unicode

namespace strings

/-- The table `asciiSpace` of package `strings`: tab, newline, vertical tab, form
feed, carriage return, space. -/
def asciiSpace (c : Byte) : Bool :=
  decide (c.val = 9 ∨ c.val = 10 ∨ c.val = 11 ∨ c.val = 12 ∨ c.val = 13 ∨ c.val = 32)

/-- `indexFunc(s, unicode.IsSpace, false)` from offset `i` on: the offset of the
first rune that is not a space, or `none` for -1. -/
def indexNotSpace : Nat → List Byte → Nat → Option Nat
  | 0, _, _ => none
  | fuel + 1, s, i =>
    match s with
    | [] => none
    | _ :: _ =>
      let (r, size) := utf8.DecodeRune s
      if unicode.IsSpace r then indexNotSpace fuel (s.drop size) (i + size) else some i

/-- `strings.TrimLeftFunc(s, unicode.IsSpace)`. -/
def TrimLeftSpace (s : List Byte) : List Byte :=
  match indexNotSpace s.length s 0 with
  | none => []
  | some i => s.drop i

/-- `lastIndexFunc(s, unicode.IsSpace, false)`, with `i` the current end: the
offset of the last rune that is not a space, or `none` for -1. -/
def lastIndexNotSpace (s : List Byte) : Nat → Nat → Option Nat
  | 0, _ => none
  | fuel + 1, i =>
    if i = 0 then none
    else
      let (r, size) := utf8.DecodeLastRune (s.take i)
      if unicode.IsSpace r then lastIndexNotSpace s fuel (i - size) else some (i - size)

/-- `strings.TrimRightFunc(s, unicode.IsSpace)`. -/
def TrimRightSpace (s : List Byte) : List Byte :=
  match lastIndexNotSpace s s.length s.length with
  | some i =>
    if (s.getD i 0).val ≥ utf8.RuneSelf then s.take (i + (utf8.DecodeRune (s.drop i)).2)
    else s.take (i + 1)
  | none => s.take 0

/-- `strings.TrimFunc(s, unicode.IsSpace)`. -/
def TrimFuncSpace (s : List Byte) : List Byte := TrimRightSpace (TrimLeftSpace s)

/-- The second loop of `strings.TrimSpace`, on the reversed rest `s[start:stop]`. -/
def trimSpaceStop : List Byte → List Byte
  | [] => []
  | c :: rest =>
    if c.val ≥ utf8.RuneSelf then TrimRightSpace (c :: rest).reverse
    else if asciiSpace c then trimSpaceStop rest
    else (c :: rest).reverse

/-- The first loop of `strings.TrimSpace`, on the rest `s[start:]`. -/
def trimSpaceStart : List Byte → List Byte
  | [] => []
  | c :: rest =>
    if c.val ≥ utf8.RuneSelf then TrimFuncSpace (c :: rest)
    else if asciiSpace c then trimSpaceStart rest
    else trimSpaceStop (c :: rest).reverse

/-- `strings.TrimSpace(s)`: `s` without its leading and trailing white space, as
defined by Unicode. -/
def TrimSpace (s : List Byte) : List Byte := trimSpaceStart s

/-- `strings.ReplaceAll(s, " ", "_")`: both strings are one byte long. -/
def ReplaceAllSpaceUnderscore (s : List Byte) : List Byte :=
  s.map (fun b => if b.val = 32 then (95 : Byte) else b)

/-- `strings.Join(parts, sep)`. -/
def Join : List (List Byte) → List Byte → List Byte
  | [], _ => []
  | [a], _ => a
  | a :: b :: rest, sep => a ++ sep ++ Join (b :: rest) sep

end strings

/-! ## Package `session` -/

namespace session

/-- The extracted session information. -/
structure SessionInfo where
  PlayerName : List Byte
  TrackName : List Byte
  SessionType : List Byte
  Weather : List Byte
  TimeOfDay : List Byte
  HasInfo : Bool
  deriving DecidableEq, Repr

/-- The map `trackNames`, keyed by `int8`; a missing key gives the empty string. -/
def trackNames (id : Int) : List Byte :=
  match id with
  | 0 => str "Melbourne"
  | 2 => str "Shanghai"
  | 3 => str "Bahrain"
  | 4 => str "Catalunya"
  | 5 => str "Monaco"
  | 6 => str "Montreal"
  | 7 => str "Silverstone"
  | 9 => str "Hungaroring"
  | 10 => str "Spa"
  | 11 => str "Monza"
  | 12 => str "Singapore"
  | 13 => str "Suzuka"
  | 14 => str "AbuDhabi"
  | 15 => str "Texas"
  | 16 => str "Brazil"
  | 17 => str "Austria"
  | 19 => str "Mexico"
  | 20 => str "Baku"
  | 26 => str "Zandvoort"
  | 27 => str "Imola"
  | 29 => str "Jeddah"
  | 30 => str "Miami"
  | 31 => str "LasVegas"
  | 32 => str "Losail"
  | 39 => str "Silverstone_Rev"
  | 40 => str "Austria_Rev"
  | 41 => str "Zandvoort_Rev"
  | _ => []

/-- The map `sessionTypes`, keyed by `uint8`; a missing key gives the empty string. -/
def sessionTypes (id : Nat) : List Byte :=
  match id with
  | 0 => str "Unknown"
  | 1 => str "P1"
  | 2 => str "P2"
  | 3 => str "P3"
  | 4 => str "Practice"
  | 5 => str "Q1"
  | 6 => str "Q2"
  | 7 => str "Q3"
  | 8 => str "Qualifying"
  | 9 => str "OneShotQ"
  | 10 => str "SS1"
  | 11 => str "SS2"
  | 12 => str "SS3"
  | 13 => str "SprintShootout"
  | 14 => str "OneShotSS"
  | 15 => str "Race"
  | 16 => str "Race2"
  | 17 => str "Race3"
  | 18 => str "TimeTrial"
  | _ => []

/-- The map `weatherConditions`, keyed by `uint8`; a missing key gives the empty
string. -/
def weatherConditions (id : Nat) : List Byte :=
  match id with
  | 0 => str "Clear"
  | 1 => str "LightCloud"
  | 2 => str "Overcast"
  | 3 => str "LightRain"
  | 4 => str "HeavyRain"
  | 5 => str "Storm"
  | _ => []

/-- The conversion `int8(b)` of a byte. -/
def toInt8 (b : Byte) : Int := if b.val < 128 then (b.val : Int) else (b.val : Int) - 256

/-- The text of `fmt.Sprintf("%d", n)`. -/
def formatInt (n : Int) : List Byte :=
  if n < 0 then (45 : Byte) :: (Nat.toDigits 10 (-n).toNat).map (fun c => Fin.ofNat c.toNat)
  else (Nat.toDigits 10 n.toNat).map (fun c => Fin.ofNat c.toNat)

/-- `parseSessionPacket`: the `SessionInfo` behind the pointer afterwards. -/
def parseSessionPacket (data : List Byte) (info : SessionInfo) : SessionInfo :=
  if h : data.length < 100 then info
  else
    -- Skip header (29 bytes)
    let offset := 29
    let weather := data[offset]
    let info := { info with Weather := weatherConditions weather.val }
    let info := if info.Weather = [] then { info with Weather := str "Unknown" } else info
    let offset := offset + 1 + 1 + 1 + 1 + 2
    let sessionType := data[offset]
    let info := { info with SessionType := sessionTypes sessionType.val }
    let info := if info.SessionType = [] then { info with SessionType := str "Unknown" }
      else info
    let offset := offset + 1
    let trackID := toInt8 data[offset]
    let info := { info with TrackName := trackNames trackID }
    let info := if info.TrackName = []
      then { info with TrackName := str "Track" ++ formatInt trackID } else info
    info

/-- `extractNullTerminatedString`: the bytes before the first zero byte. -/
def extractNullTerminatedString : List Byte → List Byte
  | [] => []
  | b :: rest => if b.val = 0 then [] else b :: extractNullTerminatedString rest

/-- The test of `sanitizeForFilename` on a rune: a letter, a digit, `_` or `-`. -/
def keepRune (r : Nat) : Bool :=
  decide ((97 ≤ r ∧ r ≤ 122) ∨ (65 ≤ r ∧ r ≤ 90) ∨ (48 ≤ r ∧ r ≤ 57) ∨ r = 95 ∨ r = 45)

/-- The loop `for _, r := range s` of `sanitizeForFilename`: the bytes written to
the builder. -/
def sanitizeLoop : Nat → List Byte → List Byte
  | 0, _ => []
  | fuel + 1, s =>
    match s with
    | [] => []
    | _ :: _ =>
      let (r, size) := utf8.DecodeRune s
      (if keepRune r then utf8.EncodeRune r else []) ++ sanitizeLoop fuel (s.drop size)

/-- `sanitizeForFilename`. -/
def sanitizeForFilename (s : List Byte) : List Byte :=
  -- Replace spaces with underscores
  let s := strings.ReplaceAllSpaceUnderscore s
  -- Keep only alphanumeric, underscore, and dash
  sanitizeLoop s.length s

/-- `parseParticipantsPacket`: the `SessionInfo` behind the pointer afterwards. -/
def parseParticipantsPacket (data : List Byte) (info : SessionInfo) : SessionInfo :=
  if h : data.length < 30 then info
  else
    -- Get player car index from header
    let playerCarIndex := data[27]
    -- Skip header (29 bytes)
    let offset := 29
    if offset ≥ data.length then info
    else
      let offset := offset + 1
      let participantOffset := offset + playerCarIndex.val * 58
      if participantOffset + 58 > data.length then info
      else
        -- Skip to name field (48 bytes into ParticipantData)
        let nameOffset := participantOffset + 48
        if nameOffset + 32 > data.length then info
        else
          -- Extract name (32 bytes, null-terminated UTF-8)
          let nameBytes := telemetry.slice data nameOffset (nameOffset + 32)
          let name := extractNullTerminatedString nameBytes
          -- Clean up the name
          let name := strings.TrimSpace name
          let name := if name = [] then str "Player" else name
          -- Remove any non-ASCII characters for filename safety
          let name := sanitizeForFilename name
          { info with PlayerName := name }

/-- The loop of `ExtractSessionInfo` over the packets still to come from the
channel, which is closed after them. -/
def extractLoop : List (List Byte) → SessionInfo → Bool → Bool → SessionInfo
  | [], info, _, _ => info
  | packetData :: rest, info, sessionReceived, participantsReceived =>
    if h : packetData.length < 29 then
      extractLoop rest info sessionReceived participantsReceived
    else
      let packetID := packetData[6]
      let (info, sessionReceived, participantsReceived) :=
        if packetID.val = 1 then
          if !sessionReceived then
            (parseSessionPacket packetData info, true, participantsReceived)
          else (info, sessionReceived, participantsReceived)
        else if packetID.val = 4 then
          if !participantsReceived then
            (parseParticipantsPacket packetData info, sessionReceived, true)
          else (info, sessionReceived, participantsReceived)
        else (info, sessionReceived, participantsReceived)
      -- Exit early if we have all the info we need
      if sessionReceived && participantsReceived then { info with HasInfo := true }
      else extractLoop rest info sessionReceived participantsReceived

/-- `ExtractSessionInfo` on a channel that delivers the given packets and is then
closed. -/
def ExtractSessionInfo (packets : List (List Byte)) : SessionInfo :=
  extractLoop packets
    { PlayerName := [], TrackName := [], SessionType := [], Weather := [], TimeOfDay := [],
      HasInfo := false } false false

/-- `GenerateFilename`. -/
def SessionInfo.GenerateFilename (si : SessionInfo) : List Byte :=
  let parts : List (List Byte) := []
  let parts := if si.TrackName ≠ [] then parts ++ [si.TrackName] else parts
  let parts := if si.SessionType ≠ [] ∧ si.SessionType ≠ str "Unknown"
    then parts ++ [si.SessionType] else parts
  let parts := if si.PlayerName ≠ [] ∧ si.PlayerName ≠ str "Player"
    then parts ++ [si.PlayerName] else parts
  let parts := if si.Weather ≠ [] ∧ si.Weather ≠ str "Clear"
    then parts ++ [si.Weather] else parts
  if parts.length = 0 then str "session"
  else strings.Join parts (str "_")

/-- The packet has 29 bytes or more and the packet ID `id` in byte 6. -/
def hasID (id : Nat) (p : List Byte) : Bool :=
  decide (29 ≤ p.length) && decide ((p.getD 6 0).val = id)

/-- The `SessionInfo` made from one Session packet and one Participants packet, when
there are such packets: each packet is parsed into an empty `SessionInfo`, and
`HasInfo` is set when both are there. This definition follows the specification
("each kind is parsed at most once", on the first packet of the kind); the theorems
compare `ExtractSessionInfo` with it. -/
def fromFirst (sessionPacket participantsPacket : Option (List Byte)) : SessionInfo :=
  let info : SessionInfo :=
    { PlayerName := [], TrackName := [], SessionType := [], Weather := [], TimeOfDay := [],
      HasInfo := false }
  let info := match sessionPacket with
    | some d => parseSessionPacket d info
    | none => info
  let info := match participantsPacket with
    | some d => parseParticipantsPacket d info
    | none => info
  if sessionPacket.isSome && participantsPacket.isSome then { info with HasInfo := true }
  else info

end session

/-! ## The recording file layout, as the specification words it

`Header: magic "F1TR" (4B) | version u16 | createdAtNanos i64 | reserved[32]`,
`Entry*: timestampNanos i64 | payloadLength u32 | payload[payloadLength]`,
little-endian. These two definitions follow the specification, not the code; the
theorems compare the bytes the code writes with them. -/

namespace format

/-- The file header of the specification for version 1 and a creation time. -/
def header (createdAtNanos : Int) : List Byte :=
  [70, 49, 84, 82] ++ binary.lePut 2 1 ++ binary.lePut 8 (toUint64 createdAtNanos)
    ++ List.replicate 32 0

/-- One entry of the specification. -/
def entry (timestampNanos : Int) (payload : List Byte) : List Byte :=
  binary.lePut 8 (toUint64 timestampNanos) ++ binary.lePut 4 (payload.length % 2 ^ 32)
    ++ payload

/-- The entries of the specification for a sequence of (timestamp, payload) pairs,
one after the other with nothing between them. -/
def entries : List (Int × List Byte) → List Byte
  | [] => []
  | (timestampNanos, payload) :: rest => entry timestampNanos payload ++ entries rest

end format

/-! ## Names, as the specification words them

The name of a field is what stands before its first NUL byte; white space is what
Unicode defines as such (`unicode.IsSpace` on the runes of the string), and trimming
removes it from both ends, one character at a time. -/

namespace spec

/-- The bytes of a field before its first NUL byte, all of them when it has none. -/
def nulTerminated (field : List Byte) : List Byte := field.takeWhile (fun b => b.val ≠ 0)

/-- The first character of the string is white space. -/
def startsWithSpace (s : List Byte) : Bool :=
  match s with
  | [] => false
  | _ :: _ => unicode.IsSpace (utf8.DecodeRune s).1

/-- The last character of the string is white space. -/
def endsWithSpace (s : List Byte) : Bool :=
  match s with
  | [] => false
  | _ :: _ => unicode.IsSpace (utf8.DecodeLastRune s).1

/-- The string without its leading white space: the first character is dropped as
long as it is white space (at most `fuel` times). -/
def dropLeadingSpace : Nat → List Byte → List Byte
  | 0, s => s
  | fuel + 1, s =>
    if startsWithSpace s then dropLeadingSpace fuel (s.drop (utf8.DecodeRune s).2) else s

/-- The string without its trailing white space: the last character is dropped as
long as it is white space (at most `fuel` times). -/
def dropTrailingSpace : Nat → List Byte → List Byte
  | 0, s => s
  | fuel + 1, s =>
    if endsWithSpace s then
      dropTrailingSpace fuel (s.take (s.length - (utf8.DecodeLastRune s).2))
    else s

/-- The string with its leading and trailing white space trimmed. -/
def trimmed (s : List Byte) : List Byte :=
  dropTrailingSpace s.length (dropLeadingSpace s.length s)

end spec

/-! ## Sequences of calls -/

namespace recorder

/-- One `RecordPacket` call per packet of the list, in order, whatever each call
returns: the recorder afterwards and the errors returned, in order. -/
def Recorder.recordAll (r : Recorder) : List telemetry.RecordedPacket →
    Recorder × List (Option Error)
  | [] => (r, [])
  | packet :: rest =>
    let (r, err) := r.RecordPacket packet
    let (r, errs) := Recorder.recordAll r rest
    (r, err :: errs)

/-- The recorder has a file that is within its limit, and the counters have not
run ahead of it: the file holds at least `BytesWritten` bytes, and every counted
packet accounts for at least 12 of them. -/
def Recorder.Within (r : Recorder) : Prop :=
  ∃ f, r.file = some f ∧ f.content.length ≤ min f.limit os.maxFileSize ∧
    r.stats.BytesWritten ≤ f.content.length ∧
    12 * r.stats.PacketsRecorded ≤ r.stats.BytesWritten

end recorder

namespace telemetry

/-- What happens to a receiver while it runs, one item at a time: the receive loop
hands a datagram to `processPacket` at the time `now`, or the consumer of
`Packets()` receives from the channel. -/
inductive ReceiverEvent where
  | datagram (data : List Byte) (now : Time)
  | receive
  deriving DecidableEq, Repr

/-- The receiver after a sequence of events, with the packets the consumer took,
in order; `none` when a `processPacket` panics. A consumer that finds the
channel empty waits and changes nothing. -/
def Receiver.run (r : Receiver) : List ReceiverEvent → Option (Receiver × List RecordedPacket)
  | [] => some (r, [])
  | ReceiverEvent.datagram data now :: rest =>
    match r.processPacket data now with
    | none => none
    | some r => Receiver.run r rest
  | ReceiverEvent.receive :: rest =>
    match r.packets.receive with
    | none => Receiver.run r rest
    | some (v, c) =>
      match Receiver.run { r with packets := c } rest with
      | none => none
      | some (r, out) => some (r, v :: out)

/-- The datagrams of a sequence of events with their arrival times, in order. -/
def arrivals : List ReceiverEvent → List (List Byte × Time)
  | [] => []
  | ReceiverEvent.datagram data now :: rest => (data, now) :: arrivals rest
  | ReceiverEvent.receive :: rest => arrivals rest

end telemetry

/-! ## Package `telemetry`: the payload parsers

The reads of the parsers are checked here the way the Go runtime checks them: an
index or a slice bound outside the buffer is a run-time panic, the value `none`.
The buffers handed to the parsers have their capacity equal to their length. -/

namespace telemetry

/-- The index expression `data[i]`: `none` is the panic "index out of range". -/
def index (data : List Byte) (i : Nat) : Option Byte := data[i]?

/-- The slice expression `data[lo:hi]`, checked: `none` is the panic "slice bounds
out of range". -/
def sliceChecked (data : List Byte) (lo hi : Nat) : Option (List Byte) :=
  if lo ≤ hi ∧ hi ≤ data.length then some (slice data lo hi) else none

/-- `binary.LittleEndian.Uint16(b)`, checked: it reads `b[1]` and `b[0]`. -/
def uint16Checked (b : List Byte) : Option Nat :=
  if b.length < 2 then none else some (binary.Uint16 b)

/-- `binary.LittleEndian.Uint32(b)`, checked: it reads `b[3]` down to `b[0]`. -/
def uint32Checked (b : List Byte) : Option Nat :=
  if b.length < 4 then none else some (binary.Uint32 b)

/-- The conversion `float32(v)` of a `uint16`: every such value is a `float32`
exactly. The exponent is the position of the highest set bit. -/
def float32OfUint16 (v : Nat) : Float32 :=
  if v = 0 then ⟨0⟩
  else
    let e := (List.range 16).foldl (fun acc k => if 2 ^ k ≤ v then k else acc) 0
    ⟨(127 + e) * 2 ^ 23 + (v - 2 ^ e) * 2 ^ (23 - e)⟩

/-- Parsed telemetry values for display. The arrays of four are tuples, in the
order FL, FR, RL, RR. -/
structure TelemetryData where
  Speed : Float32
  Throttle : Float32
  Brake : Float32
  Gear : Int
  EngineRPM : Nat
  DRS : Byte
  EngineTemp : Nat
  TyreTemp : Byte × Byte × Byte × Byte
  TyrePressure : Float32 × Float32 × Float32 × Float32
  FuelLevel : Float32
  ERSStoreEnergy : Float32
  ERSDeployMode : Byte
  deriving DecidableEq, Repr

/-- The zero value `TelemetryData{}`. -/
def TelemetryData.zero : TelemetryData :=
  { Speed := ⟨0⟩, Throttle := ⟨0⟩, Brake := ⟨0⟩, Gear := 0, EngineRPM := 0, DRS := 0,
    EngineTemp := 0, TyreTemp := (0, 0, 0, 0), TyrePressure := (⟨0⟩, ⟨0⟩, ⟨0⟩, ⟨0⟩),
    FuelLevel := ⟨0⟩, ERSStoreEnergy := ⟨0⟩, ERSDeployMode := 0 }

/-- The conversion `int8(b)` of a byte. -/
def toInt8 (b : Byte) : Int := if b.val < 128 then (b.val : Int) else (b.val : Int) - 256

/-- The expression `binary.LittleEndian.Uint16(data[offset : offset+2])`, checked. -/
def readUint16 (data : List Byte) (offset : Nat) : Option Nat :=
  (sliceChecked data offset (offset + 2)).bind uint16Checked

/-- The expression `binary.LittleEndian.Uint32(data[offset : offset+4])`, checked. -/
def readUint32 (data : List Byte) (offset : Nat) : Option Nat :=
  (sliceChecked data offset (offset + 4)).bind uint32Checked

/-- `ParseCarTelemetryPacket`: `none` when a read panics, `some none` for the nil
result. The reads are made in the order of the source and the fields of `td` are
set together at the end; the two loops over the four tyres are written out. -/
def ParseCarTelemetryPacket (data : List Byte) (playerCarIndex : Byte) :
    Option (Option TelemetryData) :=
  -- Check if it's telemetry packet
  if data.length < 29 then some none else
  match index data 6 with
  | none => none
  | some packetID =>
  if packetID.val ≠ 6 then some none else
  -- Each car telemetry data is 60 bytes
  let offset := 29 + playerCarIndex.val * 60
  if offset + 60 > data.length then some none else
  -- uint16 m_speed (km/h)
  match readUint16 data offset with
  | none => none
  | some speed =>
  let offset := offset + 2
  -- float m_throttle (0.0 to 1.0)
  match readUint32 data offset with
  | none => none
  | some throttle =>
  let offset := offset + 4
  -- float m_steer (skip)
  let offset := offset + 4
  -- float m_brake (0.0 to 1.0)
  match readUint32 data offset with
  | none => none
  | some brake =>
  let offset := offset + 4
  -- uint8 m_clutch (skip)
  let offset := offset + 1
  -- int8 m_gear
  match index data offset with
  | none => none
  | some gear =>
  let offset := offset + 1
  -- uint16 m_engineRPM
  match readUint16 data offset with
  | none => none
  | some engineRPM =>
  let offset := offset + 2
  -- uint8 m_drs (0=off, 1=on)
  match index data offset with
  | none => none
  | some drs =>
  let offset := offset + 1
  -- uint8 m_revLightsPercent (skip)
  let offset := offset + 1
  -- uint16 m_revLightsBitValue (skip)
  let offset := offset + 2
  -- uint16 m_brakesTemperature[4] (skip)
  let offset := offset + 8
  -- uint8 m_tyresSurfaceTemperature[4]
  match index data offset with
  | none => none
  | some t0 =>
  let offset := offset + 1
  match index data offset with
  | none => none
  | some t1 =>
  let offset := offset + 1
  match index data offset with
  | none => none
  | some t2 =>
  let offset := offset + 1
  match index data offset with
  | none => none
  | some t3 =>
  let offset := offset + 1
  -- uint8 m_tyresInnerTemperature[4] (skip)
  let offset := offset + 4
  -- uint16 m_engineTemperature
  match readUint16 data offset with
  | none => none
  | some engineTemp =>
  let offset := offset + 2
  -- float m_tyresPressure[4]
  match readUint32 data offset with
  | none => none
  | some p0 =>
  let offset := offset + 4
  match readUint32 data offset with
  | none => none
  | some p1 =>
  let offset := offset + 4
  match readUint32 data offset with
  | none => none
  | some p2 =>
  let offset := offset + 4
  match readUint32 data offset with
  | none => none
  | some p3 =>
  some (some
    { Speed := float32OfUint16 speed
      Throttle := float32frombits throttle
      Brake := float32frombits brake
      Gear := toInt8 gear
      EngineRPM := engineRPM
      DRS := drs
      EngineTemp := engineTemp
      TyreTemp := (t0, t1, t2, t3)
      TyrePressure := (float32frombits p0, float32frombits p1, float32frombits p2,
                       float32frombits p3)
      FuelLevel := ⟨0⟩
      ERSStoreEnergy := ⟨0⟩
      ERSDeployMode := 0 })

/-- `ParseCarStatusPacket`: `none` when a read panics, `some none` for the nil
result. The fields of `td` are set together at the end. -/
def ParseCarStatusPacket (data : List Byte) (playerCarIndex : Byte) :
    Option (Option TelemetryData) :=
  if data.length < 29 then some none else
  match index data 6 with
  | none => none
  | some packetID =>
  if packetID.val ≠ 7 then some none else
  -- Each car status data is 58 bytes according to F1 25 spec
  let offset := 29 + playerCarIndex.val * 58
  if offset + 58 > data.length then some none else
  -- uint8 m_tractionControl, m_antiLockBrakes, m_fuelMix, m_frontBrakeBias,
  -- m_pitLimiterStatus
  let offset := offset + 1 + 1 + 1 + 1 + 1
  -- float m_fuelInTank
  match readUint32 data offset with
  | none => none
  | some fuelInTank =>
  let offset := offset + 4
  -- float m_fuelCapacity, float m_fuelRemainingLaps, uint16 m_maxRPM, uint16 m_idleRPM,
  -- uint8 m_maxGears (skip)
  let offset := offset + 4 + 4 + 2 + 2 + 1
  -- uint8 m_drsAllowed (0 = not allowed, 1 = allowed)
  match index data offset with
  | none => none
  | some drsAllowed =>
  let offset := offset + 1
  -- uint16 m_drsActivationDistance, uint8 m_actualTyreCompound,
  -- uint8 m_visualTyreCompound, uint8 m_tyresAgeLaps, int8 m_vehicleFiaFlags,
  -- float m_enginePowerICE, float m_enginePowerMGUK (skip)
  let offset := offset + 2 + 1 + 1 + 1 + 1 + 4 + 4
  -- float m_ersStoreEnergy
  match readUint32 data offset with
  | none => none
  | some ersStoreEnergy =>
  let offset := offset + 4
  -- uint8 m_ersDeployMode
  match index data offset with
  | none => none
  | some ersDeployMode =>
  some (some
    { TelemetryData.zero with
      FuelLevel := float32frombits fuelInTank
      DRS := drsAllowed
      ERSStoreEnergy := float32frombits ersStoreEnergy
      ERSDeployMode := ersDeployMode })

/-- The comparison `x > 0` of a `float32`, on its bit pattern: the sign bit is 0,
the value is not +0, and it is not a NaN (the patterns above that of +Inf). -/
def Float32.gtZero (x : Float32) : Bool :=
  decide (0 < x.bits ∧ x.bits ≤ 0x7F800000)

/-- `MergeTelemetryData`: the value behind the pointer returned; a nil pointer is
`none`. -/
def MergeTelemetryData (base new : Option TelemetryData) : TelemetryData :=
  match base, new with
  | none, none => TelemetryData.zero
  | none, some new => new
  | some base, none => base
  | some base, some new =>
    -- Update telemetry values from Car Telemetry packet (ID 6)
    let base := if new.Speed.gtZero then
        { base with Speed := new.Speed, Throttle := new.Throttle, Brake := new.Brake,
                    Gear := new.Gear, EngineRPM := new.EngineRPM }
      else base
    let base := if new.EngineTemp > 0 then { base with EngineTemp := new.EngineTemp }
      else base
    -- Update tyre temps if any are non-zero
    let base := if new.TyreTemp.1.val > 0 ∨ new.TyreTemp.2.1.val > 0
        ∨ new.TyreTemp.2.2.1.val > 0 ∨ new.TyreTemp.2.2.2.val > 0 then
        { base with TyreTemp := new.TyreTemp }
      else base
    -- Update values from Car Status packet (ID 7)
    let base := if new.FuelLevel.gtZero then
        { base with FuelLevel := new.FuelLevel, ERSStoreEnergy := new.ERSStoreEnergy,
                    DRS := new.DRS }
      else base
    base

end telemetry

/-! ## Package `menu`: the value handed to the display -/

namespace menu

/-- The expression of the field `TyreTempAvg` in `recordSession` and in
`playbackSession`: `(TyreTemp[0] + TyreTemp[1] + TyreTemp[2] + TyreTemp[3]) / 4`, all
operands and the result being `uint8`. -/
def TyreTempAvg (latestTelemetry : telemetry.TelemetryData) : Nat :=
  let (t0, t1, t2, t3) := latestTelemetry.TyreTemp
  (((t0.val + t1.val) % 256 + t2.val) % 256 + t3.val) % 256 / 4

end menu

/-! ## Package `session`: the parsers with their reads checked -/

namespace session

/-- `parseSessionPacket` with every read checked: `none` when a read panics. -/
def parseSessionPacketChecked (data : List Byte) (info : SessionInfo) : Option SessionInfo :=
  if data.length < 100 then some info
  else
    -- Skip header (29 bytes)
    let offset := 29
    match telemetry.index data offset with
    | none => none
    | some weather =>
    let info := { info with Weather := weatherConditions weather.val }
    let info := if info.Weather = [] then { info with Weather := str "Unknown" } else info
    let offset := offset + 1 + 1 + 1 + 1 + 2
    match telemetry.index data offset with
    | none => none
    | some sessionType =>
    let info := { info with SessionType := sessionTypes sessionType.val }
    let info := if info.SessionType = [] then { info with SessionType := str "Unknown" }
      else info
    let offset := offset + 1
    match telemetry.index data offset with
    | none => none
    | some trackByte =>
    let trackID := toInt8 trackByte
    let info := { info with TrackName := trackNames trackID }
    let info := if info.TrackName = []
      then { info with TrackName := str "Track" ++ formatInt trackID } else info
    some info

/-- `parseParticipantsPacket` with every read checked: `none` when a read panics. -/
def parseParticipantsPacketChecked (data : List Byte) (info : SessionInfo) :
    Option SessionInfo :=
  if data.length < 30 then some info
  else
    -- Get player car index from header
    match telemetry.index data 27 with
    | none => none
    | some playerCarIndex =>
    -- Skip header (29 bytes)
    let offset := 29
    if offset ≥ data.length then some info
    else
      let offset := offset + 1
      let participantOffset := offset + playerCarIndex.val * 58
      if participantOffset + 58 > data.length then some info
      else
        -- Skip to name field (48 bytes into ParticipantData)
        let nameOffset := participantOffset + 48
        if nameOffset + 32 > data.length then some info
        else
          -- Extract name (32 bytes, null-terminated UTF-8)
          match telemetry.sliceChecked data nameOffset (nameOffset + 32) with
          | none => none
          | some nameBytes =>
          let name := extractNullTerminatedString nameBytes
          -- Clean up the name
          let name := strings.TrimSpace name
          let name := if name = [] then str "Player" else name
          -- Remove any non-ASCII characters for filename safety
          let name := sanitizeForFilename name
          some { info with PlayerName := name }

/-- The parts of the file name as the specification lists them, in order: the
track name, the session type unless it is "Unknown", the player name unless it is
"Player", the weather unless it is "Clear", each of them only when it is not
empty. -/
def SessionInfo.parts (si : SessionInfo) : List (List Byte) :=
  (if si.TrackName ≠ [] then [si.TrackName] else [])
    ++ (if si.SessionType ≠ [] ∧ si.SessionType ≠ str "Unknown" then [si.SessionType]
        else [])
    ++ (if si.PlayerName ≠ [] ∧ si.PlayerName ≠ str "Player" then [si.PlayerName] else [])
    ++ (if si.Weather ≠ [] ∧ si.Weather ≠ str "Clear" then [si.Weather] else [])

/-- The four name fields are made of letters, digits, `_` and `-` only. -/
def SessionInfo.Safe (si : SessionInfo) : Prop :=
  (∀ b ∈ si.PlayerName, keepRune b.val = true) ∧ (∀ b ∈ si.TrackName, keepRune b.val = true) ∧
  (∀ b ∈ si.SessionType, keepRune b.val = true) ∧ (∀ b ∈ si.Weather, keepRune b.val = true)

end session

/-! ## Starting and stopping

`Start` and `Stop` of the receiver, the two goroutines of the receiver side by
side, and the part of a pass of the playback loop after its pause test. -/

/-- The outcome of a call that may wait: it returned, it panicked, or it waits for
ever. -/
inductive Outcome (α : Type) where
  | returned (a : α)
  | panicked
  | blocked
  deriving DecidableEq, Repr

namespace telemetry

/-- What the system answers during `Start`. -/
structure StartSys where
  /-- The result of `net.ListenUDP`: an error, or nil for a new socket. -/
  listen : Option Error
  /-- The value of `time.Now()`. -/
  now : Time

/-- `Start`. When it returns nil the goroutine `receiveLoop` has been launched and
the wait group counts it. -/
def Receiver.Start (r : Receiver) (sys : StartSys) : Receiver × Option Error :=
  if r.running then
    (r, some (Error.errorString "receiver already running"))
  else
    match sys.listen with
    | some err => (r, some (Error.wrapError "failed to bind UDP socket" err))
    | none =>
      let r := { r with conn := some { closed := false } }
      let r := { r with running := true }
      let r := { r with stats := { PacketsReceived := 0, BytesReceived := 0, Errors := 0,
                                   StartTime := sys.now } }
      let r := { r with wg := r.wg + 1 }
      (r, none)

/-- `Stop`, as one call from `Lock` to the deferred `Unlock`. `loopExits` says
whether every goroutine the wait group counts calls `Done` while `Stop` is in
`r.wg.Wait()`; the goroutines change nothing else of the receiver meanwhile. -/
def Receiver.Stop (r : Receiver) (loopExits : Bool) : Outcome (Receiver × Option Error) :=
  if !r.running then Outcome.returned (r, none)
  else
    if r.stopChan then Outcome.panicked
    else
      let r := { r with stopChan := true }
      let r := { r with running := false }
      let r := match r.conn with
        | some c => { r with conn := some { c with closed := true } }
        | none => r
      -- r.wg.Wait()
      if r.wg ≠ 0 ∧ !loopExits then Outcome.blocked
      else
        let r := { r with wg := 0 }
        if r.packets.closed then Outcome.panicked
        else Outcome.returned ({ r with packets := { r.packets with closed := true } }, none)

/-- `IsRunning`. -/
def Receiver.IsRunning (r : Receiver) : Bool := r.running

/-! ### `Stop` and `receiveLoop` side by side

The goroutine that calls `Stop` and the goroutine `receiveLoop` move one statement
at a time, in any order. The mutex `r.mu` is explicit: `Stop` holds it from its
first statement to its return, and every locked section of the loop
(`IsRunning`, `incrementErrors`, the stats update of `processPacket`) is one step
that can be taken only while the mutex is free. -/

/-- Where the goroutine that calls `Stop` stands: the statement it is about to
run, or how the call ended. -/
inductive StopAt where
  | lock
  | testRunning
  | closeStopChan
  | clearRunning
  | closeConn
  | wait
  | closePackets
  | returned
  | panicked
  deriving DecidableEq, Repr

/-- What `r.conn.ReadFromUDP(buffer)` returns on an open socket: the deadline
passed, another error, or a datagram. -/
inductive ReadResult where
  | timeout
  | failed
  | datagram (data : List Byte)
  deriving DecidableEq, Repr

/-- Where the goroutine `receiveLoop` stands: the statement it is about to run. -/
inductive LoopAt where
  /-- The `select` on `r.stopChan` at the top of the loop. -/
  | select
  /-- In `r.conn.ReadFromUDP(buffer)`, the deadline being set. -/
  | read
  /-- The call `r.IsRunning()` after a read error that is no timeout. -/
  | isRunning
  /-- A call of `r.incrementErrors()`. -/
  | incrementErrors
  /-- The start of `processPacket(data)`: `ParseHeader`. -/
  | parse (data : List Byte)
  /-- The stats update of `processPacket`, under the lock. -/
  | count (packet : RecordedPacket)
  /-- The non-blocking send of `processPacket`. -/
  | publish (packet : RecordedPacket)
  /-- The loop has returned and `wg.Done()` has run. -/
  | exited
  | panicked
  deriving DecidableEq, Repr

/-- The receiver with the two goroutines. `muHeld` says that `Stop` holds `r.mu`. -/
structure World where
  r : Receiver
  muHeld : Bool
  stop : StopAt
  loop : LoopAt
  deriving DecidableEq, Repr

/-- One statement of `Stop`; `none` when the goroutine cannot move: it waits, or
the call has ended. -/
def World.stopStep (w : World) : Option World :=
  match w.stop with
  | StopAt.lock =>
    if w.muHeld then none else some { w with muHeld := true, stop := StopAt.testRunning }
  | StopAt.testRunning =>
    if !w.r.running then some { w with muHeld := false, stop := StopAt.returned }
    else some { w with stop := StopAt.closeStopChan }
  | StopAt.closeStopChan =>
    if w.r.stopChan then some { w with muHeld := false, stop := StopAt.panicked }
    else some { w with r := { w.r with stopChan := true }, stop := StopAt.clearRunning }
  | StopAt.clearRunning =>
    some { w with r := { w.r with running := false }, stop := StopAt.closeConn }
  | StopAt.closeConn =>
    match w.r.conn with
    | some c =>
      let r := { w.r with conn := some { c with closed := true } }
      some { w with r := r, stop := StopAt.wait }
    | none => some { w with stop := StopAt.wait }
  | StopAt.wait => if w.r.wg = 0 then some { w with stop := StopAt.closePackets } else none
  | StopAt.closePackets =>
    if w.r.packets.closed then some { w with muHeld := false, stop := StopAt.panicked }
    else
      let r := { w.r with packets := { w.r.packets with closed := true } }
      some { w with r := r, muHeld := false, stop := StopAt.returned }
  | StopAt.returned => none
  | StopAt.panicked => none

/-- The loop returns: the deferred `r.wg.Done()` runs. -/
def World.loopExit (w : World) : World :=
  { w with r := { w.r with wg := w.r.wg - 1 }, loop := LoopAt.exited }

/-- One statement of `receiveLoop`; `read` is what the socket returns if the loop
is reading and the socket is open, `now` the value of `time.Now()`. The value is
`none` when the goroutine cannot move: it waits for the mutex, or it has ended. -/
def World.loopStep (w : World) (read : ReadResult) (now : Time) : Option World :=
  match w.loop with
  | LoopAt.select =>
    if w.r.stopChan then some w.loopExit else some { w with loop := LoopAt.read }
  | LoopAt.read =>
    -- a read on a nil or closed socket fails at once, and not with a timeout
    let closed := match w.r.conn with
      | some c => c.closed
      | none => true
    match (if closed then ReadResult.failed else read) with
    | ReadResult.timeout => some { w with loop := LoopAt.select }
    | ReadResult.failed => some { w with loop := LoopAt.isRunning }
    | ReadResult.datagram data =>
      if data.length > 0 then some { w with loop := LoopAt.parse data }
      else some { w with loop := LoopAt.select }
  | LoopAt.isRunning =>
    if w.muHeld then none
    else if !w.r.IsRunning then some w.loopExit
    else some { w with loop := LoopAt.incrementErrors }
  | LoopAt.incrementErrors =>
    if w.muHeld then none
    else some { w with r := w.r.incrementErrors, loop := LoopAt.select }
  | LoopAt.parse data =>
    match ParseHeader data with
    | (_, some _) => some { w with loop := LoopAt.incrementErrors }
    | (none, none) => some { w with loop := LoopAt.panicked }
    | (some header, none) =>
      some { w with loop := LoopAt.count { Timestamp := now, Data := data, Header := header } }
  | LoopAt.count packet =>
    if w.muHeld then none
    else
      let r := { w.r with stats := { w.r.stats with
                  PacketsReceived := (w.r.stats.PacketsReceived + 1) % 2 ^ 64 } }
      let r := { r with stats := { r.stats with
                  BytesReceived :=
                    (r.stats.BytesReceived + packet.Data.length % 2 ^ 64) % 2 ^ 64 } }
      some { w with r := r, loop := LoopAt.publish packet }
  | LoopAt.publish packet =>
    match w.r.packets.trySend packet with
    | none => some { w with loop := LoopAt.panicked }
    | some (packets, true) =>
      let r := { w.r with packets := packets }
      some { w with r := r, loop := LoopAt.select }
    | some (packets, false) =>
      let r := { w.r with packets := packets }
      some { w with r := r, loop := LoopAt.incrementErrors }
  | LoopAt.exited => none
  | LoopAt.panicked => none

/-- A step of one of the two goroutines. -/
inductive Move where
  | stop
  | loop (read : ReadResult) (now : Time)
  deriving DecidableEq, Repr

/-- The world after a sequence of moves; `none` when one of them cannot be made. -/
def World.run (w : World) : List Move → Option World
  | [] => some w
  | Move.stop :: rest =>
    match w.stopStep with
    | none => none
    | some w => World.run w rest
  | Move.loop read now :: rest =>
    match w.loopStep read now with
    | none => none
    | some w => World.run w rest

end telemetry

namespace playback

/-- The part of a pass of `playbackLoop` after the pause test (the loop
`for p.IsPaused()` has been left): read, pace, send, publish, count. -/
def Loop.afterPauseTest (sys : LoopSys) (l : Loop) : LoopStep :=
  -- Read next packet
  let (p, timestamp, packetData, err) := l.p.readPacket
  match err with
  | some _ =>
    -- Reached end of recording, or read error: stop playback
    match p.Stop with
    | none => LoopStep.panicked
    | some (p, _) => LoopStep.done { l with p := p }
  | none =>
    -- Calculate delay based on timestamp difference
    let events := Loop.pace sys { l with p := p } timestamp
    -- Send packet
    let (p, _) := p.sendPacket packetData
    let events := events ++ [LoopEvent.send packetData]
    -- Parse and send packet to channel for telemetry display
    match p.publish timestamp packetData with
    | none => LoopStep.panicked
    | some p =>
      -- Update stats
      let p := { p with stats := { p.stats with
                  PacketsPlayed := (p.stats.PacketsPlayed + 1) % 2 ^ 64
                  BytesSent := (p.stats.BytesSent + packetData.length % 2 ^ 64) % 2 ^ 64
                  CurrentTime := sys.now events.length
                  RecordingTime := Time.Unix0 timestamp } }
      LoopStep.next { p := p, lastTimestamp := timestamp, events := events }

end playback

/-! ## Concrete inputs -/

namespace sample

/-- A 29-byte datagram: format 2024, game year 24, version 1.17, packet version 1,
packet ID 6, session UID 0x0807060504030201, session time 1.0 (bits 0x3F800000),
frame 258, overall frame 772, player car 19, secondary player car 255. -/
def header29 : List Byte :=
  [232, 7, 24, 1, 17, 1, 6, 1, 2, 3, 4, 5, 6, 7, 8, 0, 0, 128, 63, 2, 1, 0, 0, 4, 3, 0, 0,
   19, 255]

/-- The header of `header29`, decoded. -/
def header : telemetry.PacketHeader :=
  { PacketFormat := 2024, GameYear := 24, GameMajorVersion := 1, GameMinorVersion := 17,
    PacketVersion := 1, PacketID := 6, SessionUID := 0x0807060504030201,
    SessionTime := ⟨0x3F800000⟩, FrameIdentifier := 258, OverallFrameIdentifier := 772,
    PlayerCarIndex := 19, SecondaryPlayerCarIndex := 255 }

/-- A packet received at 2023-11-14 22:13:20 UTC carrying `header29`. -/
def packetA : telemetry.RecordedPacket :=
  { Timestamp := ⟨1700000000000000000⟩, Data := header29, Header := header }

/-- A packet received one nanosecond before the Unix epoch, with three bytes of data. -/
def packetB : telemetry.RecordedPacket :=
  { Timestamp := ⟨-1⟩, Data := [1, 2, 3], Header := header }

/-- A packet with no data. -/
def packetC : telemetry.RecordedPacket :=
  { Timestamp := ⟨1700000000000000500⟩, Data := [], Header := header }

/-- A recorder as `NewRecorder` makes it. -/
def newRecorder : recorder.Recorder :=
  { outputPath := "recordings/2023-11-14_22-13-20_session.f1tr"
    file := none
    stats := { PacketsRecorded := 0, BytesWritten := 0, StartTime := recorder.zeroTime,
               SessionName := "session" }
    running := false }

/-- A system on which the file is created with room for 1000 bytes. -/
def startSys : recorder.StartSys :=
  { create := .ok 1000, now := ⟨1700000000000000000⟩, headerNow := ⟨1700000000000000001⟩ }

/-- A system on which the file is created but the disk has room for 3 bytes only. -/
def fullDiskSys : recorder.StartSys :=
  { create := .ok 3, now := ⟨1700000000000000000⟩, headerNow := ⟨1700000000000000001⟩ }

/-- A system on which the file cannot be created. -/
def noCreateSys : recorder.StartSys :=
  { create := .error Error.ErrSystem, now := ⟨1700000000000000000⟩,
    headerNow := ⟨1700000000000000001⟩ }

/-- An open, empty file with room for 1000 bytes. -/
def emptyFile : os.WFile := { content := [], limit := 1000, closed := false }

/-- A running recorder writing to `emptyFile`. -/
def runningRecorder : recorder.Recorder :=
  { newRecorder with file := some emptyFile, running := true }

/-- The system on which `NewRecorder` made `newRecorder`. -/
def newSys : recorder.NewSys :=
  { mkdirAll := none, timestamp := "2023-11-14_22-13-20",
    join := fun dir file => dir ++ "/" ++ file }

/-- A player as `NewPlayer` makes it, with speed 1.0. -/
def newPlayer : playback.Player :=
  (playback.NewPlayer "recordings/session.f1tr" "127.0.0.1" 20777 ⟨0x3FF0000000000000⟩).1

/-- A system on which the recording opens with the given content and the socket
is made. -/
def playSys (content : List Byte) : playback.StartSys :=
  { open_ := .ok content, dial := none, now := ⟨1700000000000000000⟩ }

/-- A 46-byte file that starts with "F1TS": the magic is wrong in its last byte. -/
def badMagicFile : List Byte := [70, 49, 84, 83, 1, 0] ++ List.replicate 40 0

/-- A 45-byte file that starts with "F1TR" and version 1: one byte short of a header. -/
def shortFile : List Byte := [70, 49, 84, 82, 1, 0] ++ List.replicate 39 0

/-- A 46-byte file that starts with "F1TR" and has version 0. -/
def versionZeroFile : List Byte := [70, 49, 84, 82, 0, 0] ++ List.replicate 40 0

/-- A 46-byte file that starts with "F1TR" and has version 65535. -/
def versionMaxFile : List Byte := [70, 49, 84, 82, 255, 255] ++ List.replicate 40 0

/-- A receiver as `NewReceiver` makes it. -/
def newReceiver : telemetry.Receiver :=
  telemetry.NewReceiver { Port := 20777, Address := "0.0.0.0", BufferSize := 2048,
                          Timeout := 100000000 }

/-- A receiver whose channel holds 100 packets. -/
def fullReceiver : telemetry.Receiver :=
  { newReceiver with
    packets := { buf := List.replicate 100 packetA, cap := 100, closed := false } }

/-- A Session packet of 100 bytes: packet ID 1, weather 0, session type 15,
track id 5. -/
def sessionPacket : List Byte :=
  List.replicate 6 0 ++ [1] ++ List.replicate 22 0 ++ [0] ++ List.replicate 5 0 ++ [15, 5]
    ++ List.replicate 63 0

/-- A Participants packet of 110 bytes: packet ID 4, player car index 0, and the
name "Max Verstappen!!" in the 32 bytes at offset 78. -/
def participantsPacket : List Byte :=
  List.replicate 6 0 ++ [4] ++ List.replicate 71 0 ++ str "Max Verstappen!!"
    ++ List.replicate 16 0

/-- A system for the loop of a player at speed 1.0: dividing a difference by 1.0
gives the difference back (exactly so below 2^53 in absolute value). -/
def loopSys : playback.LoopSys :=
  { adjust := fun timeDiff _ => timeDiff, now := fun _ => ⟨1700000000000000000⟩ }

/-- A recording cut inside its third entry: the header, two whole entries (of 29
and 3 bytes), and the first 5 bytes of an entry with timestamp 7 and payload [9]. -/
def truncatedFile : List Byte :=
  format.header 1700000000000000001
    ++ format.entries [(1700000000000000000, header29), (-1, [1, 2, 3])]
    ++ (format.entry 7 [9]).take 5

/-- A recording of two entries one second apart, the first one stamped 0 (the Unix
epoch itself). -/
def zeroStampFile : List Byte :=
  format.header 0 ++ format.entries [(0, [1]), (1000000000, [2])]

/-- A recording of two entries one second apart, the first one stamped 5 ns. -/
def fiveStampFile : List Byte :=
  format.header 0 ++ format.entries [(5, [1]), (1000000005, [2])]

/-- A Car Telemetry packet of 89 bytes: packet ID 6 and the record of car 0, whose
four tyre surface temperatures (bytes 59 to 62) are 90 degrees each. -/
def telemetryPacket : List Byte :=
  List.replicate 6 0 ++ [6] ++ List.replicate 52 0 ++ [90, 90, 90, 90]
    ++ List.replicate 26 0

/-- A Participants packet of 110 bytes: packet ID 4, player car index 0, and the
name "!!!" in the 32 bytes at offset 78. -/
def bangPacket : List Byte :=
  List.replicate 6 0 ++ [4] ++ List.replicate 71 0 ++ str "!!!" ++ List.replicate 29 0

/-- A Participants packet of 110 bytes: packet ID 4, player car index 0, and a name
of three spaces in the 32 bytes at offset 78. -/
def blankPacket : List Byte :=
  List.replicate 6 0 ++ [4] ++ List.replicate 71 0 ++ str "   " ++ List.replicate 29 0

/-- A Participants packet of 110 bytes: packet ID 4, player car index 0, and the
name "session" in the 32 bytes at offset 78. -/
def sessionNamePacket : List Byte :=
  List.replicate 6 0 ++ [4] ++ List.replicate 71 0 ++ str "session" ++ List.replicate 25 0

/-- A Session packet of 100 bytes: packet ID 1, weather 0, session type 15, and the
track byte 255, the id -1, which the table does not list. -/
def unlistedTrackPacket : List Byte :=
  List.replicate 6 0 ++ [1] ++ List.replicate 22 0 ++ [0] ++ List.replicate 5 0 ++ [15, 255]
    ++ List.replicate 63 0

/-- A recorder that was started, recorded `packetA`, and was stopped. -/
def stoppedRecorder : recorder.Recorder :=
  (((newRecorder.Start startSys).1.RecordPacket packetA).1.Stop).1

/-- A player started on `zeroStampFile`. -/
def startedPlayer : playback.Player :=
  (newPlayer.Start (playSys zeroStampFile)).1

/-- The player `startedPlayer` after `Stop`. -/
def stoppedPlayer : playback.Player :=
  match startedPlayer.Stop with
  | some (p, _) => p
  | none => startedPlayer

/-- A system on which the socket is bound. -/
def listenSys : telemetry.StartSys := { listen := none, now := ⟨1700000000000000000⟩ }

/-- A receiver that was started. -/
def startedReceiver : telemetry.Receiver := (newReceiver.Start listenSys).1

/-- The receiver `startedReceiver` after a `Stop` during which the loop exits. -/
def stoppedReceiver : telemetry.Receiver :=
  match startedReceiver.Stop true with
  | Outcome.returned (r, _) => r
  | _ => startedReceiver

/-- The started receiver with its loop waiting in the socket read, at the moment
`Stop` is called. -/
def stopWorld : telemetry.World :=
  { r := startedReceiver, muHeld := false, stop := telemetry.StopAt.lock,
    loop := telemetry.LoopAt.read }

/-- The world `stopWorld` after `Stop` has closed the socket and the read of the
loop has failed: `Stop` waits for the loop, the loop is about to call `IsRunning`. -/
def stuckWorld : telemetry.World :=
  { r := { startedReceiver with stopChan := true, running := false,
                                conn := some { closed := true } }
    muHeld := true, stop := telemetry.StopAt.wait, loop := telemetry.LoopAt.isRunning }

/-- A Participants packet of 110 bytes: packet ID 4, player car index 0, and in the
32 bytes at offset 78 a tab, a space, "Max Verstappen!!", a space, a no-break space
(U+00A0, bytes C2 A0), a space, a NUL byte, and after it "Lewis". -/
def paddedNamePacket : List Byte :=
  List.replicate 6 0 ++ [4] ++ List.replicate 71 0 ++ [9, 32] ++ str "Max Verstappen!!"
    ++ [32, 0xC2, 0xA0, 32, 0] ++ str "Lewis" ++ List.replicate 4 0

end sample

/-! # Theorems -/

/-! ## Little-endian encoding -/

namespace binary

theorem lePut_length (w v : Nat) : (lePut w v).length = w := by
  induction w generalizing v with
  | zero => rfl
  | succ w ih => simp [lePut, ih]

theorem leUint_lePut (w v : Nat) : leUint (lePut w v) = v % 256 ^ w := by
  induction w generalizing v with
  | zero => simp [lePut, leUint, Nat.mod_one]
  | succ w ih =>
    simp only [lePut, leUint, ih]
    rw [pow_succ, Nat.mul_comm (256 ^ w) 256, Nat.mod_mul]

theorem leUint_take_drop (data : List Byte) (lo k : Nat) (h : lo < data.length) :
    leUint ((data.drop lo).take (k + 1))
      = data[lo].val + 256 * leUint ((data.drop (lo + 1)).take k) := by
  rw [List.drop_eq_getElem_cons h]
  simp [leUint]

end binary

/-! ## The packet header -/

namespace telemetry

/-- The header `ParseHeader` builds, field by field, for an input of 29 bytes or more. -/
theorem ParseHeader_eq (data : List Byte) (h : 29 ≤ data.length) :
    ParseHeader data = (some {
      PacketFormat := data[0].val + 256 * data[1].val
      GameYear := data[2].val
      GameMajorVersion := data[3].val
      GameMinorVersion := data[4].val
      PacketVersion := data[5].val
      PacketID := data[6].val
      SessionUID := data[7].val + 256 * (data[8].val + 256 * (data[9].val + 256 * (data[10].val
        + 256 * (data[11].val + 256 * (data[12].val + 256 * (data[13].val
        + 256 * data[14].val))))))
      SessionTime := ⟨data[15].val + 256 * (data[16].val + 256 * (data[17].val
        + 256 * data[18].val))⟩
      FrameIdentifier := data[19].val + 256 * (data[20].val + 256 * (data[21].val
        + 256 * data[22].val))
      OverallFrameIdentifier := data[23].val + 256 * (data[24].val + 256 * (data[25].val
        + 256 * data[26].val))
      PlayerCarIndex := data[27].val
      SecondaryPlayerCarIndex := data[28].val }, none) := by
  have hlt : ¬ data.length < 29 := by omega
  have e16 : binary.leUint ((data.drop 0).take 2) = data[0].val + 256 * data[1].val := by
    rw [binary.leUint_take_drop data 0 1 (by omega), binary.leUint_take_drop data 1 0 (by omega)]
    simp [binary.leUint]
  have e32 : ∀ lo, (hlo : lo + 4 ≤ data.length) → binary.leUint ((data.drop lo).take 4)
      = data[lo].val + 256 * (data[lo + 1].val + 256 * (data[lo + 2].val
        + 256 * data[lo + 3].val)) := by
    intro lo hlo
    rw [binary.leUint_take_drop data lo 3 (by omega),
      binary.leUint_take_drop data (lo + 1) 2 (by omega),
      binary.leUint_take_drop data (lo + 1 + 1) 1 (by omega),
      binary.leUint_take_drop data (lo + 1 + 1 + 1) 0 (by omega)]
    simp [binary.leUint]
  have e64 : binary.leUint ((data.drop 7).take 8)
      = data[7].val + 256 * (data[8].val + 256 * (data[9].val + 256 * (data[10].val
        + 256 * (data[11].val + 256 * (data[12].val + 256 * (data[13].val
        + 256 * data[14].val)))))) := by
    rw [binary.leUint_take_drop data 7 7 (by omega), binary.leUint_take_drop data 8 6 (by omega),
      binary.leUint_take_drop data 9 5 (by omega), binary.leUint_take_drop data 10 4 (by omega),
      binary.leUint_take_drop data 11 3 (by omega), binary.leUint_take_drop data 12 2 (by omega),
      binary.leUint_take_drop data 13 1 (by omega), binary.leUint_take_drop data 14 0 (by omega)]
    simp [binary.leUint]
  unfold ParseHeader
  rw [dif_neg hlt]
  simp only [slice, binary.Uint16, binary.Uint32, binary.Uint64,
    float32FromBytes, float32frombits, List.take_take]
  simp only [show (2 ⊓ (2 - 0) : ℕ) = 2 from rfl, show (8 ⊓ (15 - 7) : ℕ) = 8 from rfl,
    show (4 ⊓ (19 - 15) : ℕ) = 4 from rfl, show (4 ⊓ (23 - 19) : ℕ) = 4 from rfl,
    show (4 ⊓ (27 - 23) : ℕ) = 4 from rfl]
  have a15 := e32 15 (by omega)
  have a19 := e32 19 (by omega)
  have a23 := e32 23 (by omega)
  simp only [Nat.reduceAdd] at a15 a19 a23
  simp only [e16, e64, a15, a19, a23]

theorem getElem_eq_of_take_eq (a b : List Byte) (n i : Nat) (h : a.take n = b.take n)
    (hi : i < n) (ha : i < a.length) (hb : i < b.length) : a[i] = b[i] := by
  have h1 : (a.take n)[i]? = (b.take n)[i]? := by rw [h]
  simp only [List.getElem?_take, hi, if_true, List.getElem?_eq_getElem ha,
    List.getElem?_eq_getElem hb, Option.some.injEq] at h1
  exact h1

/-- C2: `ParseHeader` returns an error exactly when the input is shorter than 29
bytes; the error is then `ErrInvalidPacket` and the header is nil, and every input
of 29 bytes or more gives a header and a nil error. -/
theorem ParseHeader_error_iff_short (data : List Byte) :
    ((ParseHeader data).2 ≠ none ↔ data.length < 29) ∧
    (ParseHeader data = (none, some ErrInvalidPacket) ↔ data.length < 29) ∧
    ((∃ hdr, ParseHeader data = (some hdr, none)) ↔ 29 ≤ data.length) := by
  by_cases h : data.length < 29
  · have e : ParseHeader data = (none, some ErrInvalidPacket) := by
      unfold ParseHeader; rw [dif_pos h]
    refine ⟨?_, ?_, ?_⟩
    · simp [e, h]
    · simp [e, h]
    · rw [e]
      constructor
      · rintro ⟨hdr, hh⟩
        simp at hh
      · intro h29
        omega
  · have h29 : 29 ≤ data.length := by omega
    have e := ParseHeader_eq data h29
    refine ⟨?_, ?_, ?_⟩
    · simp [e, h]
    · simp [e, h]
    · constructor
      · intro _
        exact h29
      · intro _
        exact ⟨_, e⟩

/-- C3: for an input of at least 29 bytes `ParseHeader` decodes the little-endian
fields at their fixed offsets (format at 0-1, year, major, minor, packet version and
packet ID at 2-6, session UID at 7-14, the bits of the session time at 15-18, the
frame identifiers at 19-22 and 23-26, the car indices at 27 and 28), and two inputs
that agree on their first 29 bytes decode to the same header. -/
theorem ParseHeader_fields (data : List Byte) (h : 29 ≤ data.length) :
    ∃ hdr, ParseHeader data = (some hdr, none) ∧
      hdr.PacketFormat = data[0].val + 256 * data[1].val ∧
      hdr.GameYear = data[2].val ∧
      hdr.GameMajorVersion = data[3].val ∧
      hdr.GameMinorVersion = data[4].val ∧
      hdr.PacketVersion = data[5].val ∧
      hdr.PacketID = data[6].val ∧
      hdr.SessionUID = data[7].val + 256 * (data[8].val + 256 * (data[9].val
        + 256 * (data[10].val + 256 * (data[11].val + 256 * (data[12].val
        + 256 * (data[13].val + 256 * data[14].val)))))) ∧
      hdr.SessionTime.bits = data[15].val + 256 * (data[16].val + 256 * (data[17].val
        + 256 * data[18].val)) ∧
      hdr.FrameIdentifier = data[19].val + 256 * (data[20].val + 256 * (data[21].val
        + 256 * data[22].val)) ∧
      hdr.OverallFrameIdentifier = data[23].val + 256 * (data[24].val
        + 256 * (data[25].val + 256 * data[26].val)) ∧
      hdr.PlayerCarIndex = data[27].val ∧
      hdr.SecondaryPlayerCarIndex = data[28].val ∧
      ∀ other : List Byte, 29 ≤ other.length → other.take 29 = data.take 29 →
        ParseHeader other = ParseHeader data := by
  refine ⟨_, ParseHeader_eq data h, rfl, rfl, rfl, rfl, rfl, rfl, rfl, rfl, rfl, rfl, rfl, rfl, ?_⟩
  intro other ho ht
  have key : ∀ i (hi : i < 29), other[i] = data[i] := fun i hi =>
    getElem_eq_of_take_eq other data 29 i ht hi (by omega) (by omega)
  rw [ParseHeader_eq data h, ParseHeader_eq other ho]
  simp only [key 0 (by omega), key 1 (by omega), key 2 (by omega), key 3 (by omega), key 4 (by
    omega), key 5 (by omega), key 6 (by omega), key 7 (by omega), key 8 (by omega), key 9 (by
    omega), key 10 (by omega), key 11 (by omega), key 12 (by omega), key 13 (by omega), key 14
    (by omega), key 15 (by omega), key 16 (by omega), key 17 (by omega), key 18 (by omega), key
    19 (by omega), key 20 (by omega), key 21 (by omega), key 22 (by omega), key 23 (by omega),
    key 24 (by omega), key 25 (by omega), key 26 (by omega), key 27 (by omega), key 28 (by
    omega)]

/-- Witness for C3: the 29-byte sample decodes to its documented fields. -/
theorem ParseHeader_fields_witness :
    29 ≤ sample.header29.length ∧
    ∃ hdr, ParseHeader sample.header29 = (some hdr, none) ∧
      hdr.PacketFormat = 2024 ∧ hdr.GameYear = 24 ∧ hdr.PacketID = 6 ∧
      hdr.SessionUID = 0x0807060504030201 ∧ hdr.SessionTime.bits = 0x3F800000 ∧
      hdr.FrameIdentifier = 258 ∧ hdr.OverallFrameIdentifier = 772 ∧
      hdr.PlayerCarIndex = 19 ∧ hdr.SecondaryPlayerCarIndex = 255 := by
  obtain ⟨hdr, e, h0, h2, _, _, _, h6, h7, h15, h19, h23, h27, h28, _⟩ :=
    ParseHeader_fields sample.header29 (by decide)
  refine ⟨by decide, hdr, e, ?_, ?_, ?_, ?_, ?_, ?_, ?_, ?_, ?_⟩
  · rw [h0]; rfl
  · rw [h2]; rfl
  · rw [h6]; rfl
  · rw [h7]; rfl
  · rw [h15]; rfl
  · rw [h19]; rfl
  · rw [h23]; rfl
  · rw [h27]; rfl
  · rw [h28]; rfl

end telemetry

/-! ## Writing files -/

namespace os

theorem Write_ok (f : WFile) (b : List Byte) (hc : f.closed = false)
    (hroom : f.content.length + b.length ≤ min f.limit maxFileSize) :
    Write (some f) b = (some { f with content := f.content ++ b }, b.length, none) := by
  have h1 : min b.length f.room = b.length := by
    unfold WFile.room; omega
  simp only [Write, hc, h1, Bool.false_eq_true, if_false, List.take_length, lt_irrefl]

/-- A write that does not fit in an open file fails. -/
theorem Write_no_room (f : WFile) (b : List Byte) (hc : f.closed = false)
    (hlen : 0 < b.length ∨ f.content.length ≤ min f.limit maxFileSize)
    (hroom : ¬ f.content.length + b.length ≤ min f.limit maxFileSize) :
    (Write (some f) b).2.2 = some Error.ErrNoSpace := by
  have h1 : min b.length f.room < b.length := by
    unfold WFile.room
    generalize min f.limit maxFileSize = m at hlen hroom ⊢
    have := Nat.min_le_right b.length (m - f.content.length)
    omega
  simp only [Write, hc, Bool.false_eq_true, if_false, h1, if_true]

/-- Whatever a write does, the file stays within its limit when it was within it. -/
theorem Write_within (f g : WFile) (b : List Byte) (h : (Write (some f) b).1 = some g)
    (hlen : f.content.length ≤ min f.limit maxFileSize) :
    g.content.length ≤ min g.limit maxFileSize ∧ g.limit = f.limit
      ∧ f.content.length ≤ g.content.length := by
  unfold Write at h
  cases hc : f.closed with
  | true =>
    simp only [hc, if_true, Option.some.injEq] at h
    subst h
    exact ⟨hlen, rfl, le_refl _⟩
  | false =>
    simp only [hc, Bool.false_eq_true, if_false, Option.some.injEq] at h
    subst h
    simp only [List.length_append, List.length_take, WFile.room]
    generalize min f.limit maxFileSize = m at hlen ⊢
    have h1 := Nat.min_le_right b.length (m - f.content.length)
    have h2 := Nat.min_le_left (min b.length (m - f.content.length)) b.length
    generalize min b.length (m - f.content.length) = x at h1 h2 ⊢
    generalize min x b.length = y at h2 ⊢
    refine ⟨by omega, trivial, by omega⟩

/-- The shape of any write to a file: the file stays, keeps its limit, does not
shrink, and stays within its limit when it was within it. -/
theorem Write_some (f : WFile) (b : List Byte) :
    ∃ g n e, Write (some f) b = (some g, n, e) ∧ g.limit = f.limit ∧
      f.content.length ≤ g.content.length ∧
      (f.content.length ≤ min f.limit maxFileSize →
        g.content.length ≤ min g.limit maxFileSize) := by
  have hsome : ∃ g, (Write (some f) b).1 = some g := by
    unfold Write
    cases hc : f.closed <;> simp [hc]
  obtain ⟨g, hg⟩ := hsome
  refine ⟨g, (Write (some f) b).2.1, (Write (some f) b).2.2, ?_, ?_, ?_, ?_⟩
  · rw [← hg]
  · unfold Write at hg
    cases hc : f.closed with
    | true =>
      simp only [hc, if_true, Option.some.injEq] at hg
      rw [← hg]
    | false =>
      simp only [hc, Bool.false_eq_true, if_false, Option.some.injEq] at hg
      rw [← hg]
  · unfold Write at hg
    cases hc : f.closed with
    | true =>
      simp only [hc, if_true, Option.some.injEq] at hg
      rw [← hg]
    | false =>
      simp only [hc, Bool.false_eq_true, if_false, Option.some.injEq] at hg
      rw [← hg]
      simp
  · intro hlen
    exact (Write_within f g b hg hlen).1

/-- A write of at least one byte that returns nil was made on an open file with
room for all the bytes. -/
theorem Write_nil (f : WFile) (b : List Byte) (hb : 0 < b.length)
    (h : (Write (some f) b).2.2 = none) :
    f.closed = false ∧ f.content.length + b.length ≤ min f.limit maxFileSize := by
  cases hc : f.closed with
  | true => simp [Write, hc] at h
  | false =>
    refine ⟨rfl, ?_⟩
    by_contra hroom
    rw [Write_no_room f b hc (Or.inl hb) hroom] at h
    cases h

end os

namespace binary

theorem Write_fits (f : os.WFile) (b : List Byte) (hc : f.closed = false)
    (hroom : f.content.length + b.length ≤ min f.limit os.maxFileSize) :
    Write (some f) b = (some { f with content := f.content ++ b }, none) := by
  simp only [Write, os.Write_ok f b hc hroom]

end binary

namespace recorder

theorem header_length (n : Int) : (format.header n).length = 46 := by
  simp [format.header, binary.lePut_length]

theorem entry_length (ts : Int) (payload : List Byte) :
    (format.entry ts payload).length = payload.length + 12 := by
  simp [format.entry, binary.lePut_length]
  omega

/-- `writeFileHeader` on an open file with room for 46 bytes appends the header. -/
theorem writeFileHeader_ok (r : Recorder) (now : Time) (f : os.WFile) (hf : r.file = some f)
    (hc : f.closed = false)
    (hroom : f.content.length + 46 ≤ min f.limit os.maxFileSize) :
    r.writeFileHeader now
      = ({ r with file := some { f with content := f.content ++ format.header now.UnixNano } },
          none) := by
  obtain ⟨c, l, cl⟩ := f
  simp only at hc hroom
  subst hc
  unfold Recorder.writeFileHeader
  simp only [hf]
  rw [os.Write_ok ⟨c, l, false⟩ _ rfl (by simp; omega)]
  simp only [Option.isSome_none, Bool.false_eq_true, if_false]
  rw [binary.Write_fits ⟨_, l, false⟩ _ rfl (by
    simp [binary.PutUint16, binary.lePut_length]; omega)]
  simp only [Option.isSome_none, Bool.false_eq_true, if_false]
  rw [binary.Write_fits ⟨_, l, false⟩ _ rfl (by
    simp [binary.PutUint16, binary.PutUint64, binary.lePut_length]; omega)]
  simp only [Option.isSome_none, Bool.false_eq_true, if_false]
  rw [os.Write_ok ⟨_, l, false⟩ _ rfl (by
    simp [binary.PutUint16, binary.PutUint64, binary.lePut_length]; omega)]
  simp only [Option.isSome_none, Bool.false_eq_true, if_false, format.header,
    binary.PutUint16, binary.PutUint64, List.append_assoc]

/-- `RecordPacket` on a running recorder whose file is open and has room for the
entry: the entry is appended and both counters move. -/
theorem RecordPacket_ok (r : Recorder) (packet : telemetry.RecordedPacket) (f : os.WFile)
    (hrun : r.running = true) (hf : r.file = some f) (hc : f.closed = false)
    (hroom : f.content.length + (packet.Data.length + 12) ≤ min f.limit os.maxFileSize) :
    r.RecordPacket packet
      = ({ r with
            file := some { f with
              content := f.content ++ format.entry packet.Timestamp.UnixNano packet.Data }
            stats := { r.stats with
              PacketsRecorded := (r.stats.PacketsRecorded + 1) % 2 ^ 64
              BytesWritten :=
                (r.stats.BytesWritten + (packet.Data.length + 12) % 2 ^ 64) % 2 ^ 64 } },
          none) := by
  obtain ⟨c, l, cl⟩ := f
  simp only at hc hroom
  subst hc
  unfold Recorder.RecordPacket
  simp only [hrun, hf, Bool.not_true, Bool.false_eq_true, if_false]
  rw [binary.Write_fits ⟨c, l, false⟩ _ rfl (by
    simp [binary.PutUint64, binary.lePut_length]; omega)]
  simp only []
  rw [binary.Write_fits ⟨_, l, false⟩ _ rfl (by
    simp [binary.PutUint32, binary.PutUint64, binary.lePut_length]; omega)]
  simp only []
  rw [os.Write_ok ⟨_, l, false⟩ _ rfl (by
    simp [binary.PutUint32, binary.PutUint64, binary.lePut_length]; omega)]
  simp only [format.entry, binary.PutUint32, binary.PutUint64, toUint32, List.append_assoc]

/-- A `RecordPacket` that returns nil was made on a running recorder whose file was
open and had room for the whole entry. -/
theorem RecordPacket_nil (r : Recorder) (packet : telemetry.RecordedPacket)
    (h : (r.RecordPacket packet).2 = none) :
    r.running = true ∧ ∃ f, r.file = some f ∧ f.closed = false ∧
      f.content.length + (packet.Data.length + 12) ≤ min f.limit os.maxFileSize := by
  cases hrun : r.running with
  | false => simp [Recorder.RecordPacket, hrun] at h
  | true =>
    refine ⟨rfl, ?_⟩
    cases hf : r.file with
    | none =>
      simp [Recorder.RecordPacket, hrun, hf, binary.Write, os.Write] at h
    | some f =>
      obtain ⟨c, l, cl⟩ := f
      cases cl with
      | true => simp [Recorder.RecordPacket, hrun, hf, binary.Write, os.Write] at h
      | false =>
        refine ⟨_, rfl, rfl, ?_⟩
        simp only
        by_contra hroom
        unfold Recorder.RecordPacket at h
        simp only [hrun, hf, Bool.not_true, Bool.false_eq_true, if_false] at h
        by_cases h8 : c.length + 8 ≤ min l os.maxFileSize
        · rw [binary.Write_fits ⟨c, l, false⟩ _ rfl (by
            simp [binary.PutUint64, binary.lePut_length]; omega)] at h
          simp only [] at h
          by_cases h12 : c.length + 12 ≤ min l os.maxFileSize
          · rw [binary.Write_fits ⟨_, l, false⟩ _ rfl (by
              simp [binary.PutUint32, binary.PutUint64, binary.lePut_length]; omega)] at h
            simp only [] at h
            have hw := os.Write_no_room
              ⟨c ++ binary.PutUint64 (toUint64 packet.Timestamp.UnixNano)
                ++ binary.PutUint32 (toUint32 packet.Data.length), l, false⟩ packet.Data rfl
              (Or.inr (by
                simp [binary.PutUint32, binary.PutUint64, binary.lePut_length]; omega)) (by
                simp [binary.PutUint32, binary.PutUint64, binary.lePut_length]; omega)
            revert h
            generalize os.Write _ packet.Data = w at hw ⊢
            obtain ⟨w1, w2, w3⟩ := w
            simp only at hw
            subst hw
            simp
          · have hw := os.Write_no_room
              ⟨c ++ binary.PutUint64 (toUint64 packet.Timestamp.UnixNano), l, false⟩
              (binary.PutUint32 (toUint32 packet.Data.length)) rfl
              (Or.inl (by simp [binary.PutUint32, binary.lePut_length])) (by
                simp [binary.PutUint32, binary.PutUint64, binary.lePut_length]; omega)
            revert h
            unfold binary.Write
            generalize os.Write _ (binary.PutUint32 _) = w at hw ⊢
            obtain ⟨w1, w2, w3⟩ := w
            simp only at hw
            subst hw
            simp
        · have hw := os.Write_no_room ⟨c, l, false⟩
              (binary.PutUint64 (toUint64 packet.Timestamp.UnixNano)) rfl
              (Or.inl (by simp [binary.PutUint64, binary.lePut_length])) (by
                simp [binary.PutUint64, binary.lePut_length]; omega)
          revert h
          unfold binary.Write
          generalize os.Write _ (binary.PutUint64 _) = w at hw ⊢
          obtain ⟨w1, w2, w3⟩ := w
          simp only at hw
          subst hw
          simp

end recorder

/-! ## Integer conversions -/

theorem toUint64_lt (v : Int) : toUint64 v < 2 ^ 64 := by
  unfold toUint64
  have h1 : 0 ≤ v % (2 ^ 64 : Int) := Int.emod_nonneg _ (by norm_num)
  have h2 : v % (2 ^ 64 : Int) < 2 ^ 64 := Int.emod_lt_of_pos _ (by norm_num)
  omega

theorem toInt64_toUint64 (v : Int) : toInt64 (toUint64 v : Nat) = toInt64 v := by
  unfold toInt64 toUint64
  have h1 : 0 ≤ v % (2 ^ 64 : Int) := Int.emod_nonneg _ (by norm_num)
  rw [Int.toNat_of_nonneg h1]
  omega

theorem toInt64_of_fits (v : Int) (h1 : -2 ^ 63 ≤ v) (h2 : v < 2 ^ 63) : toInt64 v = v := by
  unfold toInt64
  omega

theorem toInt64_idem (v : Int) : toInt64 (toInt64 v) = toInt64 v := by
  unfold toInt64
  omega

/-- Decoding the eight bytes written for an `int64` gives the value back. -/
theorem Uint64_PutUint64 (v : Int) :
    toInt64 (binary.Uint64 (binary.PutUint64 (toUint64 v)) : Nat) = toInt64 v := by
  have hl : (binary.lePut 8 (toUint64 v)).length = 8 := binary.lePut_length 8 _
  unfold binary.Uint64 binary.PutUint64
  rw [List.take_of_length_le (by omega), binary.leUint_lePut]
  have h := toUint64_lt v
  rw [Nat.mod_eq_of_lt (by norm_num at h ⊢; omega)]
  exact toInt64_toUint64 v

/-- Decoding the four bytes written for a `uint32` gives the value back. -/
theorem Uint32_PutUint32 (n : Nat) : binary.Uint32 (binary.PutUint32 n) = n % 2 ^ 32 := by
  have hl : (binary.lePut 4 n).length = 4 := binary.lePut_length 4 _
  unfold binary.Uint32 binary.PutUint32
  rw [List.take_of_length_le (by omega), binary.leUint_lePut]
  norm_num

/-! ## The recorder: header, entries, counters, state -/

namespace recorder

/-- C4: `Start` on a recorder that is not running, when the file is created and
takes the header, leaves a file of exactly 46 bytes: 'F','1','T','R', then 01 00,
then the creation time in Unix nanoseconds as a little-endian `int64`, then 32 zero
bytes; the file holds nothing else. -/
theorem Start_writes_file_header (r : Recorder) (sys : StartSys) (limit : Nat)
    (hrun : r.running = false) (hcreate : sys.create = .ok limit) (hlimit : 46 ≤ limit) :
    ∃ r' f, r.Start sys = (r', none) ∧ r'.file = some f ∧
      f.content = [70, 49, 84, 82] ++ [1, 0]
        ++ binary.PutUint64 (toUint64 sys.headerNow.UnixNano) ++ List.replicate 32 0 ∧
      f.content.length = 46 ∧
      f.content = format.header sys.headerNow.UnixNano ∧
      toInt64 (binary.Uint64 ((f.content.drop 6).take 8) : Nat) = sys.headerNow.UnixNano ∧
      f.content.drop 14 = List.replicate 32 0 := by
  have hroom : ([] : List Byte).length + 46 ≤ min limit os.maxFileSize := by
    have : (46 : Nat) ≤ os.maxFileSize := by decide
    simp only [List.length_nil, Nat.zero_add]
    exact le_min hlimit this
  have hw := writeFileHeader_ok
    { r with file := some { content := [], limit := limit, closed := false }, running := true,
             stats := { r.stats with StartTime := sys.now } }
    sys.headerNow { content := [], limit := limit, closed := false } rfl rfl hroom
  have hlen8 : (binary.lePut 8 (toUint64 sys.headerNow.UnixNano)).length = 8 :=
    binary.lePut_length 8 _
  refine ⟨{ r with
      file := some { content := [] ++ format.header sys.headerNow.UnixNano, limit := limit,
                     closed := false }
      running := true
      stats := { r.stats with StartTime := sys.now } },
    { content := [] ++ format.header sys.headerNow.UnixNano, limit := limit,
      closed := false }, ?_, rfl, ?_, ?_, ?_, ?_, ?_⟩
  · unfold Recorder.Start
    simp only [hrun, hcreate, Bool.false_eq_true, if_false]
    rw [hw]
  · simp [format.header, binary.PutUint64, binary.lePut]
  · simp [header_length]
  · simp
  · have e : (([] ++ format.header sys.headerNow.UnixNano).drop 6).take 8
        = binary.PutUint64 (toUint64 sys.headerNow.UnixNano) := by
      simp only [format.header, binary.PutUint64, binary.lePut, List.nil_append,
        List.cons_append, List.drop_succ_cons, List.drop_zero, List.append_assoc]
      rfl
    simp only [e]
    rw [Uint64_PutUint64]
    exact toInt64_idem _
  · simp only [format.header, binary.lePut, List.nil_append,
      List.cons_append, List.drop_succ_cons, List.append_assoc]
    rfl

/-- Witness for C4: the sample recorder started on the sample system. -/
theorem Start_writes_file_header_witness :
    sample.newRecorder.running = false ∧ sample.startSys.create = .ok 1000 ∧ 46 ≤ 1000 ∧
    ∃ r' f, sample.newRecorder.Start sample.startSys = (r', none) ∧ r'.file = some f ∧
      f.content = [70, 49, 84, 82, 1, 0, 1, 0, 42, 54, 254, 156, 151, 23]
        ++ List.replicate 32 0 := by
  obtain ⟨r', f, h1, h2, h3, _⟩ :=
    Start_writes_file_header sample.newRecorder sample.startSys 1000 rfl rfl (by decide)
  refine ⟨rfl, rfl, by decide, r', f, h1, h2, ?_⟩
  rw [h3]
  decide

/-- C5: on a running recorder `RecordPacket` returns nil exactly when the file is
open and has room for the entry, and then the file is the old file followed by
exactly one entry: 8 bytes of the timestamp in Unix nanoseconds (little-endian
`int64`), 4 bytes of the payload length (little-endian `uint32`), then the payload
unchanged. The length field is the payload length whenever that is below 2^32. -/
theorem RecordPacket_appends_one_entry (r : Recorder) (packet : telemetry.RecordedPacket)
    (f : os.WFile) (hrun : r.running = true) (hf : r.file = some f) :
    ((r.RecordPacket packet).2 = none ↔
      f.closed = false ∧
        f.content.length + (packet.Data.length + 12) ≤ min f.limit os.maxFileSize) ∧
    ((r.RecordPacket packet).2 = none →
      (r.RecordPacket packet).1.file = some { f with content := f.content
        ++ (binary.PutUint64 (toUint64 packet.Timestamp.UnixNano)
          ++ binary.PutUint32 (toUint32 packet.Data.length) ++ packet.Data) }) ∧
    (binary.PutUint64 (toUint64 packet.Timestamp.UnixNano)).length = 8 ∧
    (binary.PutUint32 (toUint32 packet.Data.length)).length = 4 ∧
    toInt64 (binary.Uint64 (binary.PutUint64 (toUint64 packet.Timestamp.UnixNano)) : Nat)
      = packet.Timestamp.UnixNano ∧
    (packet.Data.length < 2 ^ 32 →
      binary.Uint32 (binary.PutUint32 (toUint32 packet.Data.length)) = packet.Data.length) := by
  have hnil : (r.RecordPacket packet).2 = none →
      f.closed = false ∧
        f.content.length + (packet.Data.length + 12) ≤ min f.limit os.maxFileSize := by
    intro h
    obtain ⟨_, g, hg, hc, hroom⟩ := RecordPacket_nil r packet h
    rw [hf] at hg
    cases hg
    exact ⟨hc, hroom⟩
  refine ⟨⟨hnil, ?_⟩, ?_, ?_, ?_, ?_, ?_⟩
  · rintro ⟨hc, hroom⟩
    rw [RecordPacket_ok r packet f hrun hf hc hroom]
  · intro h
    obtain ⟨hc, hroom⟩ := hnil h
    rw [RecordPacket_ok r packet f hrun hf hc hroom]
    simp only [format.entry, binary.PutUint64, binary.PutUint32, toUint32, List.append_assoc]
  · exact binary.lePut_length 8 _
  · exact binary.lePut_length 4 _
  · rw [Uint64_PutUint64]
    exact toInt64_idem _
  · intro hlt
    rw [Uint32_PutUint32, toUint32, Nat.mod_mod, Nat.mod_eq_of_lt hlt]

/-- Witness for C5: the sample packet recorded into an empty file with room. -/
theorem RecordPacket_appends_one_entry_witness :
    sample.runningRecorder.running = true ∧
    sample.runningRecorder.file = some sample.emptyFile ∧
    (sample.runningRecorder.RecordPacket sample.packetB).2 = none ∧
    (sample.runningRecorder.RecordPacket sample.packetB).1.file
      = some { content := [255, 255, 255, 255, 255, 255, 255, 255, 3, 0, 0, 0, 1, 2, 3],
               limit := 1000, closed := false } := by
  have h := RecordPacket_appends_one_entry sample.runningRecorder sample.packetB
    sample.emptyFile rfl rfl
  have hok : (sample.runningRecorder.RecordPacket sample.packetB).2 = none :=
    h.1.mpr ⟨rfl, by decide⟩
  refine ⟨rfl, rfl, hok, ?_⟩
  rw [h.2.1 hok]
  decide

/-- C7: `RecordPacket` on a recorder that is not running returns the error
"recorder not running" and leaves the recorder as it was: the file, if there is
one, gets no byte, and `PacketsRecorded` and `BytesWritten` keep their values. A
recorder made by `NewRecorder` and a recorder after `Stop` are not running. -/
theorem RecordPacket_not_running (r : Recorder) (packet : telemetry.RecordedPacket) :
    (r.running = false →
      r.RecordPacket packet = (r, some (Error.errorString "recorder not running"))) ∧
    (∀ nsys dir name r0, NewRecorder nsys dir name = (some r0, none) →
      r0.RecordPacket packet = (r0, some (Error.errorString "recorder not running"))) ∧
    (r.Stop.1.RecordPacket packet
      = (r.Stop.1, some (Error.errorString "recorder not running"))) := by
  have key : ∀ q : Recorder, q.running = false →
      q.RecordPacket packet = (q, some (Error.errorString "recorder not running")) := by
    intro q hq
    simp [Recorder.RecordPacket, hq]
  refine ⟨key r, ?_, ?_⟩
  · intro nsys dir name r0 h
    apply key
    unfold NewRecorder at h
    cases hm : nsys.mkdirAll with
    | some e => simp [hm] at h
    | none =>
      simp only [hm, Prod.mk.injEq, Option.some.injEq, and_true] at h
      rw [← h]
  · apply key
    unfold Recorder.Stop
    cases hr : r.running with
    | false => simp [hr]
    | true =>
      cases hf : r.file with
      | none => simp [hf]
      | some f =>
        simp only [hf, Bool.not_true, Bool.false_eq_true, if_false]
        cases (os.Close (some f)).2 <;> rfl

/-- C8: evaluation of `Start` where the file is created but the header does not fit
(room for 3 bytes). `Start` returns the header error, yet the recorder is left
running: `IsRunning` is true and a following `RecordPacket` fails on the closed file
instead of returning "recorder not running". When the file cannot be created, the
recorder is left not running. -/
theorem Start_header_failure_leaves_running :
    (sample.newRecorder.Start sample.fullDiskSys).2
      = some (Error.wrapError "failed to write file header" Error.ErrNoSpace) ∧
    (sample.newRecorder.Start sample.fullDiskSys).1.IsRunning = true ∧
    ((sample.newRecorder.Start sample.fullDiskSys).1.RecordPacket sample.packetA).2
      = some (Error.wrapError "failed to write timestamp" Error.ErrClosed) ∧
    (sample.newRecorder.Start sample.noCreateSys).2
      = some (Error.wrapError "failed to create output file" Error.ErrSystem) ∧
    (sample.newRecorder.Start sample.noCreateSys).1.IsRunning = false := by
  decide

/-- A `RecordPacket` that returns an error leaves the counters alone, and the file,
if there was one, has only grown within its limit. -/
theorem RecordPacket_err (r : Recorder) (packet : telemetry.RecordedPacket)
    (h : (r.RecordPacket packet).2 ≠ none) :
    (r.RecordPacket packet).1.stats = r.stats ∧
    ∀ f, r.file = some f → ∃ g, (r.RecordPacket packet).1.file = some g ∧
      g.limit = f.limit ∧ f.content.length ≤ g.content.length ∧
      (f.content.length ≤ min f.limit os.maxFileSize →
        g.content.length ≤ min g.limit os.maxFileSize) := by
  cases hrun : r.running with
  | false =>
    have e : r.RecordPacket packet
        = (r, some (Error.errorString "recorder not running")) := by
      simp [Recorder.RecordPacket, hrun]
    rw [e]
    exact ⟨rfl, fun f hf => ⟨f, hf, rfl, le_refl _, fun hl => hl⟩⟩
  | true =>
    cases hf : r.file with
    | none =>
      have e : r.RecordPacket packet
          = ({ r with file := none },
              some (Error.wrapError "failed to write timestamp" Error.ErrInvalid)) := by
        simp [Recorder.RecordPacket, hrun, hf, binary.Write, os.Write]
      rw [e]
      exact ⟨rfl, fun f hf => by cases hf⟩
    | some f =>
      obtain ⟨g1, n1, e1, hw1, hl1, hlen1, hin1⟩ :=
        os.Write_some f (binary.PutUint64 (toUint64 packet.Timestamp.UnixNano))
      obtain ⟨g2, n2, e2, hw2, hl2, hlen2, hin2⟩ :=
        os.Write_some g1 (binary.PutUint32 (toUint32 packet.Data.length))
      obtain ⟨g3, n3, e3, hw3, hl3, hlen3, hin3⟩ := os.Write_some g2 packet.Data
      unfold Recorder.RecordPacket at h ⊢
      simp only [hrun, hf, Bool.not_true, Bool.false_eq_true, if_false, binary.Write, hw1]
        at h ⊢
      cases e1 with
      | some err1 =>
        simp only []
        refine ⟨trivial, fun f' hf' => ?_⟩
        cases hf'
        exact ⟨g1, rfl, hl1, hlen1, hin1⟩
      | none =>
        simp only [hw2] at h ⊢
        cases e2 with
        | some err2 =>
          simp only []
          refine ⟨trivial, fun f' hf' => ?_⟩
          cases hf'
          exact ⟨g2, rfl, by rw [hl2, hl1], le_trans hlen1 hlen2,
            fun hl => hin2 (hin1 hl)⟩
        | none =>
          simp only [hw3] at h ⊢
          cases e3 with
          | some err3 =>
            simp only []
            refine ⟨trivial, fun f' hf' => ?_⟩
            cases hf'
            exact ⟨g3, rfl, by rw [hl3, hl2, hl1], le_trans hlen1 (le_trans hlen2 hlen3),
              fun hl => hin3 (hin2 (hin1 hl))⟩
          | none => simp at h

/-- A `writeFileHeader` that returns nil was made on an open file with room for the
46 bytes of the header. -/
theorem writeFileHeader_nil (r : Recorder) (now : Time) (f : os.WFile) (hf : r.file = some f)
    (h : (r.writeFileHeader now).2 = none) :
    f.closed = false ∧ f.content.length + 46 ≤ min f.limit os.maxFileSize := by
  obtain ⟨c, l, cl⟩ := f
  unfold Recorder.writeFileHeader at h
  simp only [hf, binary.Write] at h
  by_cases h1 : (os.Write (some ⟨c, l, cl⟩) [70, 49, 84, 82]).2.2 = none
  · obtain ⟨hc, hr1⟩ := os.Write_nil _ _ (by simp) h1
    simp only at hc hr1
    subst hc
    rw [os.Write_ok ⟨c, l, false⟩ _ rfl hr1] at h
    simp only [Option.isSome_none, Bool.false_eq_true, if_false] at h
    by_cases h2 : (os.Write (some ⟨c ++ [70, 49, 84, 82], l, false⟩)
        (binary.PutUint16 1)).2.2 = none
    · obtain ⟨_, hr2⟩ := os.Write_nil _ _ (by simp [binary.PutUint16, binary.lePut_length]) h2
      simp only at hr2
      rw [os.Write_ok ⟨_, l, false⟩ _ rfl hr2] at h
      simp only [Option.isSome_none, Bool.false_eq_true, if_false] at h
      by_cases h3 : (os.Write (some ⟨c ++ [70, 49, 84, 82] ++ binary.PutUint16 1, l, false⟩)
          (binary.PutUint64 (toUint64 now.UnixNano))).2.2 = none
      · obtain ⟨_, hr3⟩ :=
          os.Write_nil _ _ (by simp [binary.PutUint64, binary.lePut_length]) h3
        simp only at hr3
        rw [os.Write_ok ⟨_, l, false⟩ _ rfl hr3] at h
        simp only [Option.isSome_none, Bool.false_eq_true, if_false] at h
        by_cases h4 : (os.Write (some ⟨c ++ [70, 49, 84, 82] ++ binary.PutUint16 1
            ++ binary.PutUint64 (toUint64 now.UnixNano), l, false⟩)
            (List.replicate 32 0)).2.2 = none
        · obtain ⟨_, hr4⟩ := os.Write_nil _ _ (by simp) h4
          refine ⟨rfl, ?_⟩
          simp [binary.PutUint16, binary.PutUint64, binary.lePut_length] at hr4
          simp only
          omega
        · exfalso
          revert h h4
          generalize os.Write _ (List.replicate 32 0) = w
          obtain ⟨w1, w2, w3⟩ := w
          cases w3 <;> simp
      · exfalso
        revert h h3
        generalize os.Write _ (binary.PutUint64 _) = w
        obtain ⟨w1, w2, w3⟩ := w
        cases w3 <;> simp
    · exfalso
      revert h h2
      generalize os.Write _ (binary.PutUint16 1) = w
      obtain ⟨w1, w2, w3⟩ := w
      cases w3 <;> simp
  · exfalso
    revert h h1
    generalize os.Write _ [70, 49, 84, 82] = w
    obtain ⟨w1, w2, w3⟩ := w
    cases w3 <;> simp

/-- `Start` on a recorder that is not running, when the file is created with room
for the header. -/
theorem Start_ok (r : Recorder) (sys : StartSys) (limit : Nat) (hrun : r.running = false)
    (hcreate : sys.create = .ok limit) (hroom : 46 ≤ min limit os.maxFileSize) :
    r.Start sys
      = ({ r with
            file := some { content := format.header sys.headerNow.UnixNano, limit := limit,
                           closed := false }
            running := true
            stats := { r.stats with StartTime := sys.now } }, none) := by
  have hw := writeFileHeader_ok
    { r with file := some { content := [], limit := limit, closed := false }, running := true,
             stats := { r.stats with StartTime := sys.now } }
    sys.headerNow { content := [], limit := limit, closed := false } rfl rfl
    (by simpa using hroom)
  unfold Recorder.Start
  simp only [hrun, hcreate, Bool.false_eq_true, if_false]
  rw [hw]
  simp

/-- A `Start` that returns nil was made on a recorder that was not running, and the
file was created with room for the header. -/
theorem Start_nil (r : Recorder) (sys : StartSys) (h : (r.Start sys).2 = none) :
    r.running = false ∧ ∃ limit, sys.create = .ok limit ∧ 46 ≤ min limit os.maxFileSize := by
  cases hrun : r.running with
  | true => simp [Recorder.Start, hrun] at h
  | false =>
    refine ⟨rfl, ?_⟩
    cases hcreate : sys.create with
    | error e => simp [Recorder.Start, hrun, hcreate] at h
    | ok limit =>
      refine ⟨limit, rfl, ?_⟩
      unfold Recorder.Start at h
      simp only [hrun, hcreate, Bool.false_eq_true, if_false] at h
      have key : ∀ (q : Recorder), q.file = some ⟨[], limit, false⟩ →
          (q.writeFileHeader sys.headerNow).2 = none → 46 ≤ min limit os.maxFileSize := by
        intro q hq hn
        have := (writeFileHeader_nil q sys.headerNow _ hq hn).2
        simpa using this
      revert h
      generalize hw : Recorder.writeFileHeader _ sys.headerNow = w
      intro h
      have hn : w.2 = none := by
        obtain ⟨w1, w2⟩ := w
        cases w2 <;> simp at h ⊢
      rw [← hw] at hn
      exact key _ (by rfl) hn

theorem maxFileSize_eq : os.maxFileSize = 9223372036854775807 := by decide

/-- One successful `RecordPacket` on a recorder within its file: the counters move
by 1 and by the payload length plus 12, the file grows by the same count, and the
recorder stays within its file. -/
theorem RecordPacket_step (r : Recorder) (packet : telemetry.RecordedPacket)
    (hw : r.Within) (h : (r.RecordPacket packet).2 = none) :
    (r.RecordPacket packet).1.stats.PacketsRecorded = r.stats.PacketsRecorded + 1 ∧
    (r.RecordPacket packet).1.stats.BytesWritten
      = r.stats.BytesWritten + (packet.Data.length + 12) ∧
    (∃ f g, r.file = some f ∧ (r.RecordPacket packet).1.file = some g ∧
      g.content.length = f.content.length + (packet.Data.length + 12)) ∧
    (r.RecordPacket packet).1.Within := by
  obtain ⟨hrun, f, hf, hc, hroom⟩ := RecordPacket_nil r packet h
  obtain ⟨f0, hf0, hlen, hB, hP⟩ := hw
  rw [hf] at hf0
  cases hf0
  rw [RecordPacket_ok r packet f hrun hf hc hroom]
  have hm : min f.limit os.maxFileSize ≤ os.maxFileSize := Nat.min_le_right _ _
  have hfit := hroom
  generalize min f.limit os.maxFileSize = m at hroom hlen hm
  rw [maxFileSize_eq] at hm
  have e1 : (r.stats.PacketsRecorded + 1) % 2 ^ 64 = r.stats.PacketsRecorded + 1 :=
    Nat.mod_eq_of_lt (by norm_num; omega)
  have e2 : (packet.Data.length + 12) % 2 ^ 64 = packet.Data.length + 12 :=
    Nat.mod_eq_of_lt (by norm_num; omega)
  have e3 : (r.stats.BytesWritten + (packet.Data.length + 12)) % 2 ^ 64
      = r.stats.BytesWritten + (packet.Data.length + 12) :=
    Nat.mod_eq_of_lt (by norm_num; omega)
  simp only [e1, e2, e3]
  refine ⟨trivial, trivial, ⟨f, _, hf, rfl, ?_⟩, ?_⟩
  · simp [entry_length]
  · refine ⟨_, rfl, ?_, ?_, ?_⟩
    · simp only [List.length_append, entry_length]
      exact hfit
    · simp only [List.length_append, entry_length]
      omega
    · simp only
      omega

/-- Any `RecordPacket`, whatever it returns, keeps the recorder within its file. -/
theorem RecordPacket_within (r : Recorder) (packet : telemetry.RecordedPacket)
    (hw : r.Within) : (r.RecordPacket packet).1.Within := by
  by_cases h : (r.RecordPacket packet).2 = none
  · exact (RecordPacket_step r packet hw h).2.2.2
  · obtain ⟨hs, hfile⟩ := RecordPacket_err r packet h
    obtain ⟨f, hf, hlen, hB, hP⟩ := hw
    obtain ⟨g, hg, _, hfg, hin⟩ := hfile f hf
    exact ⟨g, hg, hin hlen, by rw [hs]; omega, by rw [hs]; exact hP⟩

theorem recordAll_within (ps : List telemetry.RecordedPacket) (r : Recorder)
    (hw : r.Within) : (r.recordAll ps).1.Within := by
  induction ps generalizing r with
  | nil => exact hw
  | cons p ps ih =>
    simp only [Recorder.recordAll]
    exact ih _ (RecordPacket_within r p hw)

/-- When every call of a run returned nil, the counters moved by the number of
packets and by the sum of the payload lengths plus 12 a packet. -/
theorem recordAll_counters (ps : List telemetry.RecordedPacket) (r : Recorder)
    (hw : r.Within) (hall : ∀ e ∈ (r.recordAll ps).2, e = none) :
    (r.recordAll ps).1.stats.PacketsRecorded = r.stats.PacketsRecorded + ps.length ∧
    (r.recordAll ps).1.stats.BytesWritten
      = r.stats.BytesWritten + (ps.map (fun q => q.Data.length)).sum + 12 * ps.length := by
  induction ps generalizing r with
  | nil => simp [Recorder.recordAll]
  | cons p ps ih =>
    simp only [Recorder.recordAll, List.mem_cons, forall_eq_or_imp] at hall ⊢
    obtain ⟨h1, h2, _, h4⟩ := RecordPacket_step r p hw hall.1
    obtain ⟨i1, i2⟩ := ih _ h4 hall.2
    rw [i1, i2, h1, h2]
    simp only [List.map_cons, List.sum_cons, List.length_cons]
    constructor <;> omega

/-- C6: after `NewRecorder`, a successful `Start` and any run of `RecordPacket`
calls, a `RecordPacket` that returns nil increases `PacketsRecorded` by exactly 1
and `BytesWritten` by the payload length plus 12, which is the number of bytes the
call appended to the file; and when every call of the run returned nil,
`PacketsRecorded` is the number of packets and `BytesWritten` is the sum of the
payload lengths plus 12 times `PacketsRecorded`. On any recorder at all, a
`RecordPacket` that returns nil adds 1 and the payload length plus 12 in `uint64`
arithmetic. -/
theorem RecordPacket_counters (nsys : NewSys) (dir name : String) (r0 : Recorder)
    (sys : StartSys) (ps : List telemetry.RecordedPacket) (packet : telemetry.RecordedPacket)
    (hnew : NewRecorder nsys dir name = (some r0, none))
    (hstart : (r0.Start sys).2 = none)
    (hok : ((((r0.Start sys).1.recordAll ps).1).RecordPacket packet).2 = none) :
    ((((r0.Start sys).1.recordAll ps).1).RecordPacket packet).1.stats.PacketsRecorded
      = ((r0.Start sys).1.recordAll ps).1.stats.PacketsRecorded + 1 ∧
    ((((r0.Start sys).1.recordAll ps).1).RecordPacket packet).1.stats.BytesWritten
      = ((r0.Start sys).1.recordAll ps).1.stats.BytesWritten + (packet.Data.length + 12) ∧
    (∃ f g, ((r0.Start sys).1.recordAll ps).1.file = some f ∧
      ((((r0.Start sys).1.recordAll ps).1).RecordPacket packet).1.file = some g ∧
      g.content.length = f.content.length + (packet.Data.length + 12)) ∧
    ((∀ e ∈ ((r0.Start sys).1.recordAll ps).2, e = none) →
      ((((r0.Start sys).1.recordAll ps).1).RecordPacket packet).1.stats.PacketsRecorded
        = ps.length + 1 ∧
      ((((r0.Start sys).1.recordAll ps).1).RecordPacket packet).1.stats.BytesWritten
        = ((ps ++ [packet]).map (fun q => q.Data.length)).sum
          + 12 * ((((r0.Start sys).1.recordAll ps).1).RecordPacket packet).1.stats.PacketsRecorded)
    ∧
    (∀ q : Recorder, (q.RecordPacket packet).2 = none →
      (q.RecordPacket packet).1.stats.PacketsRecorded
        = (q.stats.PacketsRecorded + 1) % 2 ^ 64 ∧
      (q.RecordPacket packet).1.stats.BytesWritten
        = (q.stats.BytesWritten + (packet.Data.length + 12)) % 2 ^ 64) := by
  have hzero : r0.stats.PacketsRecorded = 0 ∧ r0.stats.BytesWritten = 0 := by
    unfold NewRecorder at hnew
    cases hm : nsys.mkdirAll with
    | some e => simp [hm] at hnew
    | none =>
      simp only [hm, Prod.mk.injEq, Option.some.injEq, and_true] at hnew
      rw [← hnew]
      exact ⟨rfl, rfl⟩
  obtain ⟨hrun, limit, hcreate, hroom⟩ := Start_nil r0 sys hstart
  have hw1 : (r0.Start sys).1.Within := by
    rw [Start_ok r0 sys limit hrun hcreate hroom]
    refine ⟨_, rfl, ?_, ?_, ?_⟩
    · simp only [header_length]
      exact hroom
    · simp [hzero.2]
    · simp [hzero.1, hzero.2]
  have hs1 : (r0.Start sys).1.stats.PacketsRecorded = 0
      ∧ (r0.Start sys).1.stats.BytesWritten = 0 := by
    rw [Start_ok r0 sys limit hrun hcreate hroom]
    exact hzero
  have hw2 := recordAll_within ps _ hw1
  obtain ⟨h1, h2, h3, _⟩ := RecordPacket_step _ packet hw2 hok
  refine ⟨h1, h2, h3, ?_, ?_⟩
  rotate_left
  · intro q hq
    obtain ⟨hqrun, f, hf, hc, hfit⟩ := RecordPacket_nil q packet hq
    rw [RecordPacket_ok q packet f hqrun hf hc hfit]
    exact ⟨rfl, Nat.add_mod_mod _ _ _⟩
  intro hall
  obtain ⟨c1, c2⟩ := recordAll_counters ps _ hw1 hall
  rw [h1, h2, c1, c2, hs1.1, hs1.2]
  simp only [List.map_append, List.sum_append, List.map_cons, List.map_nil, List.sum_cons,
    List.sum_nil]
  constructor <;> omega

set_option maxRecDepth 100000 in
/-- Witness for C6: three packets of 29, 3 and 0 bytes recorded after `Start`. -/
theorem RecordPacket_counters_witness :
    NewRecorder sample.newSys "recordings" "session" = (some sample.newRecorder, none) ∧
    (sample.newRecorder.Start sample.startSys).2 = none ∧
    (((((sample.newRecorder.Start sample.startSys).1.recordAll
      [sample.packetA, sample.packetB]).1).RecordPacket sample.packetC).1.stats.PacketsRecorded
        = 3) ∧
    (((((sample.newRecorder.Start sample.startSys).1.recordAll
      [sample.packetA, sample.packetB]).1).RecordPacket sample.packetC).1.stats.BytesWritten
        = 29 + 3 + 0 + 12 * 3) := by
  have h := RecordPacket_counters sample.newSys "recordings" "session" sample.newRecorder
    sample.startSys [sample.packetA, sample.packetB] sample.packetC (by decide) (by decide)
    (by decide)
  have h2 := h.2.2.2.1 (by decide)
  refine ⟨by decide, by decide, h2.1, ?_⟩
  rw [h2.2, h2.1]
  rfl

end recorder

/-! ## Reading files -/

namespace io

theorem ReadFull_ok (f : os.RFile) (n : Nat) (hc : f.closed = false)
    (hn : f.offset + n ≤ f.content.length) :
    ReadFull (some f) n
      = (some { f with offset := f.offset + n }, (f.content.drop f.offset).take n, none) := by
  unfold ReadFull
  by_cases h0 : n = 0
  · subst h0
    simp
  · have hl : n ≤ (f.content.drop f.offset).length := by
      rw [List.length_drop]; omega
    simp only [h0, if_false, hc, Bool.false_eq_true, hl, if_true]

/-- A read of at least one byte from a closed file, or of more bytes than the file
still has, returns an error and no data. -/
theorem ReadFull_err (f : os.RFile) (n : Nat) (h0 : 0 < n)
    (hbad : f.closed = true ∨ ¬ f.offset + n ≤ f.content.length) :
    ∃ g bs e, ReadFull (some f) n = (some g, bs, some e) := by
  unfold ReadFull
  have hn : n ≠ 0 := by omega
  cases hc : f.closed with
  | true => simp [hn, hc]
  | false =>
    have hnot : ¬ f.offset + n ≤ f.content.length := by
      rcases hbad with h | h
      · rw [hc] at h; cases h
      · exact h
    have hl : ¬ n ≤ (f.content.drop f.offset).length := by
      rw [List.length_drop]; omega
    by_cases hz : (f.content.drop f.offset).length = 0
    · have hn0 : ¬ n ≤ 0 := by omega
      simp only [hn, hn0, hz, hc, if_false, if_true, Bool.false_eq_true]
      exact ⟨_, _, _, rfl⟩
    · simp only [hn, hl, hz, hc, if_false, Bool.false_eq_true]
      exact ⟨_, _, _, rfl⟩

end io

/-! ## The player: the file header -/

namespace playback

/-- `readFileHeader` on an open file that still has 46 bytes, the first four of
them "F1TR": the header is skipped, whatever its version and creation time are. -/
theorem readFileHeader_ok (p : Player) (f : os.RFile) (hf : p.file = some f)
    (hc : f.closed = false) (hlen : f.offset + 46 ≤ f.content.length)
    (hmagic : (f.content.drop f.offset).take 4 = magicF1TR) :
    p.readFileHeader = ({ p with file := some { f with offset := f.offset + 46 } }, none) := by
  obtain ⟨c, o, cl⟩ := f
  simp only at hc hlen hmagic
  subst hc
  unfold Player.readFileHeader
  simp only [hf, binary.Read]
  rw [io.ReadFull_ok ⟨c, o, false⟩ 4 rfl (by simp only; omega)]
  simp only [hmagic, Option.isSome_none, Bool.false_eq_true, if_false, ne_eq, not_true_eq_false]
  rw [io.ReadFull_ok ⟨c, o + 4, false⟩ 2 rfl (by simp only; omega)]
  simp only [Option.isSome_none, Bool.false_eq_true, if_false]
  rw [io.ReadFull_ok ⟨c, o + 4 + 2, false⟩ 8 rfl (by simp only; omega)]
  simp only [Option.isSome_none, Bool.false_eq_true, if_false]
  rw [io.ReadFull_ok ⟨c, o + 4 + 2 + 8, false⟩ 32 rfl (by simp only; omega)]
  simp only [Option.isSome_none, Bool.false_eq_true, if_false, Nat.add_assoc, Nat.reduceAdd]

/-- `readFileHeader` on a closed file, on a file with fewer than 46 bytes left, or on
a file whose next four bytes are not "F1TR", returns an error; only the file of the
player can have changed. -/
theorem readFileHeader_err (p : Player) (f : os.RFile) (hf : p.file = some f)
    (hbad : f.closed = true ∨ ¬ f.offset + 46 ≤ f.content.length
      ∨ (f.content.drop f.offset).take 4 ≠ magicF1TR) :
    ∃ g e, p.readFileHeader = ({ p with file := some g }, some e) := by
  obtain ⟨c, o, cl⟩ := f
  simp only at hbad
  unfold Player.readFileHeader
  simp only [hf, binary.Read]
  by_cases h1 : cl = false ∧ o + 4 ≤ c.length
  · obtain ⟨hcl, h1⟩ := h1
    subst hcl
    rw [io.ReadFull_ok ⟨c, o, false⟩ 4 rfl (by simp only; omega)]
    simp only [Option.isSome_none, Bool.false_eq_true, if_false]
    by_cases hm : (c.drop o).take 4 = magicF1TR
    · simp only [hm, ne_eq, not_true_eq_false, if_false]
      by_cases h2 : o + 4 + 2 ≤ c.length
      · rw [io.ReadFull_ok ⟨c, o + 4, false⟩ 2 rfl (by simp only; omega)]
        simp only [Option.isSome_none, Bool.false_eq_true, if_false]
        by_cases h3 : o + 4 + 2 + 8 ≤ c.length
        · rw [io.ReadFull_ok ⟨c, o + 4 + 2, false⟩ 8 rfl (by simp only; omega)]
          simp only [Option.isSome_none, Bool.false_eq_true, if_false]
          have h4 : ¬ o + 4 + 2 + 8 + 32 ≤ c.length := by
            rcases hbad with h | h | h
            · cases h
            · omega
            · exact absurd hm h
          obtain ⟨g, bs, e, he⟩ :=
            io.ReadFull_err ⟨c, o + 4 + 2 + 8, false⟩ 32 (by omega) (Or.inr h4)
          rw [he]
          exact ⟨g, e, rfl⟩
        · obtain ⟨g, bs, e, he⟩ :=
            io.ReadFull_err ⟨c, o + 4 + 2, false⟩ 8 (by omega) (Or.inr h3)
          rw [he]
          exact ⟨g, e, rfl⟩
      · obtain ⟨g, bs, e, he⟩ := io.ReadFull_err ⟨c, o + 4, false⟩ 2 (by omega) (Or.inr h2)
        rw [he]
        exact ⟨g, e, rfl⟩
    · simp only [hm, ne_eq, not_false_eq_true, if_true]
      exact ⟨_, _, rfl⟩
  · have hb : cl = true ∨ ¬ o + 4 ≤ c.length := by
      cases cl with
      | true => exact Or.inl rfl
      | false => exact Or.inr (fun h => h1 ⟨rfl, h⟩)
    obtain ⟨g, bs, e, he⟩ := io.ReadFull_err ⟨c, o, cl⟩ 4 (by omega) hb
    rw [he]
    exact ⟨g, e, rfl⟩

/-- C9: `Start` on a player that is not running, for a file that opens but whose
first four bytes are not exactly "F1TR" or that is shorter than the 46-byte header,
returns the error "invalid recording file: ..." and leaves the player not running,
with no socket made and the file closed. -/
theorem Start_rejects_bad_magic (p : Player) (sys : StartSys) (content : List Byte)
    (hrun : p.running = false) (hopen : sys.open_ = .ok content)
    (hbad : content.take 4 ≠ magicF1TR ∨ content.length < 46) :
    (∃ e, (p.Start sys).2 = some (Error.wrapError "invalid recording file" e)) ∧
    (p.Start sys).1.running = false ∧
    (p.Start sys).1.IsRunning = false ∧
    (p.Start sys).1.conn = p.conn ∧
    (∃ g, (p.Start sys).1.file = some g ∧ g.closed = true) := by
  have hb : (false = true) ∨ ¬ 0 + 46 ≤ content.length
      ∨ (content.drop 0).take 4 ≠ magicF1TR := by
    rcases hbad with h | h
    · exact Or.inr (Or.inr (by simpa using h))
    · exact Or.inr (Or.inl (by omega))
  obtain ⟨g, e, he⟩ := readFileHeader_err
    { p with file := some { content := content, offset := 0, closed := false } }
    { content := content, offset := 0, closed := false } rfl hb
  have hs : p.Start sys
      = ({ p with file := (os.RClose (some g)).1 },
          some (Error.wrapError "invalid recording file" e)) := by
    unfold Player.Start
    rw [if_neg (by simp [hrun])]
    simp only [hopen]
    rw [he]
  rw [hs]
  refine ⟨⟨e, rfl⟩, hrun, hrun, rfl, ?_⟩
  simp only [os.RClose]
  cases hg : g.closed with
  | true => exact ⟨g, by simp [hg], hg⟩
  | false => exact ⟨{ g with closed := true }, by simp [hg], rfl⟩

/-- Witness for C9: a file whose magic is wrong in one byte, and a file of 45 bytes. -/
theorem Start_rejects_bad_magic_witness :
    sample.newPlayer.running = false ∧
    (sample.badMagicFile.take 4 ≠ magicF1TR ∨ sample.badMagicFile.length < 46) ∧
    (sample.newPlayer.Start (sample.playSys sample.badMagicFile)).1.IsRunning = false ∧
    (sample.newPlayer.Start (sample.playSys sample.shortFile)).1.IsRunning = false ∧
    (sample.newPlayer.Start (sample.playSys sample.badMagicFile)).2
      = some (Error.wrapError "invalid recording file"
          (Error.errorString "invalid magic number")) := by
  refine ⟨rfl, Or.inl (by decide), ?_, ?_, by decide⟩
  · exact (Start_rejects_bad_magic sample.newPlayer (sample.playSys sample.badMagicFile)
      sample.badMagicFile rfl rfl (Or.inl (by decide))).2.2.1
  · exact (Start_rejects_bad_magic sample.newPlayer (sample.playSys sample.shortFile)
      sample.shortFile rfl rfl (Or.inr (by decide))).2.2.1

/-- C10: evaluation of `readFileHeader` and `Start` on 46-byte files with the right
magic and a version the recorder never writes (0, and 65535): `readFileHeader`
returns nil, `Start` returns nil and the player is running. -/
theorem readFileHeader_accepts_any_version :
    (Player.readFileHeader
      { sample.newPlayer with file := some ⟨sample.versionZeroFile, 0, false⟩ }).2 = none ∧
    (sample.newPlayer.Start (sample.playSys sample.versionZeroFile)).2 = none ∧
    (sample.newPlayer.Start (sample.playSys sample.versionZeroFile)).1.IsRunning = true ∧
    (sample.newPlayer.Start (sample.playSys sample.versionMaxFile)).2 = none ∧
    (sample.newPlayer.Start (sample.playSys sample.versionMaxFile)).1.IsRunning = true ∧
    binary.Uint16 ((sample.versionZeroFile.drop 4).take 2) = 0 ∧
    binary.Uint16 ((sample.versionMaxFile.drop 4).take 2) = 65535 ∧
    binary.Uint16 (((format.header 0).drop 4).take 2) = 1 := by
  decide

end playback

/-! ## Round trip -/

theorem entries_length (es : List (Int × List Byte)) :
    (format.entries es).length = (es.map (fun e => e.2.length + 12)).sum := by
  induction es with
  | nil => rfl
  | cons e es ih =>
    obtain ⟨t, d⟩ := e
    simp [format.entries, recorder.entry_length, ih]

/-- When the rest of a file from some offset starts with `xs`, the offset can move
past `xs`, the next `xs.length` bytes are `xs`, and what follows is the remainder. -/
theorem drop_append_split (c : List Byte) (o : Nat) (xs rest : List Byte)
    (ho : o ≤ c.length) (h : c.drop o = xs ++ rest) :
    o + xs.length ≤ c.length ∧ (c.drop o).take xs.length = xs
      ∧ c.drop (o + xs.length) = rest := by
  have hl : (c.drop o).length = xs.length + rest.length := by rw [h, List.length_append]
  rw [List.length_drop] at hl
  refine ⟨by omega, ?_, ?_⟩
  · rw [h, List.take_left]
  · rw [← List.drop_drop, h, List.drop_left]

namespace recorder

/-- A run of `RecordPacket` calls on a running recorder whose open file has room
for all the entries: every call returns nil and the entries are appended in order. -/
theorem recordAll_ok (ps : List telemetry.RecordedPacket) (r : Recorder) (f : os.WFile)
    (hrun : r.running = true) (hf : r.file = some f) (hc : f.closed = false)
    (hroom : f.content.length + (ps.map (fun q => q.Data.length + 12)).sum
      ≤ min f.limit os.maxFileSize) :
    ∃ r', r.recordAll ps = (r', ps.map (fun _ => none)) ∧ r'.running = true ∧
      r'.file = some { f with
        content :=
          f.content ++ format.entries (ps.map (fun q => (q.Timestamp.UnixNano, q.Data))) } := by
  induction ps generalizing r f with
  | nil =>
    refine ⟨r, rfl, hrun, ?_⟩
    simp [format.entries, hf]
  | cons q ps ih =>
    simp only [List.map_cons, List.sum_cons] at hroom
    have h1 := RecordPacket_ok r q f hrun hf hc (by omega)
    obtain ⟨r', hr', hrun', hf'⟩ := ih (r.RecordPacket q).1
      { f with content := f.content ++ format.entry q.Timestamp.UnixNano q.Data }
      (by rw [h1]; exact hrun) (by rw [h1]) hc
      (by simp only [List.length_append, entry_length]; omega)
    refine ⟨r', ?_, hrun', ?_⟩
    · have e : r.RecordPacket q = ((r.RecordPacket q).1, none) := by rw [h1]
      simp only [Recorder.recordAll, List.map_cons]
      rw [e]
      simp only [hr']
    · rw [hf']
      simp [format.entries, List.append_assoc]

end recorder

namespace playback

/-- `readPacket` on an open file whose rest starts with one entry: the call
returns the timestamp and the payload of the entry and moves past it. -/
theorem readPacket_ok (p : Player) (f : os.RFile) (ts : Int) (data rest : List Byte)
    (hf : p.file = some f) (hc : f.closed = false) (ho : f.offset ≤ f.content.length)
    (hrest : f.content.drop f.offset = format.entry ts data ++ rest)
    (hts : -2 ^ 63 ≤ ts ∧ ts < 2 ^ 63) (hlen : data.length < 2 ^ 32) :
    p.readPacket
      = ({ p with file := some { f with offset := f.offset + (data.length + 12) } },
          ts, data, none)
    ∧ f.content.drop (f.offset + (data.length + 12)) = rest
    ∧ f.offset + (data.length + 12) ≤ f.content.length := by
  obtain ⟨c, o, cl⟩ := f
  simp only at hc ho hrest
  subst hc
  have l8 : (binary.lePut 8 (toUint64 ts)).length = 8 := binary.lePut_length 8 _
  have l4 : (binary.lePut 4 (data.length % 2 ^ 32)).length = 4 := binary.lePut_length 4 _
  have s1 := drop_append_split c o (binary.lePut 8 (toUint64 ts))
    (binary.lePut 4 (data.length % 2 ^ 32) ++ data ++ rest) ho
    (by rw [hrest]; simp [format.entry, List.append_assoc])
  rw [l8] at s1
  obtain ⟨b1, t1, d1⟩ := s1
  have s2 := drop_append_split c (o + 8) (binary.lePut 4 (data.length % 2 ^ 32))
    (data ++ rest) (by omega) (by rw [d1]; simp [List.append_assoc])
  rw [l4] at s2
  obtain ⟨b2, t2, d2⟩ := s2
  have s3 := drop_append_split c (o + 8 + 4) data rest (by omega) d2
  obtain ⟨b3, t3, d3⟩ := s3
  have e1 : toInt64 (binary.Uint64 (binary.lePut 8 (toUint64 ts)) : Nat) = ts := by
    have := Uint64_PutUint64 ts
    rw [binary.PutUint64] at this
    rw [this]
    exact toInt64_of_fits ts hts.1 hts.2
  have e2 : binary.Uint32 (binary.lePut 4 (data.length % 2 ^ 32)) = data.length := by
    have := Uint32_PutUint32 (data.length % 2 ^ 32)
    rw [binary.PutUint32] at this
    rw [this, Nat.mod_mod, Nat.mod_eq_of_lt hlen]
  have a3 : o + 8 + 4 + data.length = o + (data.length + 12) := by omega
  refine ⟨?_, by rw [← a3]; exact d3, by simp only; omega⟩
  unfold Player.readPacket
  simp only [hf, binary.Read]
  rw [io.ReadFull_ok ⟨c, o, false⟩ 8 rfl b1]
  simp only [t1, e1]
  rw [io.ReadFull_ok ⟨c, o + 8, false⟩ 4 rfl b2]
  simp only [t2, e2]
  rw [io.ReadFull_ok ⟨c, o + 8 + 4, false⟩ data.length rfl b3]
  simp only [t3, a3]

/-- `readPacket` on an open file with nothing left returns `io.EOF`. -/
theorem readPacket_eof (p : Player) (f : os.RFile) (hf : p.file = some f)
    (hc : f.closed = false) (hrest : f.content.drop f.offset = []) :
    p.readPacket = (p, 0, [], some Error.EOF) := by
  unfold Player.readPacket
  simp only [hf, binary.Read, io.ReadFull, hc, hrest]
  simp only [OfNat.ofNat_ne_zero, if_false, Bool.false_eq_true, List.length_nil,
    Nat.le_zero_eq, if_true]
  rw [← hf]

/-- Successive `readPacket` calls on an open file whose rest is a sequence of
entries: the calls return the entries in order and the next call returns `io.EOF`. -/
theorem readPackets_entries (es : List (Int × List Byte)) (p : Player) (f : os.RFile)
    (hf : p.file = some f) (hc : f.closed = false) (ho : f.offset ≤ f.content.length)
    (hrest : f.content.drop f.offset = format.entries es)
    (hts : ∀ e ∈ es, -2 ^ 63 ≤ e.1 ∧ e.1 < 2 ^ 63)
    (hlen : ∀ e ∈ es, e.2.length < 2 ^ 32) :
    ∃ p', p.readPackets (es.length + 1) = (es, some Error.EOF, p') := by
  induction es generalizing p f with
  | nil =>
    refine ⟨p, ?_⟩
    simp only [List.length_nil, Nat.zero_add, Player.readPackets,
      readPacket_eof p f hf hc hrest]
  | cons e es ih =>
    obtain ⟨ts, data⟩ := e
    simp only [List.mem_cons, forall_eq_or_imp] at hts hlen
    obtain ⟨h1, h2, h3⟩ := readPacket_ok p f ts data (format.entries es) hf hc ho
      (by rw [hrest]; rfl) hts.1 hlen.1
    obtain ⟨p', hp'⟩ := ih
      { p with file := some { f with offset := f.offset + (data.length + 12) } }
      { f with offset := f.offset + (data.length + 12) } rfl hc h3 h2 hts.2 hlen.2
    refine ⟨p', ?_⟩
    rw [List.length_cons, Player.readPackets, h1]
    simp only [hp']

/-- C1: round trip of the recording format. For every sequence of packets whose
timestamps fit in `int64` Unix nanoseconds and whose payloads are shorter than 2^32
bytes, when the file is created with room for the header and the entries, `Start`
and one `RecordPacket` per packet all return nil, `readFileHeader` accepts the bytes
they wrote, and the following `readPacket` calls return exactly the same
(timestamp in nanoseconds, payload) pairs in the same order, after which the next
call returns `io.EOF`. -/
theorem record_then_play_round_trip (r : recorder.Recorder) (sys : recorder.StartSys)
    (limit : Nat) (ps : List telemetry.RecordedPacket) (p : Player)
    (hrun : r.running = false) (hcreate : sys.create = .ok limit)
    (hroom : 46 + (ps.map (fun q => q.Data.length + 12)).sum ≤ min limit os.maxFileSize)
    (hts : ∀ q ∈ ps, -2 ^ 63 ≤ q.Timestamp.nanos ∧ q.Timestamp.nanos < 2 ^ 63)
    (hlen : ∀ q ∈ ps, q.Data.length < 2 ^ 32) :
    ∃ r1 r2 f, r.Start sys = (r1, none) ∧
      r1.recordAll ps = (r2, ps.map (fun _ => none)) ∧ r2.file = some f ∧
      ∃ p1 p2,
        Player.readFileHeader
          { p with file := some { content := f.content, offset := 0, closed := false } }
          = (p1, none) ∧
        p1.readPackets (ps.length + 1)
          = (ps.map (fun q => (q.Timestamp.nanos, q.Data)), some Error.EOF, p2) := by
  have h46 : 46 ≤ min limit os.maxFileSize := by
    generalize min limit os.maxFileSize = m at hroom ⊢
    omega
  have hstart := recorder.Start_ok r sys limit hrun hcreate h46
  obtain ⟨r2, hrec, _, hfile⟩ := recorder.recordAll_ok ps (r.Start sys).1
    { content := format.header sys.headerNow.UnixNano, limit := limit, closed := false }
    (by rw [hstart]) (by rw [hstart]) rfl
    (by simp only [recorder.header_length]; exact hroom)
  have hmap : ps.map (fun q => (q.Timestamp.UnixNano, q.Data))
      = ps.map (fun q => (q.Timestamp.nanos, q.Data)) := by
    apply List.map_congr_left
    intro q hq
    have := hts q hq
    simp only [Time.UnixNano, toInt64_of_fits q.Timestamp.nanos this.1 this.2]
  rw [hmap] at hfile
  simp only at hfile
  have hhl := recorder.header_length sys.headerNow.UnixNano
  obtain ⟨es, hes⟩ : ∃ es, es = ps.map (fun q => (q.Timestamp.nanos, q.Data)) := ⟨_, rfl⟩
  obtain ⟨c, hc⟩ : ∃ c, c = format.header sys.headerNow.UnixNano ++ format.entries es :=
    ⟨_, rfl⟩
  rw [← hes, ← hc] at hfile
  have hclen : 0 + 46 ≤ c.length := by
    rw [hc, List.length_append, hhl]; omega
  have hmagic : (c.drop 0).take 4 = magicF1TR := by
    rw [hc]; simp [format.header, magicF1TR]
  have hdrop : c.drop (0 + 46) = format.entries es := by
    rw [hc, Nat.zero_add, ← hhl, List.drop_left]
  have hhead := readFileHeader_ok { p with file := some ⟨c, 0, false⟩ } ⟨c, 0, false⟩
    rfl rfl hclen hmagic
  obtain ⟨p2, hp2⟩ := readPackets_entries es
    { p with file := some ⟨c, 0 + 46, false⟩ } ⟨c, 0 + 46, false⟩ rfl rfl hclen hdrop
    (by
      intro e he
      rw [hes] at he
      obtain ⟨q, hq, rfl⟩ := List.mem_map.mp he
      exact hts q hq)
    (by
      intro e he
      rw [hes] at he
      obtain ⟨q, hq, rfl⟩ := List.mem_map.mp he
      exact hlen q hq)
  rw [hes, List.length_map] at hp2
  rw [← hes] at hp2
  rw [← hes]
  exact ⟨(r.Start sys).1, r2, _, by rw [hstart], hrec, hfile, _, p2, hhead, hp2⟩

set_option maxRecDepth 100000 in
/-- Witness for C1: three packets, of 29, 3 and 0 bytes, one of them stamped before
the Unix epoch, recorded into a file with room for 1000 bytes and read back. -/
theorem record_then_play_round_trip_witness :
    sample.newRecorder.running = false ∧
    46 + ([sample.packetA, sample.packetB, sample.packetC].map
      (fun q => q.Data.length + 12)).sum ≤ min 1000 os.maxFileSize ∧
    ∃ r1 r2 f, sample.newRecorder.Start sample.startSys = (r1, none) ∧
      r1.recordAll [sample.packetA, sample.packetB, sample.packetC]
        = (r2, [none, none, none]) ∧ r2.file = some f ∧
      ∃ p1 p2,
        Player.readFileHeader
          { sample.newPlayer with
            file := some { content := f.content, offset := 0, closed := false } }
          = (p1, none) ∧
        p1.readPackets 4
          = ([(1700000000000000000, sample.header29), (-1, [1, 2, 3]),
              (1700000000000000500, [])], some Error.EOF, p2) :=
  ⟨rfl, by decide,
    record_then_play_round_trip sample.newRecorder sample.startSys 1000
      [sample.packetA, sample.packetB, sample.packetC] sample.newPlayer rfl rfl (by decide)
      (by decide) (by decide)⟩

end playback

/-! ## The receiver -/

namespace telemetry

theorem processPacket_short (r : Receiver) (data : List Byte) (now : Time)
    (h : data.length < 29) : r.processPacket data now = some r.incrementErrors := by
  have e : ParseHeader data = (none, some ErrInvalidPacket) := by
    unfold ParseHeader; rw [dif_pos h]
  simp only [Receiver.processPacket, e]

/-- `processPacket` on a datagram of 29 bytes or more, in terms of the send. -/
theorem processPacket_long (r : Receiver) (data : List Byte) (now : Time)
    (h : 29 ≤ data.length) :
    ∃ hdr, ParseHeader data = (some hdr, none) ∧
      r.processPacket data now
        = match r.packets.trySend { Timestamp := now, Data := data, Header := hdr } with
          | none => none
          | some (packets, sent) =>
            some (if sent then
              { r with
                packets := packets
                stats := { r.stats with
                  PacketsReceived := (r.stats.PacketsReceived + 1) % 2 ^ 64
                  BytesReceived := (r.stats.BytesReceived + data.length % 2 ^ 64) % 2 ^ 64 } }
            else
              { r with
                packets := packets
                stats := { r.stats with
                  PacketsReceived := (r.stats.PacketsReceived + 1) % 2 ^ 64
                  BytesReceived := (r.stats.BytesReceived + data.length % 2 ^ 64) % 2 ^ 64
                  Errors := (r.stats.Errors + 1) % 2 ^ 64 } }) := by
  refine ⟨_, ParseHeader_eq data h, ?_⟩
  simp only [Receiver.processPacket, ParseHeader_eq data h]
  cases hs : r.packets.trySend _ with
  | none => rfl
  | some v =>
    obtain ⟨c, b⟩ := v
    cases b <;> simp [hs, Receiver.incrementErrors]

/-- C14: `processPacket` on a datagram shorter than 29 bytes adds 1 to `Errors`
(a `uint64`: exactly 1 unless the counter is at its maximum), puts nothing on the
output queue and leaves `PacketsReceived` and `BytesReceived` unchanged. -/
theorem processPacket_short_datagram (r : Receiver) (data : List Byte) (now : Time)
    (h : data.length < 29) :
    ∃ r', r.processPacket data now = some r' ∧
      r'.stats.Errors = (r.stats.Errors + 1) % 2 ^ 64 ∧
      (r.stats.Errors + 1 < 2 ^ 64 → r'.stats.Errors = r.stats.Errors + 1) ∧
      r'.packets = r.packets ∧
      r'.stats.PacketsReceived = r.stats.PacketsReceived ∧
      r'.stats.BytesReceived = r.stats.BytesReceived ∧
      r'.running = r.running := by
  refine ⟨r.incrementErrors, processPacket_short r data now h, rfl, ?_, rfl, rfl, rfl, rfl⟩
  intro hlt
  exact Nat.mod_eq_of_lt hlt

/-- Witness for C14: a 3-byte datagram handed to a new receiver. -/
theorem processPacket_short_datagram_witness :
    ([1, 2, 3] : List Byte).length < 29 ∧
    ∃ r', sample.newReceiver.processPacket [1, 2, 3] ⟨1700000000000000000⟩ = some r' ∧
      r'.stats.Errors = 1 ∧ r'.packets.buf = [] ∧ r'.stats.PacketsReceived = 0 ∧
      r'.stats.BytesReceived = 0 := by
  obtain ⟨r', h1, _, h3, h4, h5, h6, _⟩ :=
    processPacket_short_datagram sample.newReceiver [1, 2, 3] ⟨1700000000000000000⟩
      (by decide)
  exact ⟨by decide, r', h1, h3 (by decide), by rw [h4]; rfl, by rw [h5]; rfl, by rw [h6]; rfl⟩

/-- A run of a receiver whose channel is open: it does not panic, the channel stays
open with its capacity, the packets that left or are in the channel are those that
were in it followed by newly queued ones, the newly queued ones are, in arrival
order, among the datagrams of 29 bytes or more, each with its own bytes, arrival
time and decoded header, and the channel never holds more than its capacity. -/
theorem run_queue (evs : List ReceiverEvent) (r : Receiver) (hopen : r.packets.closed = false) :
    ∃ r' out added, r.run evs = some (r', out) ∧ r'.packets.closed = false ∧
      r'.packets.cap = r.packets.cap ∧
      out ++ r'.packets.buf = r.packets.buf ++ added ∧
      List.Sublist (added.map (fun v => (v.Data, v.Timestamp)))
        ((arrivals evs).filter (fun a => decide (29 ≤ a.1.length))) ∧
      (∀ v ∈ added, ParseHeader v.Data = (some v.Header, none)) ∧
      (r.packets.buf.length ≤ r.packets.cap → r'.packets.buf.length ≤ r'.packets.cap) := by
  induction evs generalizing r with
  | nil =>
    exact ⟨r, [], [], rfl, hopen, rfl, by simp, by simp [arrivals], by simp, fun h => h⟩
  | cons ev evs ih =>
    cases ev with
    | receive =>
      cases hb : r.packets.buf with
      | nil =>
        obtain ⟨r', out, added, h1, h2, h3, h4, h5, h6, h7⟩ := ih r hopen
        rw [hb] at h4 h7
        refine ⟨r', out, added, ?_, h2, h3, h4, ?_, h6, h7⟩
        · simp only [Receiver.run, PacketChan.receive, hb, h1]
        · simpa [arrivals] using h5
      | cons v rest =>
        obtain ⟨r', out, added, h1, h2, h3, h4, h5, h6, h7⟩ :=
          ih { r with packets := { r.packets with buf := rest } } hopen
        refine ⟨r', v :: out, added, ?_, h2, h3, ?_, ?_, h6, ?_⟩
        · simp only [Receiver.run, PacketChan.receive, hb, h1]
        · simp only at h4
          simp [h4]
        · simpa [arrivals] using h5
        · intro hle
          apply h7
          simp only [List.length_cons] at hle ⊢
          omega
    | datagram data now =>
      by_cases hlen : data.length < 29
      · obtain ⟨r', out, added, h1, h2, h3, h4, h5, h6, h7⟩ := ih r.incrementErrors hopen
        refine ⟨r', out, added, ?_, h2, h3, h4, ?_, h6, h7⟩
        · simp only [Receiver.run, processPacket_short r data now hlen, h1]
        · have hn : ¬ 29 ≤ data.length := by omega
          simpa [arrivals, hn] using h5
      · have h29 : 29 ≤ data.length := by omega
        obtain ⟨hdr, hhdr, hp⟩ := processPacket_long r data now h29
        by_cases hroom : r.packets.buf.length < r.packets.cap
        · have hs : r.packets.trySend { Timestamp := now, Data := data, Header := hdr }
              = some ({ r.packets with
                  buf := r.packets.buf ++ [{ Timestamp := now, Data := data, Header := hdr }] },
                true) := by
            simp [PacketChan.trySend, hopen, hroom]
          rw [hs] at hp
          simp only [if_true] at hp
          obtain ⟨q, hq⟩ : ∃ q, r.processPacket data now = some q := ⟨_, hp⟩
          have hq' := Option.some.inj (hq.symm.trans hp)
          have q1 : q.packets.closed = false := by rw [hq']; exact hopen
          have q2 : q.packets.cap = r.packets.cap := by rw [hq']
          have q3 : q.packets.buf
              = r.packets.buf ++ [{ Timestamp := now, Data := data, Header := hdr }] := by
            rw [hq']
          obtain ⟨r', out, added, h1, h2, h3, h4, h5, h6, h7⟩ := ih q q1
          refine ⟨r', out, { Timestamp := now, Data := data, Header := hdr } :: added,
            ?_, h2, by rw [h3, q2], ?_, ?_, ?_, ?_⟩
          · simp only [Receiver.run, hq, h1]
          · rw [h4, q3]
            simp
          · simp only [arrivals, List.map_cons, List.filter_cons, h29, decide_True, if_true]
            exact List.Sublist.cons₂ _ h5
          · intro v hv
            rcases List.mem_cons.mp hv with rfl | hv
            · exact hhdr
            · exact h6 v hv
          · intro _
            apply h7
            rw [q2, q3]
            simp only [List.length_append, List.length_singleton]
            omega
        · have hs : r.packets.trySend { Timestamp := now, Data := data, Header := hdr }
              = some (r.packets, false) := by
            simp [PacketChan.trySend, hopen, hroom]
          rw [hs] at hp
          simp only [Bool.false_eq_true, if_false] at hp
          obtain ⟨q, hq⟩ : ∃ q, r.processPacket data now = some q := ⟨_, hp⟩
          have hq' := Option.some.inj (hq.symm.trans hp)
          have q0 : q.packets = r.packets := by rw [hq']
          obtain ⟨r', out, added, h1, h2, h3, h4, h5, h6, h7⟩ := ih q (by rw [q0]; exact hopen)
          rw [q0] at h3 h4 h7
          refine ⟨r', out, added, ?_, h2, h3, h4, ?_, h6, h7⟩
          · simp only [Receiver.run, hq, h1]
          · simp only [arrivals, List.filter_cons, h29, decide_True, if_true]
            exact List.Sublist.cons _ h5

/-- C15: when the output queue of capacity 100 already holds 100 packets,
`processPacket` on a datagram of 29 bytes or more returns (the send is a `select`
with a `default` branch), leaves the queue as it was and adds 1 to `Errors` (a
`uint64`: exactly 1 unless the counter is at its maximum); and in every run of a
receiver made by `NewReceiver` the queue holds at most 100 packets. -/
theorem processPacket_full_queue (r : Receiver) (data : List Byte) (now : Time)
    (hopen : r.packets.closed = false) (hcap : r.packets.cap = 100)
    (hfull : r.packets.buf.length = 100) (hlen : 29 ≤ data.length) :
    (∃ r', r.processPacket data now = some r' ∧ r'.packets = r.packets ∧
      r'.stats.Errors = (r.stats.Errors + 1) % 2 ^ 64 ∧
      (r.stats.Errors + 1 < 2 ^ 64 → r'.stats.Errors = r.stats.Errors + 1)) ∧
    (∀ config evs, ∃ q out, (NewReceiver config).run evs = some (q, out) ∧
      q.packets.cap = 100 ∧ q.packets.buf.length ≤ 100) := by
  constructor
  · obtain ⟨hdr, _, hp⟩ := processPacket_long r data now hlen
    have hs : r.packets.trySend { Timestamp := now, Data := data, Header := hdr }
        = some (r.packets, false) := by
      simp [PacketChan.trySend, hopen, hcap, hfull]
    rw [hs] at hp
    simp only [Bool.false_eq_true, if_false] at hp
    refine ⟨_, hp, rfl, rfl, ?_⟩
    intro hlt
    exact Nat.mod_eq_of_lt hlt
  · intro config evs
    obtain ⟨q, out, _, h1, _, h3, _, _, _, h7⟩ := run_queue evs (NewReceiver config) rfl
    have hc : q.packets.cap = 100 := h3
    refine ⟨q, out, h1, hc, ?_⟩
    have := h7 (by simp [NewReceiver])
    omega

/-- Witness for C15: a 29-byte datagram handed to a receiver whose queue is full. -/
theorem processPacket_full_queue_witness :
    sample.fullReceiver.packets.buf.length = 100 ∧ 29 ≤ sample.header29.length ∧
    ∃ r', sample.fullReceiver.processPacket sample.header29 ⟨1700000000000000000⟩ = some r' ∧
      r'.packets = sample.fullReceiver.packets ∧ r'.stats.Errors = 1 := by
  obtain ⟨⟨r', h1, h2, _, h4⟩, _⟩ :=
    processPacket_full_queue sample.fullReceiver sample.header29 ⟨1700000000000000000⟩
      rfl rfl (by decide) (by decide)
  exact ⟨by decide, by decide, r', h1, h2, h4 (by decide)⟩

/-- C16: in every run of a receiver made by `NewReceiver`, the packets that went
through the output queue (those the consumer took, then those still queued) are, in
arrival order, a subsequence of the datagrams of 29 bytes or more, each with the
bytes and arrival time of its datagram and with the header `ParseHeader` gives for
those bytes; and a datagram of 29 bytes or more that arrives while the queue is
open and not full is put at the end of the queue. -/
theorem processPacket_keeps_order (config : ReceiverConfig) (evs : List ReceiverEvent) :
    (∃ r out, (NewReceiver config).run evs = some (r, out) ∧
      List.Sublist ((out ++ r.packets.buf).map (fun v => (v.Data, v.Timestamp)))
        ((arrivals evs).filter (fun a => decide (29 ≤ a.1.length))) ∧
      (∀ v ∈ out ++ r.packets.buf, ParseHeader v.Data = (some v.Header, none))) ∧
    (∀ (q : Receiver) (data : List Byte) (now : Time), q.packets.closed = false →
      q.packets.buf.length < q.packets.cap → 29 ≤ data.length →
      ∃ hdr q', ParseHeader data = (some hdr, none) ∧ q.processPacket data now = some q' ∧
        q'.packets.buf = q.packets.buf ++ [{ Timestamp := now, Data := data, Header := hdr }])
    := by
  constructor
  · obtain ⟨r, out, added, h1, _, _, h4, h5, h6, _⟩ := run_queue evs (NewReceiver config) rfl
    have h4' : out ++ r.packets.buf = added := by
      rw [h4]; simp [NewReceiver]
    rw [← h4'] at h5 h6
    exact ⟨r, out, h1, h5, h6⟩
  · intro q data now hopen hroom hlen
    obtain ⟨hdr, hhdr, hp⟩ := processPacket_long q data now hlen
    have hs : q.packets.trySend { Timestamp := now, Data := data, Header := hdr }
        = some ({ q.packets with
            buf := q.packets.buf ++ [{ Timestamp := now, Data := data, Header := hdr }] },
          true) := by
      simp [PacketChan.trySend, hopen, hroom]
    rw [hs] at hp
    simp only [if_true] at hp
    exact ⟨hdr, _, hhdr, hp, rfl⟩

end telemetry

/-! ## Session detection -/

namespace session

/-- What `parseSessionPacket` does to any `SessionInfo`: nothing, or it sets the
three session fields to values that depend on the packet only. -/
theorem parseSessionPacket_fields (d : List Byte) :
    ∃ f : Option (List Byte × List Byte × List Byte), ∀ info : SessionInfo,
      parseSessionPacket d info = match f with
        | none => info
        | some (w, st, tn) => { info with Weather := w, SessionType := st, TrackName := tn } := by
  by_cases h : d.length < 100
  · refine ⟨none, fun info => ?_⟩
    simp [parseSessionPacket, h]
  · refine ⟨some (
      (if weatherConditions (d.getD 29 0).val = [] then str "Unknown"
        else weatherConditions (d.getD 29 0).val),
      (if sessionTypes (d.getD 35 0).val = [] then str "Unknown"
        else sessionTypes (d.getD 35 0).val),
      (if trackNames (toInt8 (d.getD 36 0)) = []
        then str "Track" ++ formatInt (toInt8 (d.getD 36 0))
        else trackNames (toInt8 (d.getD 36 0)))), fun info => ?_⟩
    have h29 : d.getD 29 0 = d[29] := List.getD_eq_getElem _ _ (by omega)
    have h35 : d.getD 35 0 = d[35] := List.getD_eq_getElem _ _ (by omega)
    have h36 : d.getD 36 0 = d[36] := List.getD_eq_getElem _ _ (by omega)
    rw [h29, h35, h36]
    simp only [parseSessionPacket, h, dite_false]
    split_ifs <;> rfl

/-- What `parseParticipantsPacket` does to any `SessionInfo`: nothing, or it sets
`PlayerName` to a value that depends on the packet only. -/
theorem parseParticipantsPacket_fields (d : List Byte) :
    ∃ f : Option (List Byte), ∀ info : SessionInfo,
      parseParticipantsPacket d info = match f with
        | none => info
        | some name => { info with PlayerName := name } := by
  by_cases h : d.length < 30
  · refine ⟨none, fun info => ?_⟩
    simp [parseParticipantsPacket, h]
  · by_cases h1 : 29 ≥ d.length
    · omega
    · by_cases h2 : 29 + 1 + (d.getD 27 0).val * 58 + 58 > d.length
      · refine ⟨none, fun info => ?_⟩
        have h27 : d.getD 27 0 = d[27] := List.getD_eq_getElem _ _ (by omega)
        rw [h27] at h2
        simp [parseParticipantsPacket, h, h1, h2]
      · by_cases h3 : 29 + 1 + (d.getD 27 0).val * 58 + 48 + 32 > d.length
        · refine ⟨none, fun info => ?_⟩
          have h27 : d.getD 27 0 = d[27] := List.getD_eq_getElem _ _ (by omega)
          rw [h27] at h2 h3
          simp [parseParticipantsPacket, h, h1, h2, h3]
        · refine ⟨some (sanitizeForFilename
            (if strings.TrimSpace (extractNullTerminatedString
                (telemetry.slice d (29 + 1 + (d.getD 27 0).val * 58 + 48)
                  (29 + 1 + (d.getD 27 0).val * 58 + 48 + 32))) = []
              then str "Player"
              else strings.TrimSpace (extractNullTerminatedString
                (telemetry.slice d (29 + 1 + (d.getD 27 0).val * 58 + 48)
                  (29 + 1 + (d.getD 27 0).val * 58 + 48 + 32))))), fun info => ?_⟩
          have h27 : d.getD 27 0 = d[27] := List.getD_eq_getElem _ _ (by omega)
          rw [h27] at h2 h3 ⊢
          simp [parseParticipantsPacket, h, h1, h2, h3]

/-- The two parsers write different fields, so they can be applied in either order. -/
theorem parse_comm (d1 d4 : List Byte) (info : SessionInfo) :
    parseSessionPacket d1 (parseParticipantsPacket d4 info)
      = parseParticipantsPacket d4 (parseSessionPacket d1 info) := by
  obtain ⟨f, hf⟩ := parseSessionPacket_fields d1
  obtain ⟨g, hg⟩ := parseParticipantsPacket_fields d4
  rw [hf, hg, hf, hg]
  cases f <;> cases g <;> rfl

theorem parseSessionPacket_HasInfo (d : List Byte) (info : SessionInfo) :
    (parseSessionPacket d info).HasInfo = info.HasInfo := by
  obtain ⟨f, hf⟩ := parseSessionPacket_fields d
  rw [hf]
  cases f <;> rfl

theorem parseParticipantsPacket_HasInfo (d : List Byte) (info : SessionInfo) :
    (parseParticipantsPacket d info).HasInfo = info.HasInfo := by
  obtain ⟨g, hg⟩ := parseParticipantsPacket_fields d
  rw [hg]
  cases g <;> rfl

theorem hasID_short (id : Nat) (d : List Byte) (h : d.length < 29) : hasID id d = false := by
  have : ¬ 29 ≤ d.length := by omega
  simp [hasID, this]

theorem hasID_long (id : Nat) (d : List Byte) (h : ¬ d.length < 29) :
    hasID id d = decide (d[6].val = id) := by
  have h29 : 29 ≤ d.length := by omega
  have h6 : d.getD 6 0 = d[6] := List.getD_eq_getElem _ _ (by omega)
  unfold hasID
  rw [h6]
  simp [h29]

/-- The loop once a Session packet has been seen: it ends at the first Participants
packet. -/
theorem extractLoop_session_seen (ps : List (List Byte)) (info : SessionInfo) :
    extractLoop ps info true false = match ps.find? (hasID 4) with
      | some d => { parseParticipantsPacket d info with HasInfo := true }
      | none => info := by
  induction ps generalizing info with
  | nil => rfl
  | cons d rest ih =>
    rw [extractLoop]
    by_cases h : d.length < 29
    · simp only [h, dite_true, List.find?_cons, hasID_short 4 d h]
      exact ih info
    · by_cases h1 : d[6].val = 1
      · have h4 : ¬ d[6].val = 4 := by omega
        have e4 : hasID 4 d = false := by rw [hasID_long 4 d h]; simp [h4]
        simp only [h, dite_false, h1, if_true, List.find?_cons, e4]
        exact ih info
      · by_cases h4 : d[6].val = 4
        · have e4 : hasID 4 d = true := by rw [hasID_long 4 d h]; simp [h4]
          simp [h, h1, h4, List.find?_cons, e4]
        · have e4 : hasID 4 d = false := by rw [hasID_long 4 d h]; simp [h4]
          simp only [h, dite_false, h1, h4, if_false, List.find?_cons, e4]
          exact ih info

/-- The loop once a Participants packet has been seen: it ends at the first Session
packet. -/
theorem extractLoop_participants_seen (ps : List (List Byte)) (info : SessionInfo) :
    extractLoop ps info false true = match ps.find? (hasID 1) with
      | some d => { parseSessionPacket d info with HasInfo := true }
      | none => info := by
  induction ps generalizing info with
  | nil => rfl
  | cons d rest ih =>
    rw [extractLoop]
    by_cases h : d.length < 29
    · simp only [h, dite_true, List.find?_cons, hasID_short 1 d h]
      exact ih info
    · by_cases h1 : d[6].val = 1
      · have e1 : hasID 1 d = true := by rw [hasID_long 1 d h]; simp [h1]
        simp [h, h1, List.find?_cons, e1]
      · have e1 : hasID 1 d = false := by rw [hasID_long 1 d h]; simp [h1]
        by_cases h4 : d[6].val = 4
        · simp only [h, dite_false, h1, h4, if_false, if_true, List.find?_cons, e1]
          exact ih info
        · simp only [h, dite_false, h1, h4, if_false, List.find?_cons, e1]
          exact ih info

/-- The loop from the start: it is decided by the first packet of each kind. -/
theorem extractLoop_none_seen (ps : List (List Byte)) (info : SessionInfo) :
    extractLoop ps info false false = match ps.find? (hasID 1), ps.find? (hasID 4) with
      | some d1, some d4 =>
        { parseParticipantsPacket d4 (parseSessionPacket d1 info) with HasInfo := true }
      | some d1, none => parseSessionPacket d1 info
      | none, some d4 => parseParticipantsPacket d4 info
      | none, none => info := by
  induction ps generalizing info with
  | nil => rfl
  | cons d rest ih =>
    rw [extractLoop]
    by_cases h : d.length < 29
    · simp only [h, dite_true, List.find?_cons, hasID_short 1 d h, hasID_short 4 d h]
      exact ih info
    · by_cases h1 : d[6].val = 1
      · have h4 : ¬ d[6].val = 4 := by omega
        have e1 : hasID 1 d = true := by rw [hasID_long 1 d h]; simp [h1]
        have e4 : hasID 4 d = false := by rw [hasID_long 4 d h]; simp [h4]
        simp only [h, dite_false, h1, if_true, List.find?_cons, e1, e4, Bool.not_false,
          Bool.true_and, Bool.false_eq_true, if_false]
        rw [extractLoop_session_seen]
        cases rest.find? (hasID 4) <;> rfl
      · have e1 : hasID 1 d = false := by rw [hasID_long 1 d h]; simp [h1]
        by_cases h4 : d[6].val = 4
        · have e4 : hasID 4 d = true := by rw [hasID_long 4 d h]; simp [h4]
          simp only [h, dite_false, h4, show ¬ ((4 : ℕ) = 1) from by decide, if_false, if_true,
            List.find?_cons, e1, e4, Bool.not_false, Bool.false_and, Bool.false_eq_true]
          rw [extractLoop_participants_seen]
          cases rest.find? (hasID 1) with
          | none => rfl
          | some d1 => simp only [parse_comm d1 d info]
        · have e4 : hasID 4 d = false := by rw [hasID_long 4 d h]; simp [h4]
          simp only [h, dite_false, h1, h4, if_false, List.find?_cons, e1, e4,
            Bool.false_and, Bool.false_eq_true]
          exact ih info

/-- `ExtractSessionInfo` is the `SessionInfo` made from the first packet of each
kind. -/
theorem ExtractSessionInfo_eq_fromFirst (ps : List (List Byte)) :
    ExtractSessionInfo ps = fromFirst (ps.find? (hasID 1)) (ps.find? (hasID 4)) := by
  unfold ExtractSessionInfo fromFirst
  rw [extractLoop_none_seen]
  cases ps.find? (hasID 1) <;> cases ps.find? (hasID 4) <;> rfl

theorem hasID_iff (id : Nat) (hid : id < 256) (d : List Byte) :
    hasID id d = true ↔ 29 ≤ d.length ∧ d[6]? = some (Fin.ofNat id) := by
  by_cases h : d.length < 29
  · rw [hasID_short id d h]
    constructor
    · intro hf; cases hf
    · rintro ⟨h29, _⟩; omega
  · rw [hasID_long id d h]
    have h6 : d[6]? = some d[6] := List.getElem?_eq_getElem (by omega)
    rw [h6]
    simp only [decide_eq_true_eq, Option.some.injEq]
    constructor
    · intro hv
      refine ⟨by omega, ?_⟩
      apply Fin.ext
      simp only [Fin.ofNat, hv]
      omega
    · rintro ⟨_, hv⟩
      rw [hv]
      simp only [Fin.ofNat]
      omega

theorem find?_filter_of_imp {α : Type} (p q : α → Bool) (l : List α)
    (h : ∀ x, p x = true → q x = true) : (l.filter q).find? p = l.find? p := by
  induction l with
  | nil => rfl
  | cons a l ih =>
    by_cases hq : q a = true
    · simp only [List.filter_cons, hq, if_true, List.find?_cons, ih]
    · have hp : p a = false := by
        cases hpa : p a with
        | false => rfl
        | true => exact absurd (h a hpa) hq
      simp only [List.filter_cons, hq, if_false, List.find?_cons, hp, ih, Bool.false_eq_true]

theorem fromFirst_HasInfo (s p : Option (List Byte)) :
    (fromFirst s p).HasInfo = (s.isSome && p.isSome) := by
  cases s <;> cases p <;>
    simp [fromFirst, parseSessionPacket_HasInfo, parseParticipantsPacket_HasInfo]

/-- C17: on a stream that ends, `ExtractSessionInfo` returns `HasInfo = true` exactly
when the stream has a packet of 29 bytes or more with packet ID 1 in byte 6 and a
packet of 29 bytes or more with packet ID 4; and the result is the same when every
packet that is shorter than 29 bytes or has another ID is taken out of the stream. -/
theorem ExtractSessionInfo_HasInfo_iff (ps : List (List Byte)) :
    ((ExtractSessionInfo ps).HasInfo = true ↔
      (∃ p ∈ ps, 29 ≤ p.length ∧ p[6]? = some 1) ∧
      (∃ p ∈ ps, 29 ≤ p.length ∧ p[6]? = some 4)) ∧
    ExtractSessionInfo (ps.filter (fun p => hasID 1 p || hasID 4 p)) = ExtractSessionInfo ps := by
  constructor
  · rw [ExtractSessionInfo_eq_fromFirst, fromFirst_HasInfo, Bool.and_eq_true,
      List.find?_isSome, List.find?_isSome]
    have e1 : ∀ p : List Byte, hasID 1 p = true ↔ 29 ≤ p.length ∧ p[6]? = some 1 :=
      fun p => hasID_iff 1 (by decide) p
    have e4 : ∀ p : List Byte, hasID 4 p = true ↔ 29 ≤ p.length ∧ p[6]? = some 4 :=
      fun p => hasID_iff 4 (by decide) p
    simp only [e1, e4]
  · rw [ExtractSessionInfo_eq_fromFirst, ExtractSessionInfo_eq_fromFirst,
      find?_filter_of_imp (hasID 1) _ ps (by intro x hx; simp [hx]),
      find?_filter_of_imp (hasID 4) _ ps (by intro x hx; simp [hx])]

/-- C18: `ExtractSessionInfo` is decided by the first packet of each kind (29 bytes
or more, ID 1 or ID 4), parsed once: two streams with the same first Session packet
and the same first Participants packet give the same `SessionInfo`; the track,
session type and weather are the same whenever the first Session packet is the
same, and the player name whenever the first Participants packet is the same;
and nothing that follows the first packets of both kinds changes the result. -/
theorem ExtractSessionInfo_parses_each_kind_once (ps : List (List Byte)) :
    ExtractSessionInfo ps = fromFirst (ps.find? (hasID 1)) (ps.find? (hasID 4)) ∧
    (∀ qs : List (List Byte), qs.find? (hasID 1) = ps.find? (hasID 1) →
      qs.find? (hasID 4) = ps.find? (hasID 4) →
      ExtractSessionInfo qs = ExtractSessionInfo ps) ∧
    (∀ qs : List (List Byte), qs.find? (hasID 1) = ps.find? (hasID 1) →
      (ExtractSessionInfo qs).TrackName = (ExtractSessionInfo ps).TrackName ∧
      (ExtractSessionInfo qs).SessionType = (ExtractSessionInfo ps).SessionType ∧
      (ExtractSessionInfo qs).Weather = (ExtractSessionInfo ps).Weather) ∧
    (∀ qs : List (List Byte), qs.find? (hasID 4) = ps.find? (hasID 4) →
      (ExtractSessionInfo qs).PlayerName = (ExtractSessionInfo ps).PlayerName) ∧
    (∀ tail tail' : List (List Byte), (ps.find? (hasID 1)).isSome = true →
      (ps.find? (hasID 4)).isSome = true →
      ExtractSessionInfo (ps ++ tail) = ExtractSessionInfo (ps ++ tail')) := by
  have hs : ∀ (s p p' : Option (List Byte)),
      (fromFirst s p).TrackName = (fromFirst s p').TrackName ∧
      (fromFirst s p).SessionType = (fromFirst s p').SessionType ∧
      (fromFirst s p).Weather = (fromFirst s p').Weather := by
    have key : ∀ (s p : Option (List Byte)),
        (fromFirst s p).TrackName = (fromFirst s none).TrackName ∧
        (fromFirst s p).SessionType = (fromFirst s none).SessionType ∧
        (fromFirst s p).Weather = (fromFirst s none).Weather := by
      intro s p
      cases p with
      | none => exact ⟨rfl, rfl, rfl⟩
      | some d4 =>
        obtain ⟨g, hg⟩ := parseParticipantsPacket_fields d4
        cases s with
        | none => cases g <;> simp [fromFirst, hg]
        | some d1 =>
          obtain ⟨f, hf⟩ := parseSessionPacket_fields d1
          cases f <;> cases g <;> simp [fromFirst, hf, hg]
    intro s p p'
    obtain ⟨a1, a2, a3⟩ := key s p
    obtain ⟨b1, b2, b3⟩ := key s p'
    exact ⟨a1.trans b1.symm, a2.trans b2.symm, a3.trans b3.symm⟩
  have hp : ∀ (s s' p : Option (List Byte)),
      (fromFirst s p).PlayerName = (fromFirst s' p).PlayerName := by
    have key : ∀ (s p : Option (List Byte)),
        (fromFirst s p).PlayerName = (fromFirst none p).PlayerName := by
      intro s p
      cases s with
      | none => rfl
      | some d1 =>
        obtain ⟨f, hf⟩ := parseSessionPacket_fields d1
        cases p with
        | none => cases f <;> simp [fromFirst, hf]
        | some d4 =>
          obtain ⟨g, hg⟩ := parseParticipantsPacket_fields d4
          cases f <;> cases g <;> simp [fromFirst, hf, hg]
    intro s s' p
    rw [key s p, key s' p]
  refine ⟨ExtractSessionInfo_eq_fromFirst ps, ?_, ?_, ?_, ?_⟩
  · intro qs h1 h4
    rw [ExtractSessionInfo_eq_fromFirst, ExtractSessionInfo_eq_fromFirst, h1, h4]
  · intro qs h1
    rw [ExtractSessionInfo_eq_fromFirst qs, ExtractSessionInfo_eq_fromFirst ps, h1]
    exact hs _ _ _
  · intro qs h4
    rw [ExtractSessionInfo_eq_fromFirst qs, ExtractSessionInfo_eq_fromFirst ps, h4]
    exact hp _ _ _
  · intro tail tail' h1 h4
    have e : ∀ (id : Nat) (t : List (List Byte)), (ps.find? (hasID id)).isSome = true →
        (ps ++ t).find? (hasID id) = ps.find? (hasID id) := by
      intro id t h
      rw [List.find?_append]
      cases hf : ps.find? (hasID id) with
      | none => rw [hf] at h; cases h
      | some d => rfl
    rw [ExtractSessionInfo_eq_fromFirst, ExtractSessionInfo_eq_fromFirst,
      e 1 tail h1, e 4 tail h4, e 1 tail' h1, e 4 tail' h4]

theorem keepRune_ge (r : Nat) (h : 123 ≤ r) : keepRune r = false := by
  simp only [keepRune, decide_eq_false_iff_not]
  omega

/-- A rune that starts with a byte of 0x80 or more is not kept by
`sanitizeForFilename`, and all the bytes of its encoding are 0x80 or more. -/
theorem DecodeRune_nonascii (s0 : Byte) (rest : List Byte) (h : 0x80 ≤ s0.val) :
    keepRune (utf8.DecodeRune (s0 :: rest)).1 = false ∧
    1 ≤ (utf8.DecodeRune (s0 :: rest)).2 ∧
    ∀ b ∈ (s0 :: rest).take (utf8.DecodeRune (s0 :: rest)).2, 0x80 ≤ b.val := by
  have h1 : ¬ s0.val < 0x80 := by omega
  have herr : keepRune utf8.RuneError = false := by decide
  have one : ∀ b ∈ (s0 :: rest).take 1, 0x80 ≤ b.val := by
    intro b hb
    simp at hb
    rw [hb]; exact h
  unfold utf8.DecodeRune
  simp only [h1, if_false]
  by_cases hx : s0.val < 0xC2 ∨ 0xF5 ≤ s0.val
  · simp only [hx, if_true]
    exact ⟨herr, le_refl _, one⟩
  · simp only [hx, if_false]
    generalize hlo : (if s0.val = 0xE0 then 0xA0 else if s0.val = 0xF0 then 0x90 else 0x80 : ℕ)
      = lo
    generalize hhi : (if s0.val = 0xED then 0x9F else if s0.val = 0xF4 then 0x8F else 0xBF : ℕ)
      = hi
    have hlo80 : 0x80 ≤ lo := by rw [← hlo]; split_ifs <;> omega
    have hhiBF : hi ≤ 0xBF := by rw [← hhi]; split_ifs <;> omega
    have hloE0 : s0.val = 0xE0 → 0xA0 ≤ lo := by
      intro he; rw [← hlo]; simp [he]
    have hloF0 : s0.val = 0xF0 → 0x90 ≤ lo := by
      intro he; rw [← hlo]; simp [he]
    by_cases hlen : (s0 :: rest).length < (if s0.val < 0xE0 then 2 else if s0.val < 0xF0 then 3 else 4)
    · simp only [hlen, if_true]
      exact ⟨herr, le_refl _, one⟩
    · simp only [hlen, if_false]
      rcases rest with _ | ⟨s1, rest⟩
      · exact ⟨herr, le_refl _, one⟩
      · simp only []
        by_cases hc1 : s1.val < lo ∨ hi < s1.val
        · simp only [hc1, if_true]
          exact ⟨herr, le_refl _, one⟩
        · simp only [hc1, if_false]
          have hs1 : 0x80 ≤ s1.val := by omega
          by_cases h2 : s0.val < 0xE0
          · simp only [h2, if_true, le_refl]
            refine ⟨keepRune_ge _ (by omega), by omega, ?_⟩
            intro b hb
            simp at hb
            rcases hb with rfl | rfl
            · exact h
            · exact hs1
          · have h2' : ¬ (if s0.val < 0xE0 then 2 else if s0.val < 0xF0 then 3 else 4) ≤ 2 := by
              simp only [h2, if_false]; split_ifs <;> omega
            simp only [h2'] 
            simp only [if_false]
            rcases rest with _ | ⟨s2, rest⟩
            · exact ⟨herr, le_refl _, one⟩
            · simp only []
              by_cases hc2 : s2.val < 0x80 ∨ 0xBF < s2.val
              · simp only [hc2, if_true]
                exact ⟨herr, le_refl _, one⟩
              · simp only [hc2, if_false]
                by_cases h3 : s0.val < 0xF0
                · simp only [h2, h3, if_true, if_false, le_refl]
                  refine ⟨keepRune_ge _ ?_, by omega, ?_⟩
                  · by_cases he : s0.val = 0xE0
                    · have := hloE0 he
                      omega
                    · omega
                  · intro b hb
                    simp at hb
                    rcases hb with rfl | rfl | rfl
                    · exact h
                    · exact hs1
                    · omega
                · simp only [h2, h3, if_false, show ¬ (4 ≤ 3) from by decide]
                  rcases rest with _ | ⟨s3, rest⟩
                  · exact ⟨herr, le_refl _, one⟩
                  · simp only []
                    by_cases hc3 : s3.val < 0x80 ∨ 0xBF < s3.val
                    · simp only [hc3, if_true]
                      exact ⟨herr, le_refl _, one⟩
                    · simp only [hc3, if_false]
                      refine ⟨keepRune_ge _ ?_, by omega, ?_⟩
                      · by_cases he : s0.val = 0xF0
                        · have := hloF0 he
                          omega
                        · omega
                      · intro b hb
                        simp at hb
                        rcases hb with rfl | rfl | rfl | rfl
                        · exact h
                        · exact hs1
                        · omega
                        · omega

theorem DecodeRune_ascii (s0 : Byte) (rest : List Byte) (h : s0.val < 0x80) :
    utf8.DecodeRune (s0 :: rest) = (s0.val, 1) := by
  simp only [utf8.DecodeRune, h, if_true]

theorem EncodeRune_ascii (s0 : Byte) (h : s0.val < 0x80) : utf8.EncodeRune s0.val = [s0] := by
  have h1 : s0.val ≤ 0x7F := by omega
  simp only [utf8.EncodeRune, h1, if_true, List.cons.injEq, and_true]
  apply Fin.ext
  simp only [Fin.ofNat]
  omega

/-- The loop of `sanitizeForFilename` keeps exactly the bytes that are a letter, a
digit, `_` or `-`, in their order. -/
theorem sanitizeLoop_eq_filter (fuel : Nat) (s : List Byte) (h : s.length ≤ fuel) :
    sanitizeLoop fuel s = s.filter (fun b => keepRune b.val) := by
  induction fuel generalizing s with
  | zero =>
    have : s = [] := List.length_eq_zero.mp (by omega)
    subst this
    rfl
  | succ fuel ih =>
    rcases s with _ | ⟨s0, rest⟩
    · rfl
    · by_cases h0 : s0.val < 0x80
      · simp only [sanitizeLoop, DecodeRune_ascii s0 rest h0, List.drop_succ_cons, List.drop_zero,
          EncodeRune_ascii s0 h0, List.filter_cons]
        rw [ih rest (by simpa using h)]
        cases keepRune s0.val <;> simp
      · obtain ⟨k1, k2, k3⟩ := DecodeRune_nonascii s0 rest (by omega)
        have hsplit : (s0 :: rest)
            = (s0 :: rest).take (utf8.DecodeRune (s0 :: rest)).2
              ++ (s0 :: rest).drop (utf8.DecodeRune (s0 :: rest)).2 :=
          (List.take_append_drop _ _).symm
        have hnone : ((s0 :: rest).take (utf8.DecodeRune (s0 :: rest)).2).filter
            (fun b => keepRune b.val) = [] := by
          rw [List.filter_eq_nil_iff]
          intro b hb
          have := k3 b hb
          rw [keepRune_ge b.val (by omega)]
          simp
        have hdrop : ((s0 :: rest).drop (utf8.DecodeRune (s0 :: rest)).2).length ≤ fuel := by
          rw [List.length_drop]
          simp only [List.length_cons] at h ⊢
          omega
        rw [sanitizeLoop]
        simp only [k1, Bool.false_eq_true, if_false, List.nil_append]
        rw [ih _ hdrop]
        conv_rhs => rw [hsplit, List.filter_append, hnone, List.nil_append]

theorem sanitizeForFilename_eq (s : List Byte) :
    sanitizeForFilename s
      = (s.map (fun b => if b.val = 32 then (95 : Byte) else b)).filter
          (fun b => keepRune b.val) := by
  unfold sanitizeForFilename
  simp only [strings.ReplaceAllSpaceUnderscore]
  exact sanitizeLoop_eq_filter _ _ (le_refl _)

/-- `parseParticipantsPacket` on a packet that holds the name field of the player. -/
theorem parseParticipantsPacket_long (data : List Byte) (info : SessionInfo)
    (hlen : 30 + 58 * (data.getD 27 0).val + 80 ≤ data.length) :
    parseParticipantsPacket data info = { info with
      PlayerName := sanitizeForFilename
        (if strings.TrimSpace (extractNullTerminatedString
            (telemetry.slice data (30 + 58 * (data.getD 27 0).val + 48)
              (30 + 58 * (data.getD 27 0).val + 48 + 32))) = []
          then str "Player"
          else strings.TrimSpace (extractNullTerminatedString
            (telemetry.slice data (30 + 58 * (data.getD 27 0).val + 48)
              (30 + 58 * (data.getD 27 0).val + 48 + 32)))) } := by
  have h : ¬ data.length < 30 := by omega
  have h27 : data.getD 27 0 = data[27] := List.getD_eq_getElem _ _ (by omega)
  rw [h27] at hlen ⊢
  have h1 : ¬ 29 ≥ data.length := by omega
  have h2 : ¬ 29 + 1 + data[27].val * 58 + 58 > data.length := by omega
  have h3 : ¬ 29 + 1 + data[27].val * 58 + 48 + 32 > data.length := by omega
  have e : 29 + 1 + data[27].val * 58 + 48 = 30 + 58 * data[27].val + 48 := by omega
  have h3' : ¬ 30 + 58 * data[27].val + 48 + 32 > data.length := by omega
  simp only [parseParticipantsPacket, h, dite_false, h1, if_false, h2, e, h3']

end session

/-! ## Trimming white space -/

namespace strings

theorem IsSpace_ascii (c : Byte) (h : c.val < 0x80) : unicode.IsSpace c.val = asciiSpace c := by
  have h1 : c.val ≤ 0xFF := by omega
  simp only [unicode.IsSpace, h1, if_true, asciiSpace]
  congr 1
  apply propext
  constructor
  · intro h'
    omega
  · intro h'
    omega

theorem DecodeRune_size_pos (s0 : Byte) (rest : List Byte) :
    1 ≤ (utf8.DecodeRune (s0 :: rest)).2 := by
  by_cases h : s0.val < 0x80
  · rw [session.DecodeRune_ascii s0 rest h]
  · exact (session.DecodeRune_nonascii s0 rest (by omega)).2.1

/-- A string that starts with a continuation byte, or with a byte that starts no
encoding, starts with no rune. -/
theorem DecodeRune_bad_start (s0 : Byte) (rest : List Byte) (h1 : 0x80 ≤ s0.val)
    (h2 : s0.val < 0xC2 ∨ 0xF5 ≤ s0.val) :
    utf8.DecodeRune (s0 :: rest) = (utf8.RuneError, 1) := by
  have h : ¬ s0.val < 0x80 := by omega
  simp only [utf8.DecodeRune, h, if_false, h2, if_true]

/-- A byte of 0x80 or more that is followed by nothing, or by a byte that is no
continuation byte, is a rune of width 1. -/
theorem DecodeRune_alone (b : Byte) (y : List Byte) (hb : 0x80 ≤ b.val)
    (hy : y = [] ∨ utf8.RuneStart (y.getD 0 0) = true) :
    (utf8.DecodeRune (b :: y)).2 = 1 := by
  have h1 : ¬ b.val < 0x80 := by omega
  unfold utf8.DecodeRune
  simp only [h1, if_false]
  by_cases hx : b.val < 0xC2 ∨ 0xF5 ≤ b.val
  · simp only [hx, if_true]
  · simp only [hx, if_false]
    generalize hlo : (if b.val = 0xE0 then 0xA0 else if b.val = 0xF0 then 0x90 else 0x80 : ℕ)
      = lo
    generalize hhi : (if b.val = 0xED then 0x9F else if b.val = 0xF4 then 0x8F else 0xBF : ℕ)
      = hi
    have hlo80 : 0x80 ≤ lo := by rw [← hlo]; split_ifs <;> omega
    have hhiBF : hi ≤ 0xBF := by rw [← hhi]; split_ifs <;> omega
    by_cases hlen : (b :: y).length < (if b.val < 0xE0 then 2 else if b.val < 0xF0 then 3 else 4)
    · simp only [hlen, if_true]
    · simp only [hlen, if_false]
      rcases y with _ | ⟨s1, y⟩
      · rfl
      · have hs : utf8.RuneStart s1 = true := by
          rcases hy with hy | hy
          · simp at hy
          · simpa using hy
        have hc1 : s1.val < lo ∨ hi < s1.val := by
          simp only [utf8.RuneStart, decide_eq_true_eq] at hs
          omega
        simp only [hc1, if_true]

end strings

namespace strings

/-- A rune of two bytes or more at the start of a string is decoded from its own
bytes: what follows does not matter. -/
theorem DecodeRune_append (x y : List Byte) (h : 2 ≤ (utf8.DecodeRune x).2) :
    utf8.DecodeRune (x ++ y) = utf8.DecodeRune x := by
  rcases x with _ | ⟨s0, r1⟩
  · simp [utf8.DecodeRune] at h
  · by_cases h1 : s0.val < 0x80
    · simp [utf8.DecodeRune, h1] at h
    · by_cases hx : s0.val < 0xC2 ∨ 0xF5 ≤ s0.val
      · simp [utf8.DecodeRune, h1, hx] at h
      · rw [List.cons_append]
        unfold utf8.DecodeRune at h ⊢
        simp only [h1, hx, if_false, List.length_cons, List.length_append] at h ⊢
        generalize hlo : (if s0.val = 0xE0 then 0xA0 else if s0.val = 0xF0 then 0x90
          else 0x80 : ℕ) = lo at h ⊢
        generalize hhi : (if s0.val = 0xED then 0x9F else if s0.val = 0xF4 then 0x8F
          else 0xBF : ℕ) = hi at h ⊢
        generalize hsz : (if s0.val < 0xE0 then 2 else if s0.val < 0xF0 then 3 else 4 : ℕ)
          = sz at h ⊢
        have hsz2 : 2 ≤ sz ∧ sz ≤ 4 := by rw [← hsz]; split_ifs <;> omega
        by_cases hlen : r1.length + 1 < sz
        · rw [if_pos hlen] at h
          simp at h
        · have hlen' : ¬ r1.length + y.length + 1 < sz := by omega
          rw [if_neg hlen] at h
          rw [if_neg hlen, if_neg hlen']
          rcases r1 with _ | ⟨s1, r2⟩
          · simp at h
          · simp only [List.cons_append] at h ⊢
            by_cases hc1 : s1.val < lo ∨ hi < s1.val
            · rw [if_pos hc1] at h
              simp at h
            · rw [if_neg hc1] at h
              rw [if_neg hc1, if_neg hc1]
              by_cases h2 : sz ≤ 2
              · rw [if_pos h2, if_pos h2]
              · rw [if_neg h2] at h
                rw [if_neg h2, if_neg h2]
                rcases r2 with _ | ⟨s2, r3⟩
                · simp at h
                · simp only [List.cons_append] at h ⊢
                  by_cases hc2 : s2.val < 0x80 ∨ 0xBF < s2.val
                  · rw [if_pos hc2] at h
                    simp at h
                  · rw [if_neg hc2] at h
                    rw [if_neg hc2, if_neg hc2]
                    by_cases h3 : sz ≤ 3
                    · rw [if_pos h3, if_pos h3]
                    · rw [if_neg h3] at h
                      rw [if_neg h3, if_neg h3]
                      rcases r3 with _ | ⟨s3, r4⟩
                      · simp at h
                      · simp only [List.cons_append]

end strings

namespace strings

theorem backScan_le (s : List Byte) (lim : Int) (fuel : Nat) :
    ∀ start : Int, utf8.backScan s lim fuel start ≤ start := by
  induction fuel with
  | zero => intro start; simp [utf8.backScan]
  | succ fuel ih =>
    intro start
    unfold utf8.backScan
    split_ifs
    · exact le_refl _
    · have := ih (start - 1)
      omega
    · exact le_refl _

/-- How `DecodeLastRune` ends on a string that is not empty: on a last byte below
0x80; on an invalid end; or on the rune decoded from some offset, which reaches the
end of the string. -/
theorem DecodeLastRune_cases (u : List Byte) (hne : u ≠ []) :
    ((u.getD (u.length - 1) 0).val < 0x80 ∧
      utf8.DecodeLastRune u = ((u.getD (u.length - 1) 0).val, 1)) ∨
    (0x80 ≤ (u.getD (u.length - 1) 0).val ∧
      utf8.DecodeLastRune u = (utf8.RuneError, 1)) ∨
    (0x80 ≤ (u.getD (u.length - 1) 0).val ∧
      ∃ start, start < u.length ∧
        utf8.DecodeLastRune u = utf8.DecodeRune (u.drop start) ∧
        start + (utf8.DecodeRune (u.drop start)).2 = u.length) := by
  have hn : u.length ≠ 0 := by
    intro h
    exact hne (List.length_eq_zero.mp h)
  unfold utf8.DecodeLastRune
  simp only [hn, if_false]
  by_cases hd : (u.getD (u.length - 1) 0).val < utf8.RuneSelf
  · left
    simp only [hd, if_true]
    exact ⟨hd, trivial⟩
  · right
    simp only [hd, if_false]
    have hd' : 0x80 ≤ (u.getD (u.length - 1) 0).val := by
      simp only [utf8.RuneSelf] at hd
      omega
    generalize hlim : (if (u.length : Int) - utf8.UTFMax < 0 then (0 : Int)
      else (u.length : Int) - utf8.UTFMax) = lim
    have hb := backScan_le u lim utf8.UTFMax (((u.length - 1 : Nat) : Int) - 1)
    generalize utf8.backScan u lim utf8.UTFMax (((u.length - 1 : Nat) : Int) - 1) = bs at hb ⊢
    obtain ⟨st, hst⟩ : ∃ st : Nat, st = (if bs < 0 then 0 else bs.toNat) := ⟨_, rfl⟩
    have hlt : st < u.length := by
      rw [hst]
      split_ifs
      · omega
      · omega
    rw [← hst]
    have htake : (u.drop st).take (u.length - st) = u.drop st := by
      apply List.take_of_length_le
      rw [List.length_drop]
    rw [htake]
    by_cases hsum : st + (utf8.DecodeRune (u.drop st)).2 ≠ u.length
    · left
      refine ⟨hd', ?_⟩
      rcases hdr : utf8.DecodeRune (u.drop st) with ⟨r, size⟩
      rw [hdr] at hsum
      simp only [hsum, if_true, ne_eq, not_false_eq_true]
    · right
      refine ⟨hd', st, hlt, ?_, by omega⟩
      rcases hdr : utf8.DecodeRune (u.drop st) with ⟨r, size⟩
      rw [hdr] at hsum
      simp only [hsum, if_false, ne_eq, not_true_eq_false]

end strings

namespace strings

theorem IsSpace_RuneError : unicode.IsSpace utf8.RuneError = false := by decide

/-- The last rune of a string, when it is white space, has a width of 1 or more and
starts at a byte that is no continuation byte. -/
theorem DecodeLastRune_space (u : List Byte) (hne : u ≠ [])
    (hs : unicode.IsSpace (utf8.DecodeLastRune u).1 = true) :
    1 ≤ (utf8.DecodeLastRune u).2 ∧ (utf8.DecodeLastRune u).2 ≤ u.length ∧
    utf8.RuneStart (u.getD (u.length - (utf8.DecodeLastRune u).2) 0) = true := by
  have hn : 0 < u.length := List.length_pos.mpr hne
  rcases DecodeLastRune_cases u hne with ⟨hd, he⟩ | ⟨hd, he⟩ | ⟨hd, st, hst, he, hsum⟩
  · rw [he]
    refine ⟨le_refl _, hn, ?_⟩
    simp only [utf8.RuneStart, decide_eq_true_eq]
    omega
  · rw [he, IsSpace_RuneError] at hs
    exact absurd hs (by decide)
  · rw [he] at hs ⊢
    obtain ⟨x0, x', hx⟩ : ∃ x0 x', u.drop st = x0 :: x' := by
      rcases hdx : u.drop st with _ | ⟨x0, x'⟩
      · have := congrArg List.length hdx
        rw [List.length_drop] at this
        simp at this
        omega
      · exact ⟨x0, x', rfl⟩
    have hpos : 1 ≤ (utf8.DecodeRune (u.drop st)).2 := by
      rw [hx]
      exact DecodeRune_size_pos x0 x'
    have hj : u.length - (utf8.DecodeRune (u.drop st)).2 = st := by omega
    have hget : u.getD st 0 = x0 := by
      have h1 : u.getD st 0 = (u.drop st).getD 0 0 := by
        rw [List.getD_eq_getElem _ _ hst, List.getD_eq_getElem _ _ (by rw [List.length_drop]; omega)]
        simp
      rw [h1, hx]
      rfl
    refine ⟨hpos, by omega, ?_⟩
    rw [hj, hget]
    by_contra hc
    have hcont : x0.val / 64 = 2 := by
      simp only [utf8.RuneStart, decide_eq_true_eq, ne_eq, not_not] at hc
      exact hc
    rw [hx, DecodeRune_bad_start x0 x' (by omega) (Or.inl (by omega)), IsSpace_RuneError] at hs
    exact absurd hs (by decide)

/-- The end that `TrimRightFunc` computes from the offset of the last rune that is
no white space is the end of that rune, when what follows it starts with no
continuation byte. -/
theorem TrimRight_width (u y : List Byte) (hne : u ≠ [])
    (hy : y = [] ∨ utf8.RuneStart (y.getD 0 0) = true) :
    (if ((u ++ y).getD (u.length - (utf8.DecodeLastRune u).2) 0).val ≥ utf8.RuneSelf then
      (u ++ y).take (u.length - (utf8.DecodeLastRune u).2
        + (utf8.DecodeRune ((u ++ y).drop (u.length - (utf8.DecodeLastRune u).2))).2)
    else (u ++ y).take (u.length - (utf8.DecodeLastRune u).2 + 1)) = u := by
  have hn : 0 < u.length := List.length_pos.mpr hne
  have hlast : (u ++ y).getD (u.length - 1) 0 = u.getD (u.length - 1) 0 := by
    rw [List.getD_append _ _ _ _ (by omega)]
  have hdropl : (u ++ y).drop (u.length - 1) = u.getD (u.length - 1) 0 :: y := by
    rw [List.drop_append_of_le_length (by omega)]
    have : u.drop (u.length - 1) = [u.getD (u.length - 1) 0] := by
      rw [List.getD_eq_getElem _ _ (by omega)]
      rw [List.drop_eq_getElem_cons (by omega)]
      have e : u.length - 1 + 1 = u.length := by omega
      rw [e, List.drop_length]
    rw [this]
    rfl
  have htake : (u ++ y).take u.length = u := List.take_left u y
  rcases DecodeLastRune_cases u hne with ⟨hd, he⟩ | ⟨hd, he⟩ | ⟨hd, st, hst, he, hsum⟩
  · rw [he]
    simp only [hlast]
    have hc : ¬ (u.getD (u.length - 1) 0).val ≥ utf8.RuneSelf := by
      simp only [utf8.RuneSelf]
      omega
    rw [if_neg hc]
    have e : u.length - 1 + 1 = u.length := by omega
    rw [e, htake]
  · rw [he]
    simp only [hlast]
    have hc : (u.getD (u.length - 1) 0).val ≥ utf8.RuneSelf := by
      simp only [utf8.RuneSelf]
      omega
    rw [if_pos hc, hdropl, DecodeRune_alone _ y hd hy]
    have e : u.length - 1 + 1 = u.length := by omega
    rw [e, htake]
  · rw [he]
    obtain ⟨x0, x', hx⟩ : ∃ x0 x', u.drop st = x0 :: x' := by
      rcases hdx : u.drop st with _ | ⟨x0, x'⟩
      · have := congrArg List.length hdx
        rw [List.length_drop] at this
        simp at this
        omega
      · exact ⟨x0, x', rfl⟩
    have hxl : (x0 :: x').length = u.length - st := by
      rw [← hx, List.length_drop]
    have hpos : 1 ≤ (utf8.DecodeRune (u.drop st)).2 := by
      rw [hx]
      exact DecodeRune_size_pos x0 x'
    have hj : u.length - (utf8.DecodeRune (u.drop st)).2 = st := by omega
    have hget : (u ++ y).getD st 0 = x0 := by
      rw [List.getD_append _ _ _ _ hst]
      have h1 : u.getD st 0 = (u.drop st).getD 0 0 := by
        rw [List.getD_eq_getElem _ _ hst, List.getD_eq_getElem _ _ (by rw [List.length_drop]; omega)]
        simp
      rw [h1, hx]
      rfl
    have hdrop : (u ++ y).drop st = (x0 :: x') ++ y := by
      rw [List.drop_append_of_le_length (by omega), hx]
    have hx0 : 0x80 ≤ x0.val := by
      by_contra hlt
      have h1 := session.DecodeRune_ascii x0 x' (by omega)
      rw [hx, h1] at hsum
      simp only at hsum
      have hst1 : st = u.length - 1 := by omega
      have : u.getD (u.length - 1) 0 = x0 := by
        rw [← hst1]
        have h2 : u.getD st 0 = (u.drop st).getD 0 0 := by
          rw [List.getD_eq_getElem _ _ hst,
            List.getD_eq_getElem _ _ (by rw [List.length_drop]; omega)]
          simp
        rw [h2, hx]
        rfl
      rw [this] at hd
      omega
    rw [hj, hget]
    have hc : x0.val ≥ utf8.RuneSelf := by
      simp only [utf8.RuneSelf]
      omega
    rw [if_pos hc, hdrop]
    by_cases h2 : 2 ≤ (utf8.DecodeRune (x0 :: x')).2
    · rw [DecodeRune_append _ y h2]
      rw [hx] at hsum
      rw [hsum, htake]
    · rw [hx] at hsum hpos
      have hsz : (utf8.DecodeRune (x0 :: x')).2 = 1 := by omega
      have hx' : x' = [] := by
        rw [hsz] at hsum
        have : (x0 :: x').length = 1 := by omega
        simpa using this
      rw [hx', List.singleton_append, DecodeRune_alone x0 y hx0 hy]
      rw [hsz] at hsum
      rw [hsum, htake]

end strings

namespace strings

theorem dropLeadingSpace_nil (f : Nat) : spec.dropLeadingSpace f [] = [] := by
  cases f with
  | zero => rfl
  | succ f => simp [spec.dropLeadingSpace, spec.startsWithSpace]

theorem dropTrailingSpace_nil (f : Nat) : spec.dropTrailingSpace f [] = [] := by
  cases f with
  | zero => rfl
  | succ f => simp [spec.dropTrailingSpace, spec.endsWithSpace]

/-- Enough fuel: `dropLeadingSpace` gives the same string for every fuel that is
the length of the string or more. -/
theorem dropLeadingSpace_fuel (f : Nat) :
    ∀ (g : Nat) (s : List Byte), s.length ≤ f → s.length ≤ g →
      spec.dropLeadingSpace f s = spec.dropLeadingSpace g s := by
  induction f with
  | zero =>
    intro g s hf _
    have hs : s = [] := List.length_eq_zero.mp (by omega)
    rw [hs, dropLeadingSpace_nil, dropLeadingSpace_nil]
  | succ f ih =>
    intro g s hf hg
    rcases s with _ | ⟨c, rest⟩
    · rw [dropLeadingSpace_nil, dropLeadingSpace_nil]
    · cases g with
      | zero => simp at hg
      | succ g =>
        simp only [spec.dropLeadingSpace]
        by_cases hsp : spec.startsWithSpace (c :: rest) = true
        · rw [if_pos hsp, if_pos hsp]
          have hpos := DecodeRune_size_pos c rest
          apply ih
          · rw [List.length_drop]
            simp only [List.length_cons] at hf ⊢
            omega
          · rw [List.length_drop]
            simp only [List.length_cons] at hg ⊢
            omega
        · rw [if_neg hsp, if_neg hsp]

/-- Enough fuel: `dropTrailingSpace` gives the same string for every fuel that is
the length of the string or more. -/
theorem dropTrailingSpace_fuel (f : Nat) :
    ∀ (g : Nat) (s : List Byte), s.length ≤ f → s.length ≤ g →
      spec.dropTrailingSpace f s = spec.dropTrailingSpace g s := by
  induction f with
  | zero =>
    intro g s hf _
    have hs : s = [] := List.length_eq_zero.mp (by omega)
    rw [hs, dropTrailingSpace_nil, dropTrailingSpace_nil]
  | succ f ih =>
    intro g s hf hg
    rcases s with _ | ⟨c, rest⟩
    · rw [dropTrailingSpace_nil, dropTrailingSpace_nil]
    · cases g with
      | zero => simp at hg
      | succ g =>
        simp only [spec.dropTrailingSpace]
        by_cases hsp : spec.endsWithSpace (c :: rest) = true
        · rw [if_pos hsp, if_pos hsp]
          have hsp' : unicode.IsSpace (utf8.DecodeLastRune (c :: rest)).1 = true := hsp
          have hpos := (DecodeLastRune_space (c :: rest) (by simp) hsp').1
          apply ih
          · rw [List.length_take]
            simp only [List.length_cons] at hf ⊢
            omega
          · rw [List.length_take]
            simp only [List.length_cons] at hg ⊢
            omega
        · rw [if_neg hsp, if_neg hsp]

/-- What `indexFunc` finds from the left is where `dropLeadingSpace` stops. -/
theorem indexNotSpace_spec (f : Nat) :
    ∀ (s : List Byte) (i : Nat), s.length ≤ f →
      (indexNotSpace f s i = none ∧ spec.dropLeadingSpace f s = []) ∨
      ∃ k, indexNotSpace f s i = some (i + k) ∧ spec.dropLeadingSpace f s = s.drop k := by
  induction f with
  | zero =>
    intro s i hf
    have hs : s = [] := List.length_eq_zero.mp (by omega)
    left
    rw [hs]
    exact ⟨rfl, rfl⟩
  | succ f ih =>
    intro s i hf
    rcases s with _ | ⟨c, rest⟩
    · left
      exact ⟨rfl, dropLeadingSpace_nil _⟩
    · simp only [indexNotSpace, spec.dropLeadingSpace]
      have hpos := DecodeRune_size_pos c rest
      by_cases hsp : unicode.IsSpace (utf8.DecodeRune (c :: rest)).1 = true
      · have hsp' : spec.startsWithSpace (c :: rest) = true := hsp
        rw [if_pos hsp, if_pos hsp']
        have hlen : ((c :: rest).drop (utf8.DecodeRune (c :: rest)).2).length ≤ f := by
          rw [List.length_drop]
          simp only [List.length_cons] at hf ⊢
          omega
        rcases ih ((c :: rest).drop (utf8.DecodeRune (c :: rest)).2)
          (i + (utf8.DecodeRune (c :: rest)).2) hlen with ⟨h1, h2⟩ | ⟨k, h1, h2⟩
        · left
          exact ⟨h1, h2⟩
        · right
          refine ⟨(utf8.DecodeRune (c :: rest)).2 + k, ?_, ?_⟩
          · rw [h1, Nat.add_assoc]
          · rw [h2, List.drop_drop]
      · have hsp' : ¬ spec.startsWithSpace (c :: rest) = true := hsp
        rw [if_neg hsp, if_neg hsp']
        right
        exact ⟨0, rfl, rfl⟩

/-- The function `TrimLeftFunc(s, unicode.IsSpace)` drops the leading white space. -/
theorem TrimLeftSpace_eq (s : List Byte) :
    TrimLeftSpace s = spec.dropLeadingSpace s.length s := by
  unfold TrimLeftSpace
  rcases indexNotSpace_spec s.length s 0 (le_refl _) with ⟨h1, h2⟩ | ⟨k, h1, h2⟩
  · rw [h1, h2]
  · rw [h1, h2, Nat.zero_add]

theorem dropLeadingSpace_length (f : Nat) (s : List Byte) (hf : s.length ≤ f) :
    (spec.dropLeadingSpace f s).length ≤ s.length := by
  rcases indexNotSpace_spec f s 0 hf with ⟨_, h2⟩ | ⟨k, _, h2⟩
  · rw [h2]
    exact Nat.zero_le _
  · rw [h2, List.length_drop]
    omega

/-- What `lastIndexFunc` finds from the right, and the end `TrimRightFunc` computes
from it, is where `dropTrailingSpace` stops. -/
theorem lastIndexNotSpace_spec (t : List Byte) (f : Nat) :
    ∀ (i : Nat), i ≤ f → i ≤ t.length →
      (i = t.length ∨ utf8.RuneStart (t.getD i 0) = true) →
      (match lastIndexNotSpace t f i with
        | some j =>
          if (t.getD j 0).val ≥ utf8.RuneSelf then
            t.take (j + (utf8.DecodeRune (t.drop j)).2)
          else t.take (j + 1)
        | none => t.take 0) = spec.dropTrailingSpace f (t.take i) := by
  induction f with
  | zero =>
    intro i hf _ _
    have hi : i = 0 := by omega
    rw [hi]
    rfl
  | succ f ih =>
    intro i hf hle hinv
    by_cases hi : i = 0
    · rw [hi]
      simp only [lastIndexNotSpace, if_true, List.take_zero]
      rw [dropTrailingSpace_nil]
    · have hlen : (t.take i).length = i := by
        rw [List.length_take]
        omega
      have hne : t.take i ≠ [] := by
        intro h
        rw [h] at hlen
        simp at hlen
        omega
      obtain ⟨c, rest, hcr⟩ : ∃ c rest, t.take i = c :: rest := by
        rcases h : t.take i with _ | ⟨c, rest⟩
        · exact absurd h hne
        · exact ⟨c, rest, rfl⟩
      have hy : t.drop i = [] ∨ utf8.RuneStart ((t.drop i).getD 0 0) = true := by
        rcases hinv with h | h
        · left
          rw [h, List.drop_length]
        · by_cases hlt : i < t.length
          · right
            rw [List.getD_eq_getElem _ _ hlt] at h
            rw [List.getD_eq_getElem _ _ (by rw [List.length_drop]; omega)]
            simpa using h
          · left
            have : i = t.length := by omega
            rw [this, List.drop_length]
      have ht : t.take i ++ t.drop i = t := List.take_append_drop i t
      simp only [lastIndexNotSpace, if_neg hi, spec.dropTrailingSpace]
      by_cases hsp : unicode.IsSpace (utf8.DecodeLastRune (t.take i)).1 = true
      · have hsp' : spec.endsWithSpace (t.take i) = true := by
          rw [hcr] at hsp ⊢
          exact hsp
        rw [if_pos hsp, if_pos hsp']
        obtain ⟨h1, h2, h3⟩ := DecodeLastRune_space (t.take i) hne hsp
        rw [hlen] at h2 h3 ⊢
        have hget : (t.take i).getD (i - (utf8.DecodeLastRune (t.take i)).2) 0
            = t.getD (i - (utf8.DecodeLastRune (t.take i)).2) 0 := by
          have hk := List.getD_append (t.take i) (t.drop i) 0
            (i - (utf8.DecodeLastRune (t.take i)).2) (by rw [hlen]; omega)
          rw [ht] at hk
          exact hk.symm
        rw [hget] at h3
        have := ih (i - (utf8.DecodeLastRune (t.take i)).2) (by omega) (by omega) (Or.inr h3)
        rw [this, List.take_take]
        congr 2
        omega
      · have hsp' : ¬ spec.endsWithSpace (t.take i) = true := by
          rw [hcr] at hsp ⊢
          exact hsp
        rw [if_neg hsp, if_neg hsp']
        have hw := TrimRight_width (t.take i) (t.drop i) hne hy
        rw [ht, hlen] at hw
        exact hw

/-- The function `TrimRightFunc(s, unicode.IsSpace)` drops the trailing white space. -/
theorem TrimRightSpace_eq (t : List Byte) :
    TrimRightSpace t = spec.dropTrailingSpace t.length t := by
  have h := lastIndexNotSpace_spec t t.length t.length (le_refl _) (le_refl _) (Or.inl rfl)
  rw [List.take_length] at h
  exact h

theorem DecodeLastRune_ascii_end (init : List Byte) (d : Byte) (hd : d.val < 0x80) :
    utf8.DecodeLastRune (init ++ [d]) = (d.val, 1) := by
  have hlast : (init ++ [d]).getD ((init ++ [d]).length - 1) 0 = d := by
    rw [List.getD_eq_getElem _ _ (by simp)]
    simp
  rcases DecodeLastRune_cases (init ++ [d]) (by simp) with ⟨_, he⟩ | ⟨h, _⟩ | ⟨h, _⟩
  · rw [he, hlast]
  · rw [hlast] at h
    omega
  · rw [hlast] at h
    omega

theorem endsWithSpace_eq (s : List Byte) (h : s ≠ []) :
    spec.endsWithSpace s = unicode.IsSpace (utf8.DecodeLastRune s).1 := by
  rcases s with _ | ⟨c, rest⟩
  · exact absurd rfl h
  · rfl

/-- The second loop of `TrimSpace` drops the trailing white space. -/
theorem trimSpaceStop_eq (u : List Byte) :
    ∀ g, u.length ≤ g → trimSpaceStop u = spec.dropTrailingSpace g u.reverse := by
  induction u with
  | nil =>
    intro g _
    rw [List.reverse_nil, dropTrailingSpace_nil]
    rfl
  | cons d rest ih =>
    intro g hg
    cases g with
    | zero => simp at hg
    | succ g =>
      simp only [List.length_cons] at hg
      unfold trimSpaceStop
      by_cases hd : d.val ≥ utf8.RuneSelf
      · rw [if_pos hd, TrimRightSpace_eq]
        apply dropTrailingSpace_fuel
        · exact le_refl _
        · rw [List.length_reverse, List.length_cons]
          omega
      · rw [if_neg hd]
        have hd' : d.val < 0x80 := by
          simp only [utf8.RuneSelf] at hd
          omega
        have hdec := DecodeLastRune_ascii_end rest.reverse d hd'
        have hends : spec.endsWithSpace (rest.reverse ++ [d]) = asciiSpace d := by
          rw [endsWithSpace_eq _ (by simp), hdec]
          exact IsSpace_ascii d hd'
        rw [List.reverse_cons]
        simp only [spec.dropTrailingSpace]
        rw [hends, hdec]
        by_cases hsp : asciiSpace d = true
        · rw [if_pos hsp, if_pos hsp, ih g (by omega)]
          congr 1
          rw [List.length_append, List.length_singleton, Nat.add_sub_cancel]
          exact (List.take_left _ _).symm
        · rw [if_neg hsp, if_neg hsp]

/-- The function `strings.TrimSpace` returns the string without the white space
characters at its start and at its end. -/
theorem trimSpaceStart_eq (s : List Byte) :
    ∀ f g, s.length ≤ f → s.length ≤ g →
      trimSpaceStart s = spec.dropTrailingSpace g (spec.dropLeadingSpace f s) := by
  induction s with
  | nil =>
    intro f g _ _
    rw [dropLeadingSpace_nil, dropTrailingSpace_nil]
    rfl
  | cons c rest ih =>
    intro f g hf hg
    simp only [List.length_cons] at hf hg
    unfold trimSpaceStart
    by_cases hc : c.val ≥ utf8.RuneSelf
    · rw [if_pos hc]
      unfold TrimFuncSpace
      rw [TrimRightSpace_eq, TrimLeftSpace_eq,
        dropLeadingSpace_fuel (c :: rest).length f (c :: rest) (le_refl _)
          (by rw [List.length_cons]; omega)]
      apply dropTrailingSpace_fuel
      · exact le_refl _
      · have := dropLeadingSpace_length f (c :: rest) (by rw [List.length_cons]; omega)
        rw [List.length_cons] at this
        omega
    · rw [if_neg hc]
      have hc' : c.val < 0x80 := by
        simp only [utf8.RuneSelf] at hc
        omega
      have hdec := session.DecodeRune_ascii c rest hc'
      have hstarts : spec.startsWithSpace (c :: rest) = asciiSpace c := by
        show unicode.IsSpace (utf8.DecodeRune (c :: rest)).1 = asciiSpace c
        rw [hdec]
        exact IsSpace_ascii c hc'
      cases f with
      | zero => omega
      | succ f =>
        simp only [spec.dropLeadingSpace]
        rw [hstarts, hdec]
        by_cases hsp : asciiSpace c = true
        · rw [if_pos hsp, if_pos hsp]
          exact ih f g (by omega) (by omega)
        · have hlen : (c :: rest).reverse.length ≤ g := by
            rw [List.length_reverse, List.length_cons]
            omega
          rw [if_neg hsp, if_neg hsp, trimSpaceStop_eq _ g hlen, List.reverse_reverse]

theorem TrimSpace_eq_trimmed (s : List Byte) : TrimSpace s = spec.trimmed s :=
  trimSpaceStart_eq s s.length s.length (le_refl _) (le_refl _)

end strings

namespace session

theorem extractNullTerminatedString_eq (s : List Byte) :
    extractNullTerminatedString s = spec.nulTerminated s := by
  induction s with
  | nil => rfl
  | cons b rest ih =>
    unfold extractNullTerminatedString spec.nulTerminated
    by_cases hb : b.val = 0
    · simp [hb]
    · simp only [hb, if_false]
      rw [List.takeWhile_cons]
      simp only [ne_eq, hb, not_false_eq_true, decide_True, if_true]
      rw [ih]
      rfl

end session

namespace strings

/-- On a string of ASCII bytes the leading white space is the longest prefix of
tabs, newlines, vertical tabs, form feeds, carriage returns and spaces. -/
theorem dropLeadingSpace_ascii (f : Nat) :
    ∀ s : List Byte, s.length ≤ f → (∀ b ∈ s, b.val < 0x80) →
      spec.dropLeadingSpace f s = s.dropWhile asciiSpace := by
  induction f with
  | zero =>
    intro s hf _
    have hs : s = [] := List.length_eq_zero.mp (by omega)
    rw [hs]
    rfl
  | succ f ih =>
    intro s hf hs
    rcases s with _ | ⟨c, rest⟩
    · rw [dropLeadingSpace_nil]
      rfl
    · have hc : c.val < 0x80 := hs c (List.mem_cons_self _ _)
      have hdec := session.DecodeRune_ascii c rest hc
      have hstarts : spec.startsWithSpace (c :: rest) = asciiSpace c := by
        show unicode.IsSpace (utf8.DecodeRune (c :: rest)).1 = asciiSpace c
        rw [hdec]
        exact IsSpace_ascii c hc
      simp only [List.length_cons] at hf
      simp only [spec.dropLeadingSpace]
      rw [hstarts, hdec, List.dropWhile_cons]
      by_cases hsp : asciiSpace c = true
      · rw [if_pos hsp, if_pos hsp]
        exact ih rest (by omega) (fun b hb => hs b (List.mem_cons_of_mem _ hb))
      · rw [if_neg hsp, if_neg hsp]

/-- On a string of ASCII bytes the trailing white space is the longest suffix of
tabs, newlines, vertical tabs, form feeds, carriage returns and spaces. -/
theorem dropTrailingSpace_ascii (u : List Byte) :
    ∀ g, u.length ≤ g → (∀ b ∈ u, b.val < 0x80) →
      spec.dropTrailingSpace g u.reverse = (u.dropWhile asciiSpace).reverse := by
  induction u with
  | nil =>
    intro g _ _
    rw [List.reverse_nil, dropTrailingSpace_nil]
    rfl
  | cons d rest ih =>
    intro g hg hs
    cases g with
    | zero => simp at hg
    | succ g =>
      simp only [List.length_cons] at hg
      have hd : d.val < 0x80 := hs d (List.mem_cons_self _ _)
      have hdec := DecodeLastRune_ascii_end rest.reverse d hd
      have hends : spec.endsWithSpace (rest.reverse ++ [d]) = asciiSpace d := by
        rw [endsWithSpace_eq _ (by simp), hdec]
        exact IsSpace_ascii d hd
      rw [List.reverse_cons]
      simp only [spec.dropTrailingSpace]
      rw [hends, hdec, List.dropWhile_cons]
      by_cases hsp : asciiSpace d = true
      · rw [if_pos hsp, if_pos hsp,
          ← ih g (by omega) (fun b hb => hs b (List.mem_cons_of_mem _ hb))]
        congr 1
        rw [List.length_append, List.length_singleton, Nat.add_sub_cancel]
        exact List.take_left _ _
      · rw [if_neg hsp, if_neg hsp, List.reverse_cons]

/-- The trimmed form of a string of ASCII bytes, in terms of its bytes. -/
theorem trimmed_ascii (s : List Byte) (hs : ∀ b ∈ s, b.val < 0x80) :
    spec.trimmed s = ((s.dropWhile asciiSpace).reverse.dropWhile asciiSpace).reverse := by
  unfold spec.trimmed
  rw [dropLeadingSpace_ascii s.length s (le_refl _) hs]
  have hsuf := List.dropWhile_suffix asciiSpace (l := s)
  have h := dropTrailingSpace_ascii (s.dropWhile asciiSpace).reverse s.length
    (by rw [List.length_reverse]; exact hsuf.length_le)
    (fun b hb => hs b (hsuf.subset (List.mem_reverse.mp hb)))
  rw [List.reverse_reverse] at h
  exact h

end strings

namespace session

/-- C19: the session fields and the player name. For a Session packet of at least
100 bytes, `Weather`, `SessionType` and `TrackName` are the table names of the bytes
at offsets 29, 35 and 36 (the last read as `int8`), with "Unknown" for a weather or
session type the table does not list and "Track" followed by the signed id for an
unlisted track. For a Participants packet that holds the field, `PlayerName` is the
sanitized NUL-terminated name of the 32 bytes at offset 30 + 58*i + 48, with i the
byte at offset 27: the bytes of the field before its first NUL byte, trimmed of
leading and trailing white space, "Player" when nothing is left, then every space
made an underscore and every byte that is not a letter, a digit, `_` or `-`
removed. The sample Session packet (session type 15, track 5, weather 0) and
Participants packet (car index 0, name "Max Verstappen!!") give `HasInfo = true`
and the file name "Monaco_Race_Max_Verstappen"; a name field that holds a tab, a
space, "Max Verstappen!!", a space, a no-break space, a space, a NUL byte and
"Lewis" gives the name "Max_Verstappen", and a field "Max", NUL, "Lewis" the name
"Max". -/
theorem session_field_extraction (data : List Byte) (info : SessionInfo) :
    (100 ≤ data.length →
      (parseSessionPacket data info).Weather
        = (if weatherConditions (data.getD 29 0).val = [] then str "Unknown"
            else weatherConditions (data.getD 29 0).val) ∧
      (parseSessionPacket data info).SessionType
        = (if sessionTypes (data.getD 35 0).val = [] then str "Unknown"
            else sessionTypes (data.getD 35 0).val) ∧
      (parseSessionPacket data info).TrackName
        = (if trackNames (toInt8 (data.getD 36 0)) = []
            then str "Track" ++ formatInt (toInt8 (data.getD 36 0))
            else trackNames (toInt8 (data.getD 36 0)))) ∧
    (30 + 58 * (data.getD 27 0).val + 80 ≤ data.length →
      (parseParticipantsPacket data info).PlayerName
        = (((if spec.trimmed (spec.nulTerminated
                ((data.drop (30 + 58 * (data.getD 27 0).val + 48)).take 32)) = []
              then str "Player"
              else spec.trimmed (spec.nulTerminated
                ((data.drop (30 + 58 * (data.getD 27 0).val + 48)).take 32))).map
            (fun b => if b.val = 32 then (95 : Byte) else b)).filter
            (fun b => decide ((97 ≤ b.val ∧ b.val ≤ 122) ∨ (65 ≤ b.val ∧ b.val ≤ 90)
              ∨ (48 ≤ b.val ∧ b.val ≤ 57) ∨ b.val = 95 ∨ b.val = 45)))) ∧
    weatherConditions 0 = str "Clear" ∧ weatherConditions 6 = [] ∧
    sessionTypes 15 = str "Race" ∧ sessionTypes 19 = [] ∧
    trackNames 5 = str "Monaco" ∧ trackNames (-1) = [] ∧
    str "Track" ++ formatInt (toInt8 255) = str "Track-1" ∧
    (ExtractSessionInfo [sample.sessionPacket, sample.participantsPacket]).HasInfo = true ∧
    (ExtractSessionInfo [sample.sessionPacket, sample.participantsPacket]).GenerateFilename
      = str "Monaco_Race_Max_Verstappen" ∧
    (sample.paddedNamePacket.drop 78).take 32
      = [9, 32] ++ str "Max Verstappen!!" ++ [32, 0xC2, 0xA0, 32, 0] ++ str "Lewis"
          ++ [0, 0, 0, 0] ∧
    (parseParticipantsPacket sample.paddedNamePacket (ExtractSessionInfo [])).PlayerName
      = str "Max_Verstappen" ∧
    (ExtractSessionInfo [sample.sessionPacket, sample.paddedNamePacket]).GenerateFilename
      = str "Monaco_Race_Max_Verstappen" ∧
    (parseParticipantsPacket
      (List.replicate 78 0 ++ str "Max" ++ [0] ++ str "Lewis" ++ List.replicate 23 0)
      (ExtractSessionInfo [])).PlayerName = str "Max" := by
  refine ⟨?_, ?_, by decide, by decide, by decide, by decide, by decide, by decide, by decide,
    by decide, by decide, by decide, by decide, by decide, by decide⟩
  · intro hlen
    have h : ¬ data.length < 100 := by omega
    have h29 : data.getD 29 0 = data[29] := List.getD_eq_getElem _ _ (by omega)
    have h35 : data.getD 35 0 = data[35] := List.getD_eq_getElem _ _ (by omega)
    have h36 : data.getD 36 0 = data[36] := List.getD_eq_getElem _ _ (by omega)
    rw [h29, h35, h36]
    simp only [parseSessionPacket, h, dite_false]
    refine ⟨?_, ?_, ?_⟩ <;> split_ifs <;> rfl
  · intro hlen
    rw [parseParticipantsPacket_long data info hlen]
    simp only [sanitizeForFilename_eq, strings.TrimSpace_eq_trimmed,
      extractNullTerminatedString_eq, telemetry.slice, Nat.add_sub_cancel_left]
    rfl

/-- C20: name sanitization. For a Participants packet that holds the name field,
the raw name is the bytes of the field before its first NUL byte. When the raw name
with its leading and trailing white space trimmed is not empty, the stored
`PlayerName` is that trimmed name with every space replaced by an underscore and
then every byte that is not a letter, a digit, `_` or `-` removed, the others
keeping their order (a character outside ASCII is made of bytes of 0x80 or more,
all removed); every byte of the result is a letter, a digit, `_` or `-`. The
trimmed form of a raw name of ASCII bytes is the name without its longest prefix and
its longest suffix of tabs, newlines, vertical tabs, form feeds, carriage returns
and spaces. -/
theorem PlayerName_sanitized (data : List Byte) (info : SessionInfo)
    (hlen : 30 + 58 * (data.getD 27 0).val + 80 ≤ data.length)
    (hne : spec.trimmed (spec.nulTerminated
      ((data.drop (30 + 58 * (data.getD 27 0).val + 48)).take 32)) ≠ []) :
    (parseParticipantsPacket data info).PlayerName
      = ((spec.trimmed (spec.nulTerminated
          ((data.drop (30 + 58 * (data.getD 27 0).val + 48)).take 32))).map
          (fun b => if b.val = 32 then (95 : Byte) else b)).filter
          (fun b => decide ((97 ≤ b.val ∧ b.val ≤ 122) ∨ (65 ≤ b.val ∧ b.val ≤ 90)
            ∨ (48 ≤ b.val ∧ b.val ≤ 57) ∨ b.val = 95 ∨ b.val = 45)) ∧
    (∀ b ∈ (parseParticipantsPacket data info).PlayerName,
      (97 ≤ b.val ∧ b.val ≤ 122) ∨ (65 ≤ b.val ∧ b.val ≤ 90) ∨ (48 ≤ b.val ∧ b.val ≤ 57)
        ∨ b.val = 95 ∨ b.val = 45) ∧
    ((∀ b ∈ spec.nulTerminated
        ((data.drop (30 + 58 * (data.getD 27 0).val + 48)).take 32), b.val < 0x80) →
      spec.trimmed (spec.nulTerminated
        ((data.drop (30 + 58 * (data.getD 27 0).val + 48)).take 32))
      = (((spec.nulTerminated
          ((data.drop (30 + 58 * (data.getD 27 0).val + 48)).take 32)).dropWhile
            (fun b => decide (b.val = 9 ∨ b.val = 10 ∨ b.val = 11 ∨ b.val = 12 ∨ b.val = 13
              ∨ b.val = 32))).reverse.dropWhile
            (fun b => decide (b.val = 9 ∨ b.val = 10 ∨ b.val = 11 ∨ b.val = 12 ∨ b.val = 13
              ∨ b.val = 32))).reverse) := by
  have e : (parseParticipantsPacket data info).PlayerName
      = ((spec.trimmed (spec.nulTerminated
          ((data.drop (30 + 58 * (data.getD 27 0).val + 48)).take 32))).map
          (fun b => if b.val = 32 then (95 : Byte) else b)).filter
          (fun b => decide ((97 ≤ b.val ∧ b.val ≤ 122) ∨ (65 ≤ b.val ∧ b.val ≤ 90)
            ∨ (48 ≤ b.val ∧ b.val ≤ 57) ∨ b.val = 95 ∨ b.val = 45)) := by
    rw [parseParticipantsPacket_long data info hlen]
    simp only [sanitizeForFilename_eq, strings.TrimSpace_eq_trimmed,
      extractNullTerminatedString_eq, telemetry.slice, Nat.add_sub_cancel_left, hne, if_false]
    rfl
  refine ⟨e, ?_, ?_⟩
  · intro b hb
    rw [e] at hb
    have hk := (List.mem_filter.mp hb).2
    simpa using hk
  · intro hascii
    exact strings.trimmed_ascii _ hascii

/-- Witness for C20: a name field that holds a tab, a space, "Max Verstappen!!", a
space, a no-break space (bytes C2 A0), a space, a NUL byte and "Lewis". The raw name
ends before the NUL byte, its trimmed form is "Max Verstappen!!", which is also what
`strings.TrimSpace` returns for it, and the stored name is "Max_Verstappen". -/
theorem PlayerName_sanitized_witness :
    30 + 58 * (sample.paddedNamePacket.getD 27 0).val + 80
      ≤ sample.paddedNamePacket.length ∧
    spec.nulTerminated ((sample.paddedNamePacket.drop 78).take 32)
      = [9, 32] ++ str "Max Verstappen!!" ++ [32, 0xC2, 0xA0, 32] ∧
    spec.trimmed (spec.nulTerminated ((sample.paddedNamePacket.drop 78).take 32))
      = str "Max Verstappen!!" ∧
    strings.TrimSpace (extractNullTerminatedString
      (telemetry.slice sample.paddedNamePacket 78 110)) = str "Max Verstappen!!" ∧
    (parseParticipantsPacket sample.paddedNamePacket
      (ExtractSessionInfo [])).PlayerName = str "Max_Verstappen" := by
  have h := (PlayerName_sanitized sample.paddedNamePacket (ExtractSessionInfo [])
    (by decide) (by decide)).1
  refine ⟨by decide, by decide, by decide, by decide, ?_⟩
  rw [h]
  decide

end session

/-! ## The player: speed, truncated recordings, pacing -/

namespace playback

/-- C13: `SetSpeed(f)` puts `f` in the speed field when `f > 0` and changes nothing
of the player otherwise; so after any sequence of `SetSpeed` calls on a player
whose speed is positive the speed, which `playbackLoop` divides by, is still
positive, and nothing but the speed has changed. -/
theorem SetSpeed_keeps_speed_positive (p : Player) (f : Float64) (fs : List Float64) :
    (f.gtZero = true → p.SetSpeed f = { p with speed := f }) ∧
    (f.gtZero = false → p.SetSpeed f = p) ∧
    (p.speed.gtZero = true → (fs.foldl Player.SetSpeed p).speed.gtZero = true) ∧
    fs.foldl Player.SetSpeed p = { p with speed := (fs.foldl Player.SetSpeed p).speed } ∧
    Float64.gtZero ⟨0x3FF0000000000000⟩ = true ∧ Float64.gtZero ⟨0⟩ = false ∧
    Float64.gtZero ⟨0x8000000000000000⟩ = false ∧
    Float64.gtZero ⟨0xBFF0000000000000⟩ = false ∧
    Float64.gtZero ⟨0x7FF8000000000000⟩ = false := by
  refine ⟨?_, ?_, ?_, ?_, by decide, by decide, by decide, by decide, by decide⟩
  · intro h
    simp [Player.SetSpeed, h]
  · intro h
    simp [Player.SetSpeed, h]
  · intro hp
    induction fs generalizing p with
    | nil => exact hp
    | cons g gs ih =>
      simp only [List.foldl_cons]
      apply ih
      cases hg : g.gtZero with
      | true => simp [Player.SetSpeed, hg]
      | false => simpa [Player.SetSpeed, hg] using hp
  · induction fs generalizing p with
    | nil => rfl
    | cons g gs ih =>
      simp only [List.foldl_cons]
      rw [ih (p.SetSpeed g)]
      cases hg : g.gtZero <;> simp [Player.SetSpeed, hg]

/-- `readPacket` on an open file whose rest is a proper, non-empty beginning of an
entry returns an error, and only the file of the player has changed. -/
theorem readPacket_truncated (p : Player) (f : os.RFile) (ts : Int) (data : List Byte)
    (n : Nat) (hf : p.file = some f) (hc : f.closed = false)
    (ho : f.offset ≤ f.content.length)
    (hrest : f.content.drop f.offset = (format.entry ts data).take n)
    (hlen : data.length < 2 ^ 32) (hn : 0 < n) (hn' : n < (format.entry ts data).length) :
    ∃ g e, p.readPacket = ({ p with file := some g }, 0, [], some e) := by
  obtain ⟨c, o, cl⟩ := f
  simp only at hc ho hrest
  subst hc
  have hel := recorder.entry_length ts data
  have hl : c.length - o = n := by
    have := congrArg List.length hrest
    rw [List.length_drop, List.length_take] at this
    omega
  unfold Player.readPacket
  simp only [hf, binary.Read]
  by_cases h8 : n < 8
  · obtain ⟨g, bs, e, he⟩ := io.ReadFull_err ⟨c, o, false⟩ 8 (by decide)
      (Or.inr (by simp only; omega))
    rw [he]
    exact ⟨g, e, rfl⟩
  · rw [io.ReadFull_ok ⟨c, o, false⟩ 8 rfl (by simp only; omega)]
    simp only []
    by_cases h12 : n < 12
    · obtain ⟨g, bs, e, he⟩ := io.ReadFull_err ⟨c, o + 8, false⟩ 4 (by decide)
        (Or.inr (by simp only; omega))
      rw [he]
      exact ⟨g, e, rfl⟩
    · rw [io.ReadFull_ok ⟨c, o + 8, false⟩ 4 rfl (by simp only; omega)]
      simp only []
      have e2 : binary.Uint32 ((c.drop (o + 8)).take 4) = data.length := by
        have l8 : (binary.lePut 8 (toUint64 ts)).length = 8 := binary.lePut_length 8 _
        have l4 : (binary.lePut 4 (data.length % 2 ^ 32)).length = 4 := binary.lePut_length 4 _
        have d1 : (c.drop (o + 8)).take 4 = binary.lePut 4 (data.length % 2 ^ 32) := by
          rw [← List.drop_drop, hrest, List.drop_take, List.take_take]
          have hm : min 4 (n - 8) = 4 := by omega
          rw [hm]
          simp only [format.entry, List.append_assoc]
          rw [List.drop_left' l8, List.take_left' l4]
        rw [d1]
        have := Uint32_PutUint32 (data.length % 2 ^ 32)
        rw [binary.PutUint32] at this
        rw [this, Nat.mod_mod, Nat.mod_eq_of_lt hlen]
      rw [e2]
      obtain ⟨g, bs, e, he⟩ := io.ReadFull_err ⟨c, o + 8 + 4, false⟩ data.length (by omega)
        (Or.inr (by simp only; omega))
      rw [he]
      exact ⟨g, e, rfl⟩

/-- Publishing on an open channel does not panic and changes the channel only,
which stays open. -/
theorem publish_open (p : Player) (ts : Int) (d : List Byte) (h : p.packets.closed = false) :
    ∃ c, p.publish ts d = some { p with packets := c } ∧ c.closed = false := by
  unfold Player.publish
  cases hr : p.IsRunning with
  | false => exact ⟨p.packets, by simp, h⟩
  | true =>
    simp only [if_true]
    rcases hph : telemetry.ParseHeader d with ⟨_ | hdr, _ | err⟩
    · exact ⟨p.packets, by simp, h⟩
    · exact ⟨p.packets, by simp, h⟩
    · simp only [telemetry.PacketChan.trySend, h, Bool.false_eq_true, if_false]
      by_cases hroom : p.packets.buf.length < p.packets.cap
      · simp only [hroom, if_true]
        exact ⟨_, rfl, rfl⟩
      · simp only [hroom, if_false]
        exact ⟨p.packets, by simp, h⟩
    · exact ⟨p.packets, by simp, h⟩

/-- `sendPacket` changes the socket only. -/
theorem sendPacket_conn (p : Player) (d : List Byte) :
    ∃ c, (p.sendPacket d).1 = { p with conn := c } := by
  unfold Player.sendPacket
  obtain ⟨fp, file, ta, tp, sp, conn, st, run, pa, sc, pk⟩ := p
  cases conn with
  | none => exact ⟨none, rfl⟩
  | some c =>
    cases hcl : c.closed with
    | true => exact ⟨some c, by simp [hcl]⟩
    | false => exact ⟨some { c with sent := c.sent ++ [d] }, by simp [hcl]⟩

/-- A pass of the loop that finds a whole entry next in the file: the loop goes
on, one more packet is counted, and the entry has been sent after the pacing sleep. -/
theorem iteration_entry (sys : LoopSys) (l : Loop) (f : os.RFile) (ts : Int)
    (data rest : List Byte) (hstop : l.p.stopChan = false) (hpause : l.p.paused = false)
    (hpk : l.p.packets.closed = false)
    (hf : l.p.file = some f) (hc : f.closed = false) (ho : f.offset ≤ f.content.length)
    (hrest : f.content.drop f.offset = format.entry ts data ++ rest)
    (hts : -2 ^ 63 ≤ ts ∧ ts < 2 ^ 63) (hlen : data.length < 2 ^ 32) :
    ∃ l', l.iteration sys = LoopStep.next l' ∧ l'.p.stopChan = false ∧
      l'.p.paused = false ∧ l'.p.running = l.p.running ∧ l'.p.packets.closed = false ∧
      l'.p.file = some { f with offset := f.offset + (data.length + 12) } ∧
      l'.p.stats.PacketsPlayed = (l.p.stats.PacketsPlayed + 1) % 2 ^ 64 ∧
      l'.lastTimestamp = ts ∧
      l'.events = Loop.pace sys l ts ++ [LoopEvent.send data] := by
  obtain ⟨p, last, events⟩ := l
  obtain ⟨fp, file, ta, tp, sp, conn, st, run, pa, sc, pk⟩ := p
  simp only at hstop hpause hpk hf
  subst hstop hpause hf
  have h1 := (readPacket_ok ⟨fp, some f, ta, tp, sp, conn, st, run, false, false, pk⟩
    f ts data rest rfl hc ho hrest hts hlen).1
  simp only at h1
  obtain ⟨c, hsend⟩ := sendPacket_conn
    ⟨fp, some { f with offset := f.offset + (data.length + 12) }, ta, tp, sp, conn, st, run,
      false, false, pk⟩ data
  simp only at hsend
  obtain ⟨ch, hpub, hch⟩ := publish_open
    ⟨fp, some { f with offset := f.offset + (data.length + 12) }, ta, tp, sp, c, st, run,
      false, false, pk⟩ ts data hpk
  simp only at hpub
  unfold Loop.iteration
  simp only [Player.IsPaused, Bool.false_eq_true, if_false, h1, hsend, hpub]
  exact ⟨_, rfl, rfl, rfl, rfl, hch, rfl, rfl, rfl, rfl⟩

/-- A pass of the loop of a running player whose `readPacket` fails: the player is
stopped and the loop returns, with the counters and the events as they were. -/
theorem iteration_read_error (sys : LoopSys) (l : Loop) (g : os.RFile) (e : Error)
    (ts : Int) (bs : List Byte)
    (hstop : l.p.stopChan = false) (hpause : l.p.paused = false)
    (hpk : l.p.packets.closed = false) (hrun : l.p.running = true)
    (hread : l.p.readPacket = ({ l.p with file := some g }, ts, bs, some e)) :
    ∃ l', l.iteration sys = LoopStep.done l' ∧ l'.p.running = false ∧
      l'.p.stopChan = true ∧ l'.p.packets.closed = true ∧ l'.p.stats = l.p.stats ∧
      l'.events = l.events ∧ ∃ g', l'.p.file = some g' ∧ g'.closed = true := by
  obtain ⟨p, last, events⟩ := l
  obtain ⟨fp, file, ta, tp, sp, conn, st, run, pa, sc, pk⟩ := p
  simp only at hstop hpause hpk hrun hread
  subst hstop hpause hrun
  unfold Loop.iteration
  simp only [Player.IsPaused, Bool.false_eq_true, if_false, hread]
  cases conn with
  | none =>
    cases hg : g.closed <;> simp [Player.Stop, hpk, os.RClose, hg]
  | some c =>
    cases hg : g.closed <;> simp [Player.Stop, hpk, os.RClose, hg]

/-- `Start` on a player that is not running, for a file that opens, has 46 bytes or
more and starts with "F1TR", when the socket is made. -/
theorem Start_accepts (p : Player) (sys : StartSys) (content : List Byte)
    (hrun : p.running = false) (hopen : sys.open_ = .ok content) (hdial : sys.dial = none)
    (hlen : 46 ≤ content.length) (hmagic : content.take 4 = magicF1TR) :
    p.Start sys = ({ p with
      file := some { content := content, offset := 46, closed := false }
      conn := some { sent := [], closed := false }
      running := true
      paused := false
      stats := { PacketsPlayed := 0, BytesSent := 0, StartTime := sys.now,
                 CurrentTime := recorder.zeroTime, RecordingTime := recorder.zeroTime } },
      none) := by
  obtain ⟨fp, file, ta, tp, sp, conn, st, run, pa, sc, pk⟩ := p
  simp only at hrun
  subst hrun
  have hh := readFileHeader_ok ⟨fp, some ⟨content, 0, false⟩, ta, tp, sp, conn, st, false, pa, sc, pk⟩
    ⟨content, 0, false⟩ rfl rfl (by simp only; omega) (by simpa using hmagic)
  simp only at hh
  unfold Player.Start
  simp only [Bool.false_eq_true, if_false, hopen, hh, hdial, Nat.zero_add]

/-- The loop of a running player on a file whose rest is some whole entries and
then a proper, non-empty beginning of one more: with enough passes the loop
returns, the player is stopped, and one packet was counted for each whole entry. -/
theorem run_truncated (sys : LoopSys) (es : List (Int × List Byte)) (ts : Int)
    (data : List Byte) (n : Nat) (fuel : Nat) (l : Loop) (f : os.RFile)
    (hstop : l.p.stopChan = false) (hpause : l.p.paused = false)
    (hpk : l.p.packets.closed = false) (hrun : l.p.running = true)
    (hf : l.p.file = some f) (hc : f.closed = false) (ho : f.offset ≤ f.content.length)
    (hrest : f.content.drop f.offset = format.entries es ++ (format.entry ts data).take n)
    (hes : ∀ e ∈ es, (-2 ^ 63 ≤ e.1 ∧ e.1 < 2 ^ 63) ∧ e.2.length < 2 ^ 32)
    (hlen : data.length < 2 ^ 32) (hn : 0 < n) (hn' : n < (format.entry ts data).length)
    (hpp : l.p.stats.PacketsPlayed < 2 ^ 64) (hfuel : es.length < fuel) :
    ∃ l', Loop.run sys fuel l = LoopStep.done l' ∧ l'.p.running = false ∧
      l'.p.stopChan = true ∧
      l'.p.stats.PacketsPlayed = (l.p.stats.PacketsPlayed + es.length) % 2 ^ 64 := by
  induction es generalizing l f fuel with
  | nil =>
    obtain ⟨fuel, rfl⟩ : ∃ k, fuel = k + 1 := ⟨fuel - 1, by simp at hfuel; omega⟩
    obtain ⟨g, e, hread⟩ := readPacket_truncated l.p f ts data n hf hc ho
      (by simpa [format.entries] using hrest) hlen hn hn'
    obtain ⟨l', h1, h2, h3, _, h5, _⟩ :=
      iteration_read_error sys l g e 0 [] hstop hpause hpk hrun hread
    refine ⟨l', ?_, h2, h3, ?_⟩
    · simp only [Loop.run, h1]
    · rw [h5]
      simp only [List.length_nil, Nat.add_zero]
      exact (Nat.mod_eq_of_lt hpp).symm
  | cons e es ih =>
    obtain ⟨t1, d1⟩ := e
    obtain ⟨fuel, rfl⟩ : ∃ k, fuel = k + 1 := ⟨fuel - 1, by simp at hfuel; omega⟩
    have he := hes (t1, d1) (List.mem_cons_self _ _)
    have hrest' : f.content.drop f.offset
        = format.entry t1 d1 ++ (format.entries es ++ (format.entry ts data).take n) := by
      rw [hrest]
      simp [format.entries, List.append_assoc]
    obtain ⟨_, r2, r3⟩ := readPacket_ok l.p f t1 d1 _ hf hc ho hrest' he.1 he.2
    obtain ⟨l1, i1, i2, i3, i4, i5, i6, i7, _, _⟩ :=
      iteration_entry sys l f t1 d1 _ hstop hpause hpk hf hc ho hrest' he.1 he.2
    obtain ⟨l', j1, j2, j3, j4⟩ := ih fuel l1 { f with offset := f.offset + (d1.length + 12) }
      i2 i3 i5 (by rw [i4]; exact hrun) i6 hc r3 r2
      (fun x hx => hes x (List.mem_cons_of_mem _ hx)) (by
        rw [i7]
        exact Nat.mod_lt _ (by norm_num)) (by simpa using hfuel)
    refine ⟨l', ?_, j2, j3, ?_⟩
    · simp only [Loop.run, i1, j1]
    · rw [j4, i7]
      simp only [List.length_cons]
      norm_num
      omega

/-- Successive `readPacket` calls on an open file whose rest is some whole entries
and then a proper, non-empty beginning of one more: the calls return the whole
entries in order and the next call returns an error. -/
theorem readPackets_truncated (es : List (Int × List Byte)) (ts : Int) (data : List Byte)
    (n : Nat) (p : Player) (f : os.RFile)
    (hf : p.file = some f) (hc : f.closed = false) (ho : f.offset ≤ f.content.length)
    (hrest : f.content.drop f.offset = format.entries es ++ (format.entry ts data).take n)
    (hes : ∀ e ∈ es, (-2 ^ 63 ≤ e.1 ∧ e.1 < 2 ^ 63) ∧ e.2.length < 2 ^ 32)
    (hlen : data.length < 2 ^ 32) (hn : 0 < n) (hn' : n < (format.entry ts data).length) :
    ∃ e p', p.readPackets (es.length + 1) = (es, some e, p') := by
  induction es generalizing p f with
  | nil =>
    obtain ⟨g, e, hread⟩ := readPacket_truncated p f ts data n hf hc ho
      (by simpa [format.entries] using hrest) hlen hn hn'
    refine ⟨e, { p with file := some g }, ?_⟩
    simp only [List.length_nil, Nat.zero_add, Player.readPackets, hread]
  | cons x es ih =>
    obtain ⟨t1, d1⟩ := x
    have he := hes (t1, d1) (List.mem_cons_self _ _)
    have hrest' : f.content.drop f.offset
        = format.entry t1 d1 ++ (format.entries es ++ (format.entry ts data).take n) := by
      rw [hrest]
      simp [format.entries, List.append_assoc]
    obtain ⟨h1, h2, h3⟩ := readPacket_ok p f t1 d1 _ hf hc ho hrest' he.1 he.2
    obtain ⟨e, p', hp'⟩ := ih
      { p with file := some { f with offset := f.offset + (d1.length + 12) } }
      { f with offset := f.offset + (d1.length + 12) } rfl hc h3 h2
      (fun x hx => hes x (List.mem_cons_of_mem _ hx))
    refine ⟨e, p', ?_⟩
    rw [List.length_cons, Player.readPackets, h1]
    simp only [hp']

/-- Every entry takes 12 bytes or more. -/
theorem entries_count (es : List (Int × List Byte)) :
    12 * es.length ≤ (format.entries es).length := by
  induction es with
  | nil => simp
  | cons e es ih =>
    obtain ⟨t, d⟩ := e
    simp only [format.entries, List.length_append, recorder.entry_length, List.length_cons]
    omega

/-- C11: a recording with a truncated tail is readable up to its last complete
entry. For every file made of 46 header bytes that start with "F1TR", k whole
entries (timestamps in `int64`, payloads shorter than 2^32 bytes) and then a proper,
non-empty beginning of one more entry, the file being no longer than the largest
file size: `Start` returns nil; from there the first k `readPacket` calls return the
k entries unchanged and in order and the call after them returns an error; and the
playback loop, given more than k passes, returns with the player stopped and
`PacketsPlayed` equal to k. -/
theorem truncated_tail_read_to_last_entry (p : Player) (sys : StartSys) (lsys : LoopSys)
    (hdr : List Byte) (es : List (Int × List Byte)) (ts : Int) (data : List Byte)
    (n fuel : Nat)
    (hrun : p.running = false) (hstop : p.stopChan = false)
    (hpk : p.packets.closed = false)
    (hopen : sys.open_ = .ok (hdr ++ format.entries es ++ (format.entry ts data).take n))
    (hdial : sys.dial = none)
    (hhdr : hdr.length = 46) (hmagic : hdr.take 4 = magicF1TR)
    (hes : ∀ e ∈ es, (-2 ^ 63 ≤ e.1 ∧ e.1 < 2 ^ 63) ∧ e.2.length < 2 ^ 32)
    (hlen : data.length < 2 ^ 32) (hn : 0 < n) (hn' : n < (format.entry ts data).length)
    (hsize : (hdr ++ format.entries es ++ (format.entry ts data).take n).length
      ≤ os.maxFileSize)
    (hfuel : es.length < fuel) :
    ∃ p1, p.Start sys = (p1, none) ∧
      (∃ e p2, p1.readPackets (es.length + 1) = (es, some e, p2)) ∧
      ∃ l, p1.playbackLoop lsys fuel = LoopStep.done l ∧ l.p.running = false ∧
        l.p.stats.PacketsPlayed = es.length := by
  obtain ⟨c, hcdef⟩ : ∃ c, c = hdr ++ format.entries es ++ (format.entry ts data).take n :=
    ⟨_, rfl⟩
  rw [← hcdef] at hopen hsize
  have hc46 : 46 ≤ c.length := by
    rw [hcdef]
    simp only [List.length_append, hhdr]
    omega
  have hcm : c.take 4 = magicF1TR := by
    rw [hcdef, List.append_assoc, List.take_append_of_le_length (by omega)]
    exact hmagic
  have hdrop : c.drop 46 = format.entries es ++ (format.entry ts data).take n := by
    rw [hcdef, List.append_assoc, ← hhdr, List.drop_left]
  have hk : es.length < 2 ^ 64 := by
    have h1 := entries_count es
    have h2 : (format.entries es).length ≤ c.length := by
      rw [hcdef]
      simp only [List.length_append]
      omega
    have h3 := recorder.maxFileSize_eq
    rw [h3] at hsize
    norm_num
    omega
  have hstart := Start_accepts p sys c hrun hopen hdial hc46 hcm
  have hfile : (p.Start sys).1.file = some ⟨c, 46, false⟩ := by rw [hstart]
  have hstop1 : (p.Start sys).1.stopChan = false := by rw [hstart]; exact hstop
  have hpause1 : (p.Start sys).1.paused = false := by rw [hstart]
  have hpk1 : (p.Start sys).1.packets.closed = false := by rw [hstart]; exact hpk
  have hrun1 : (p.Start sys).1.running = true := by rw [hstart]
  have hpp1 : (p.Start sys).1.stats.PacketsPlayed = 0 := by rw [hstart]
  refine ⟨(p.Start sys).1, by rw [hstart], ?_, ?_⟩
  · exact readPackets_truncated es ts data n _ ⟨c, 46, false⟩ hfile rfl hc46 hdrop hes hlen
      hn hn'
  · obtain ⟨l, h1, h2, _, h4⟩ := run_truncated lsys es ts data n fuel
      { p := (p.Start sys).1, lastTimestamp := 0, events := [] } ⟨c, 46, false⟩
      hstop1 hpause1 hpk1 hrun1 hfile rfl hc46 hdrop hes hlen hn hn'
      (by rw [hpp1]; norm_num) hfuel
    refine ⟨l, h1, h2, ?_⟩
    rw [h4, hpp1, Nat.zero_add]
    exact Nat.mod_eq_of_lt hk

set_option maxRecDepth 100000 in
/-- Witness for C11: the recording `sample.truncatedFile`, two whole entries and the
first 5 bytes of a third, played by a new player. -/
theorem truncated_tail_read_to_last_entry_witness :
    sample.truncatedFile.length = 46 + (29 + 12) + (3 + 12) + 5 ∧
    ∃ p1, sample.newPlayer.Start (sample.playSys sample.truncatedFile) = (p1, none) ∧
      (∃ e p2, p1.readPackets 3
        = ([(1700000000000000000, sample.header29), (-1, [1, 2, 3])], some e, p2)) ∧
      ∃ l, p1.playbackLoop sample.loopSys 3 = LoopStep.done l ∧ l.p.running = false ∧
        l.p.stats.PacketsPlayed = 2 :=
  ⟨by decide,
    truncated_tail_read_to_last_entry sample.newPlayer (sample.playSys sample.truncatedFile)
      sample.loopSys (format.header 1700000000000000001)
      [(1700000000000000000, sample.header29), (-1, [1, 2, 3])] 7 [9] 5 3
      rfl rfl rfl rfl rfl (by decide) (by decide) (by decide) (by decide) (by decide)
      (by decide) (by decide) (by decide)⟩

set_option maxRecDepth 100000 in
/-- C12: the pacing of the playback loop when an entry is stamped 0. The loop
takes `lastTimestamp = 0` to mean that no entry has been sent yet: whatever the
speed and the next timestamp, a pass that starts with `lastTimestamp = 0` makes no
sleep. On `sample.zeroStampFile`, whose two entries are stamped 0 and 1 s, the
loop at speed 1.0 sends the two payloads with no wait between them, while on
`sample.fiveStampFile`, stamped 5 ns and 1 s + 5 ns, it waits 1 s before the
second. -/
theorem playbackLoop_no_wait_after_timestamp_zero :
    (∀ (sys : LoopSys) (p : Player) (events : List LoopEvent) (timestamp : Int),
      Loop.pace sys { p := p, lastTimestamp := 0, events := events } timestamp = events) ∧
    (∃ l, (sample.newPlayer.Start (sample.playSys sample.zeroStampFile)).1.playbackLoop
        sample.loopSys 3 = LoopStep.done l ∧
      l.events = [LoopEvent.send [1], LoopEvent.send [2]]) ∧
    (∃ l, (sample.newPlayer.Start (sample.playSys sample.fiveStampFile)).1.playbackLoop
        sample.loopSys 3 = LoopStep.done l ∧
      l.events = [LoopEvent.send [1], LoopEvent.sleep 1000000000, LoopEvent.send [2]]) := by
  refine ⟨?_, ⟨_, rfl, ?_⟩, ⟨_, rfl, ?_⟩⟩
  · intro sys p events timestamp
    simp [Loop.pace]
  · decide
  · decide

end playback

/-! ## The payload parsers: reads inside the buffer -/

namespace telemetry

theorem index_lt (data : List Byte) (i : Nat) (h : i < data.length) :
    index data i = some (data.getD i 0) := by
  unfold index
  rw [List.getElem?_eq_getElem h, List.getD_eq_getElem _ _ h]

theorem index_ge (data : List Byte) (i : Nat) (h : data.length ≤ i) : index data i = none := by
  unfold index
  exact List.getElem?_eq_none h

theorem sliceChecked_le (data : List Byte) (lo hi : Nat) (h1 : lo ≤ hi)
    (h2 : hi ≤ data.length) : sliceChecked data lo hi = some (slice data lo hi) := by
  unfold sliceChecked
  rw [if_pos ⟨h1, h2⟩]

theorem slice_length (data : List Byte) (lo hi : Nat) (h2 : hi ≤ data.length) :
    (slice data lo hi).length = hi - lo := by
  unfold slice
  rw [List.length_take, List.length_drop]
  omega

theorem readUint16_le (data : List Byte) (offset : Nat) (h : offset + 2 ≤ data.length) :
    readUint16 data offset = some (binary.Uint16 (slice data offset (offset + 2))) := by
  have hl := slice_length data offset (offset + 2) h
  unfold readUint16
  rw [sliceChecked_le data offset (offset + 2) (by omega) h]
  simp only [Option.some_bind, uint16Checked]
  rw [if_neg (by omega)]

theorem readUint32_le (data : List Byte) (offset : Nat) (h : offset + 4 ≤ data.length) :
    readUint32 data offset = some (binary.Uint32 (slice data offset (offset + 4))) := by
  have hl := slice_length data offset (offset + 4) h
  unfold readUint32
  rw [sliceChecked_le data offset (offset + 4) (by omega) h]
  simp only [Option.some_bind, uint32Checked]
  rw [if_neg (by omega)]

/-- `ParseCarTelemetryPacket` never panics, and it returns nil when the buffer does
not hold the 60-byte record of the player's car. -/
theorem ParseCarTelemetryPacket_reads (data : List Byte) (playerCarIndex : Byte) :
    ∃ r, ParseCarTelemetryPacket data playerCarIndex = some r ∧
      (data.length < 29 + playerCarIndex.val * 60 + 60 → r = none) := by
  unfold ParseCarTelemetryPacket
  by_cases h29 : data.length < 29
  · exact ⟨none, by rw [if_pos h29], fun _ => rfl⟩
  · rw [if_neg h29, index_lt data 6 (by omega)]
    simp only []
    by_cases hid : (data.getD 6 0).val ≠ 6
    · exact ⟨none, by rw [if_pos hid], fun _ => rfl⟩
    · rw [if_neg hid]
      by_cases hb : 29 + playerCarIndex.val * 60 + 60 > data.length
      · exact ⟨none, by rw [if_pos hb], fun _ => rfl⟩
      · rw [if_neg hb]
        simp (disch := omega) only [index_lt, readUint16_le, readUint32_le]
        exact ⟨_, rfl, fun h => absurd h (by omega)⟩

/-- `ParseCarStatusPacket` never panics, and it returns nil when the buffer does not
hold the 58-byte record of the player's car. -/
theorem ParseCarStatusPacket_reads (data : List Byte) (playerCarIndex : Byte) :
    ∃ r, ParseCarStatusPacket data playerCarIndex = some r ∧
      (data.length < 29 + playerCarIndex.val * 58 + 58 → r = none) := by
  unfold ParseCarStatusPacket
  by_cases h29 : data.length < 29
  · exact ⟨none, by rw [if_pos h29], fun _ => rfl⟩
  · rw [if_neg h29, index_lt data 6 (by omega)]
    simp only []
    by_cases hid : (data.getD 6 0).val ≠ 7
    · exact ⟨none, by rw [if_pos hid], fun _ => rfl⟩
    · rw [if_neg hid]
      by_cases hb : 29 + playerCarIndex.val * 58 + 58 > data.length
      · exact ⟨none, by rw [if_pos hb], fun _ => rfl⟩
      · rw [if_neg hb]
        simp (disch := omega) only [index_lt, readUint32_le]
        exact ⟨_, rfl, fun h => absurd h (by omega)⟩

end telemetry

/-! ## Session detection: the default name, the file name -/

namespace session

theorem parseSessionPacketChecked_eq (data : List Byte) (info : SessionInfo) :
    parseSessionPacketChecked data info = some (parseSessionPacket data info) := by
  unfold parseSessionPacketChecked parseSessionPacket
  by_cases h : data.length < 100
  · simp [h]
  · have h29 : data.getD 29 0 = data[29] := List.getD_eq_getElem _ _ (by omega)
    have h35 : data.getD 35 0 = data[35] := List.getD_eq_getElem _ _ (by omega)
    have h36 : data.getD 36 0 = data[36] := List.getD_eq_getElem _ _ (by omega)
    simp (disch := omega) only [h, if_false, dite_false, telemetry.index_lt, h29, h35, h36]

theorem parseParticipantsPacketChecked_eq (data : List Byte) (info : SessionInfo) :
    parseParticipantsPacketChecked data info = some (parseParticipantsPacket data info) := by
  unfold parseParticipantsPacketChecked parseParticipantsPacket
  by_cases h : data.length < 30
  · simp [h]
  · have h27 : data.getD 27 0 = data[27] := List.getD_eq_getElem _ _ (by omega)
    simp (disch := omega) only [h, if_false, dite_false, telemetry.index_lt, h27]
    by_cases h1 : 29 ≥ data.length
    · omega
    · by_cases h2 : 29 + 1 + data[27].val * 58 + 58 > data.length
      · simp only [h1, h2, if_false, if_true]
      · by_cases h3 : 29 + 1 + data[27].val * 58 + 48 + 32 > data.length
        · simp only [h1, h2, h3, if_false, if_true]
        · simp only [h1, h2, h3, if_false]
          rw [telemetry.sliceChecked_le _ _ _ (by omega) (by omega)]

theorem parseSessionPacket_short (data : List Byte) (info : SessionInfo)
    (h : data.length < 100) : parseSessionPacket data info = info := by
  simp [parseSessionPacket, h]

theorem parseParticipantsPacket_short (data : List Byte) (info : SessionInfo)
    (h : data.length < 30 + 58 * (data.getD 27 0).val + 80) :
    parseParticipantsPacket data info = info := by
  unfold parseParticipantsPacket
  by_cases h30 : data.length < 30
  · simp [h30]
  · have h27 : data.getD 27 0 = data[27] := List.getD_eq_getElem _ _ (by omega)
    rw [h27] at h
    by_cases h2 : 29 + 1 + data[27].val * 58 + 58 > data.length
    · simp [h30, h2]
    · have h3 : 29 + 1 + data[27].val * 58 + 48 + 32 > data.length := by omega
      simp [h30, h2, h3]

end session

/-- C28: no payload parser reads outside its buffer. For every byte sequence and
every player car index from 0 to 255, `ParseCarTelemetryPacket` and
`ParseCarStatusPacket`, with every index and slice expression checked as the run
time checks it, return a result (no read panics), and the result is nil when the
buffer is too short for the 60-byte telemetry record or the 58-byte status record
of the player's car; `parseSessionPacket` and `parseParticipantsPacket` with their
reads checked return a result too, the same as without the checks, and they leave
the `SessionInfo` as it was when the buffer is shorter than 100 bytes or does not
hold the 32-byte name field of the player. -/
theorem parsers_read_inside_buffer (data : List Byte) (playerCarIndex : Byte)
    (info : session.SessionInfo) :
    (∃ r, telemetry.ParseCarTelemetryPacket data playerCarIndex = some r ∧
      (data.length < 29 + playerCarIndex.val * 60 + 60 → r = none)) ∧
    (∃ r, telemetry.ParseCarStatusPacket data playerCarIndex = some r ∧
      (data.length < 29 + playerCarIndex.val * 58 + 58 → r = none)) ∧
    session.parseSessionPacketChecked data info = some (session.parseSessionPacket data info) ∧
    (data.length < 100 → session.parseSessionPacket data info = info) ∧
    session.parseParticipantsPacketChecked data info
      = some (session.parseParticipantsPacket data info) ∧
    (data.length < 30 + 58 * (data.getD 27 0).val + 80 →
      session.parseParticipantsPacket data info = info) :=
  ⟨telemetry.ParseCarTelemetryPacket_reads data playerCarIndex,
    telemetry.ParseCarStatusPacket_reads data playerCarIndex,
    session.parseSessionPacketChecked_eq data info,
    session.parseSessionPacket_short data info,
    session.parseParticipantsPacketChecked_eq data info,
    session.parseParticipantsPacket_short data info⟩

namespace menu

set_option maxRecDepth 100000 in
/-- C30: the value of `TyreTempAvg`. The sum of the four temperatures is made in
`uint8`, so the value handed to the display is the sum modulo 256, divided by 4: it
is the average (rounded down) exactly when the four temperatures add up to less
than 256. The sample Car Telemetry packet, whose four tyres are at 90 degrees, is
parsed to these four temperatures and gives 26, not 90. -/
theorem TyreTempAvg_sum_wraps :
    (∀ td : telemetry.TelemetryData,
      TyreTempAvg td = (td.TyreTemp.1.val + td.TyreTemp.2.1.val + td.TyreTemp.2.2.1.val
        + td.TyreTemp.2.2.2.val) % 256 / 4) ∧
    (∀ td : telemetry.TelemetryData,
      TyreTempAvg td = (td.TyreTemp.1.val + td.TyreTemp.2.1.val + td.TyreTemp.2.2.1.val
        + td.TyreTemp.2.2.2.val) / 4
      ↔ td.TyreTemp.1.val + td.TyreTemp.2.1.val + td.TyreTemp.2.2.1.val
        + td.TyreTemp.2.2.2.val < 256) ∧
    (∃ td, telemetry.ParseCarTelemetryPacket sample.telemetryPacket 0 = some (some td) ∧
      td.TyreTemp = (90, 90, 90, 90) ∧
      TyreTempAvg (telemetry.MergeTelemetryData none (some td)) = 26 ∧
      (90 + 90 + 90 + 90) / 4 = 90) := by
  have key : ∀ td : telemetry.TelemetryData,
      TyreTempAvg td = (td.TyreTemp.1.val + td.TyreTemp.2.1.val + td.TyreTemp.2.2.1.val
        + td.TyreTemp.2.2.2.val) % 256 / 4 := by
    intro td
    obtain ⟨sp, th, br, ge, rpm, drs, et, ⟨t0, t1, t2, t3⟩, tp, fl, ers, edm⟩ := td
    simp only [TyreTempAvg]
    omega
  refine ⟨key, ?_, ⟨_, rfl, ?_, ?_, ?_⟩⟩
  · intro td
    rw [key td]
    have h0 := td.TyreTemp.1.isLt
    have h1 := td.TyreTemp.2.1.isLt
    have h2 := td.TyreTemp.2.2.1.isLt
    have h3 := td.TyreTemp.2.2.2.isLt
    omega
  · decide
  · decide
  · decide

end menu

namespace session

set_option maxRecDepth 100000 in
/-- The name stored for a name that trims to nothing is "Player". -/
theorem sanitize_Player : sanitizeForFilename (str "Player") = str "Player" := by
  rw [sanitizeForFilename_eq]
  decide

set_option maxRecDepth 100000 in
/-- C21: the default name. On a Participants packet that holds the name field, a
name that trims to nothing is stored as "Player": the sample packet with a name of
three spaces gives "Player". But the default is put in before the name is
sanitized, so a name that does not trim to nothing and has no space, letter, digit,
`_` or `-` in it is stored as the empty string: the sample packet with the name
"!!!" gives an empty `PlayerName`. -/
theorem PlayerName_default_before_sanitizing :
    (∀ (data : List Byte) (info : SessionInfo),
      30 + 58 * (data.getD 27 0).val + 80 ≤ data.length →
      (strings.TrimSpace (extractNullTerminatedString
          (telemetry.slice data (30 + 58 * (data.getD 27 0).val + 48)
            (30 + 58 * (data.getD 27 0).val + 48 + 32))) = [] →
        (parseParticipantsPacket data info).PlayerName = str "Player") ∧
      (strings.TrimSpace (extractNullTerminatedString
          (telemetry.slice data (30 + 58 * (data.getD 27 0).val + 48)
            (30 + 58 * (data.getD 27 0).val + 48 + 32))) ≠ [] →
        (∀ b ∈ strings.TrimSpace (extractNullTerminatedString
            (telemetry.slice data (30 + 58 * (data.getD 27 0).val + 48)
              (30 + 58 * (data.getD 27 0).val + 48 + 32))),
          b.val ≠ 32 ∧ keepRune b.val = false) →
        (parseParticipantsPacket data info).PlayerName = [])) ∧
    (parseParticipantsPacket sample.blankPacket (ExtractSessionInfo [])).PlayerName
      = str "Player" ∧
    strings.TrimSpace (extractNullTerminatedString
      (telemetry.slice sample.bangPacket 78 110)) = str "!!!" ∧
    (parseParticipantsPacket sample.bangPacket (ExtractSessionInfo [])).PlayerName = [] := by
  refine ⟨?_, by decide, by decide, by decide⟩
  intro data info hlen
  rw [parseParticipantsPacket_long data info hlen]
  refine ⟨?_, ?_⟩
  · intro h
    simp only [h, if_true]
    exact sanitize_Player
  · intro h hall
    simp only [h, if_false]
    rw [sanitizeForFilename_eq, List.filter_eq_nil_iff]
    intro b hb
    obtain ⟨a, ha, rfl⟩ := List.mem_map.mp hb
    have := hall a ha
    simp [this.1, this.2]

theorem Join_mem (parts : List (List Byte)) (sep : List Byte) (b : Byte)
    (h : b ∈ strings.Join parts sep) : b ∈ sep ∨ ∃ p ∈ parts, b ∈ p := by
  induction parts with
  | nil => simp [strings.Join] at h
  | cons a rest ih =>
    cases rest with
    | nil =>
      simp only [strings.Join] at h
      exact Or.inr ⟨a, List.mem_cons_self _ _, h⟩
    | cons c rest =>
      simp only [strings.Join, List.mem_append] at h
      rcases h with (h | h) | h
      · exact Or.inr ⟨a, List.mem_cons_self _ _, h⟩
      · exact Or.inl h
      · rcases ih h with h | ⟨q, hq, hb⟩
        · exact Or.inl h
        · exact Or.inr ⟨q, List.mem_cons_of_mem _ hq, hb⟩

theorem Join_ne_nil (parts : List (List Byte)) (sep : List Byte) (h : parts ≠ [])
    (hp : ∀ q ∈ parts, q ≠ []) : strings.Join parts sep ≠ [] := by
  cases parts with
  | nil => exact absurd rfl h
  | cons a rest =>
    have ha := hp a (List.mem_cons_self _ _)
    cases rest with
    | nil => simpa [strings.Join] using ha
    | cons c rest => simp [strings.Join, ha]

theorem parts_mem (si : SessionInfo) (q : List Byte) (h : q ∈ si.parts) :
    q ≠ [] ∧ (q = si.TrackName ∨ q = si.SessionType ∨ q = si.PlayerName ∨ q = si.Weather) := by
  unfold SessionInfo.parts at h
  simp only [List.mem_append] at h
  rcases h with ((h | h) | h) | h
  · by_cases c : si.TrackName ≠ []
    · rw [if_pos c] at h
      rw [List.mem_singleton.mp h]
      exact ⟨c, Or.inl rfl⟩
    · rw [if_neg c] at h
      simp at h
  · by_cases c : si.SessionType ≠ [] ∧ si.SessionType ≠ str "Unknown"
    · rw [if_pos c] at h
      rw [List.mem_singleton.mp h]
      exact ⟨c.1, Or.inr (Or.inl rfl)⟩
    · rw [if_neg c] at h
      simp at h
  · by_cases c : si.PlayerName ≠ [] ∧ si.PlayerName ≠ str "Player"
    · rw [if_pos c] at h
      rw [List.mem_singleton.mp h]
      exact ⟨c.1, Or.inr (Or.inr (Or.inl rfl))⟩
    · rw [if_neg c] at h
      simp at h
  · by_cases c : si.Weather ≠ [] ∧ si.Weather ≠ str "Clear"
    · rw [if_pos c] at h
      rw [List.mem_singleton.mp h]
      exact ⟨c.1, Or.inr (Or.inr (Or.inr rfl))⟩
    · rw [if_neg c] at h
      simp at h

/-- The list built by four conditional `append` calls is the concatenation of
four conditional singletons. -/
theorem parts_aux (P1 P2 P3 P4 : Prop) [Decidable P1] [Decidable P2] [Decidable P3]
    [Decidable P4] (a b c d z : List Byte) (f : List (List Byte) → List Byte) :
    (let parts : List (List Byte) := []
     let parts := if P1 then parts ++ [a] else parts
     let parts := if P2 then parts ++ [b] else parts
     let parts := if P3 then parts ++ [c] else parts
     let parts := if P4 then parts ++ [d] else parts
     if parts.length = 0 then z else f parts)
    = if (if P1 then [a] else []) ++ (if P2 then [b] else []) ++ (if P3 then [c] else [])
          ++ (if P4 then [d] else []) = [] then z
      else f ((if P1 then [a] else []) ++ (if P2 then [b] else []) ++ (if P3 then [c] else [])
          ++ (if P4 then [d] else [])) := by
  by_cases h1 : P1 <;> by_cases h2 : P2 <;> by_cases h3 : P3 <;> by_cases h4 : P4 <;>
    simp [h1, h2, h3, h4]

/-- `GenerateFilename` joins the parts the specification lists, and returns
"session" when there is none. -/
theorem GenerateFilename_eq_parts (si : SessionInfo) :
    si.GenerateFilename
      = if si.parts = [] then str "session" else strings.Join si.parts (str "_") :=
  parts_aux _ _ _ _ _ _ _ _ _ (fun parts => strings.Join parts (str "_"))

theorem GenerateFilename_ne_nil (si : SessionInfo) : si.GenerateFilename ≠ [] := by
  rw [GenerateFilename_eq_parts]
  by_cases h : si.parts = []
  · rw [if_pos h]
    decide
  · rw [if_neg h]
    exact Join_ne_nil _ _ h (fun q hq => (parts_mem si q hq).1)

set_option maxRecDepth 100000 in
theorem underscore_mem_Join (a c : List Byte) (rest : List (List Byte)) :
    (95 : Byte) ∈ strings.Join (a :: c :: rest) (str "_") := by
  have h : str "_" = [(95 : Byte)] := by decide
  simp [strings.Join, h]

set_option maxRecDepth 100000 in
/-- C22: the file name. For every `SessionInfo`, `GenerateFilename` returns the
parts joined by underscores: in this order the track name (when not empty), the
session type (when neither empty nor "Unknown"), the player name (when neither empty
nor "Player") and the weather (when neither empty nor "Clear"); it returns "session"
when every part is omitted; it never returns the empty string; and it returns
"session" only when every part is omitted or when the one part kept is itself
"session". -/
theorem GenerateFilename_joins_parts (si : SessionInfo) :
    si.GenerateFilename
      = (if si.parts = [] then str "session" else strings.Join si.parts (str "_")) ∧
    si.GenerateFilename ≠ [] ∧
    (si.GenerateFilename = str "session" ↔ si.parts = [] ∨ si.parts = [str "session"]) := by
  refine ⟨GenerateFilename_eq_parts si, GenerateFilename_ne_nil si, ?_⟩
  rw [GenerateFilename_eq_parts]
  constructor
  · intro h
    by_cases hp : si.parts = []
    · exact Or.inl hp
    · rw [if_neg hp] at h
      right
      cases hq : si.parts with
      | nil => exact absurd hq hp
      | cons a rest =>
        rw [hq] at h
        cases rest with
        | nil =>
          simp only [strings.Join] at h
          rw [h]
        | cons c rest =>
          have hm := underscore_mem_Join a c rest
          rw [h] at hm
          exact absurd hm (by decide)
  · rintro (h | h)
    · rw [if_pos h]
    · rw [h]
      decide

set_option maxRecDepth 100000 in
/-- Counterexample for C22: the `SessionInfo` extracted from a stream of one
Participants packet whose player name is "session" keeps a part, the player name,
and `GenerateFilename` returns "session" for it. -/
theorem GenerateFilename_session_from_a_part :
    ¬ ((ExtractSessionInfo [sample.sessionNamePacket]).GenerateFilename = str "session"
        ↔ (ExtractSessionInfo [sample.sessionNamePacket]).parts = []) := by
  decide


set_option maxRecDepth 1000000 in
/-- The weather stored for any byte is made of letters. -/
theorem weatherField_safe (b : Byte) :
    ∀ x ∈ (if weatherConditions b.val = [] then str "Unknown" else weatherConditions b.val),
      keepRune x.val = true := by
  have h : (List.range 256).all (fun n =>
      (if weatherConditions n = [] then str "Unknown" else weatherConditions n).all
        (fun x => keepRune x.val)) = true := by rfl
  rw [List.all_eq_true] at h
  have hb := h b.val (List.mem_range.mpr b.isLt)
  rw [List.all_eq_true] at hb
  exact hb

set_option maxRecDepth 1000000 in
/-- The session type stored for any byte is made of letters and digits. -/
theorem sessionTypeField_safe (b : Byte) :
    ∀ x ∈ (if sessionTypes b.val = [] then str "Unknown" else sessionTypes b.val),
      keepRune x.val = true := by
  have h : (List.range 256).all (fun n =>
      (if sessionTypes n = [] then str "Unknown" else sessionTypes n).all
        (fun x => keepRune x.val)) = true := by rfl
  rw [List.all_eq_true] at h
  have hb := h b.val (List.mem_range.mpr b.isLt)
  rw [List.all_eq_true] at hb
  exact hb

set_option maxRecDepth 1000000 in
/-- The track name stored for any byte, "Track" and the signed id when the table
does not list it, is made of letters, digits, `_` and `-`. -/
theorem trackField_safe (b : Byte) :
    ∀ x ∈ (if trackNames (toInt8 b) = [] then str "Track" ++ formatInt (toInt8 b)
        else trackNames (toInt8 b)),
      keepRune x.val = true := by
  have h : (List.range 256).all (fun n =>
      (if trackNames (toInt8 (Fin.ofNat n)) = []
        then str "Track" ++ formatInt (toInt8 (Fin.ofNat n))
        else trackNames (toInt8 (Fin.ofNat n))).all (fun x => keepRune x.val)) = true := by rfl
  rw [List.all_eq_true] at h
  have hb := h b.val (List.mem_range.mpr b.isLt)
  have e : (Fin.ofNat b.val : Byte) = b := by
    apply Fin.ext
    simp only [Fin.ofNat]
    exact Nat.mod_eq_of_lt b.isLt
  rw [e, List.all_eq_true] at hb
  exact hb

/-- `parseSessionPacket` on a packet of 100 bytes or more. -/
theorem parseSessionPacket_long (data : List Byte) (info : SessionInfo)
    (hlen : 100 ≤ data.length) :
    parseSessionPacket data info = { info with
      Weather := (if weatherConditions (data.getD 29 0).val = [] then str "Unknown"
        else weatherConditions (data.getD 29 0).val)
      SessionType := (if sessionTypes (data.getD 35 0).val = [] then str "Unknown"
        else sessionTypes (data.getD 35 0).val)
      TrackName := (if trackNames (toInt8 (data.getD 36 0)) = []
        then str "Track" ++ formatInt (toInt8 (data.getD 36 0))
        else trackNames (toInt8 (data.getD 36 0))) } := by
  have h : ¬ data.length < 100 := by omega
  have h29 : data.getD 29 0 = data[29] := List.getD_eq_getElem _ _ (by omega)
  have h35 : data.getD 35 0 = data[35] := List.getD_eq_getElem _ _ (by omega)
  have h36 : data.getD 36 0 = data[36] := List.getD_eq_getElem _ _ (by omega)
  rw [h29, h35, h36]
  simp only [parseSessionPacket, h, dite_false]
  split_ifs <;> rfl

theorem parseSessionPacket_Safe (data : List Byte) (info : SessionInfo) (h : info.Safe) :
    (parseSessionPacket data info).Safe := by
  by_cases hlen : data.length < 100
  · rw [parseSessionPacket_short data info hlen]
    exact h
  · rw [parseSessionPacket_long data info (by omega)]
    exact ⟨h.1, trackField_safe _, sessionTypeField_safe _, weatherField_safe _⟩

theorem parseParticipantsPacket_Safe (data : List Byte) (info : SessionInfo) (h : info.Safe) :
    (parseParticipantsPacket data info).Safe := by
  by_cases hlen : data.length < 30 + 58 * (data.getD 27 0).val + 80
  · rw [parseParticipantsPacket_short data info hlen]
    exact h
  · rw [parseParticipantsPacket_long data info (by omega)]
    refine ⟨?_, h.2.1, h.2.2.1, h.2.2.2⟩
    intro b hb
    simp only [sanitizeForFilename_eq] at hb
    exact (List.mem_filter.mp hb).2

theorem ExtractSessionInfo_Safe (ps : List (List Byte)) : (ExtractSessionInfo ps).Safe := by
  have h0 : (⟨[], [], [], [], [], false⟩ : SessionInfo).Safe := by
    simp [SessionInfo.Safe]
  have hset : ∀ si : SessionInfo, si.Safe → SessionInfo.Safe { si with HasInfo := true } :=
    fun si h => h
  rw [ExtractSessionInfo_eq_fromFirst]
  unfold fromFirst
  cases ps.find? (hasID 1) <;> cases ps.find? (hasID 4)
  · exact h0
  · exact parseParticipantsPacket_Safe _ _ h0
  · exact parseSessionPacket_Safe _ _ h0
  · exact hset _ (parseParticipantsPacket_Safe _ _ (parseSessionPacket_Safe _ _ h0))

set_option maxRecDepth 100000 in
theorem GenerateFilename_Safe (si : SessionInfo) (h : si.Safe) :
    ∀ b ∈ si.GenerateFilename, keepRune b.val = true := by
  rw [GenerateFilename_eq_parts]
  by_cases hp : si.parts = []
  · rw [if_pos hp]
    have hs : (str "session").all (fun x => keepRune x.val) = true := by rfl
    rw [List.all_eq_true] at hs
    exact hs
  · rw [if_neg hp]
    intro b hb
    rcases Join_mem _ _ b hb with hsep | ⟨q, hq, hbq⟩
    · have hs : (str "_").all (fun x => keepRune x.val) = true := by rfl
      rw [List.all_eq_true] at hs
      exact hs b hsep
    · rcases (parts_mem si q hq).2 with rfl | rfl | rfl | rfl
      · exact h.2.1 b hbq
      · exact h.2.2.1 b hbq
      · exact h.1 b hbq
      · exact h.2.2.2 b hbq

set_option maxRecDepth 100000 in
/-- C29: the recording name is safe for a file name. For every stream of packets
that ends, whatever bytes the packets hold, `GenerateFilename` of the `SessionInfo`
that `ExtractSessionInfo` returns is not empty and every byte of it is a letter, a
digit, `_` or `-`: no path separator, no dot, no control character. A track id the
table does not list gives "Track" and the signed id: the sample Session packet with
the track byte 255 gives "Track-1_Race_Max_Verstappen". -/
theorem GenerateFilename_filename_safe (ps : List (List Byte)) :
    (ExtractSessionInfo ps).GenerateFilename ≠ [] ∧
    (∀ b ∈ (ExtractSessionInfo ps).GenerateFilename,
      (97 ≤ b.val ∧ b.val ≤ 122) ∨ (65 ≤ b.val ∧ b.val ≤ 90) ∨ (48 ≤ b.val ∧ b.val ≤ 57)
        ∨ b.val = 95 ∨ b.val = 45) ∧
    (ExtractSessionInfo [sample.unlistedTrackPacket,
      sample.participantsPacket]).GenerateFilename = str "Track-1_Race_Max_Verstappen" := by
  refine ⟨GenerateFilename_ne_nil _, ?_, by decide⟩
  intro b hb
  have hk := GenerateFilename_Safe _ (ExtractSessionInfo_Safe ps) b hb
  simpa [keepRune] using hk

end session

/-! ## Starting and stopping -/

namespace recorder

theorem Recorder_Stop_idle (r : Recorder) (h : r.running = false) : r.Stop = (r, none) := by
  simp [Recorder.Stop, h]

theorem Recorder_Stop_clears_running (r : Recorder) : r.Stop.1.running = false := by
  unfold Recorder.Stop
  cases hr : r.running with
  | false => simpa using hr
  | true =>
    simp only [Bool.not_true, Bool.false_eq_true, if_false]
    cases hf : r.file with
    | none => rfl
    | some f =>
      simp only [os.Close]
      cases hc : f.closed <;> rfl

end recorder

namespace playback

theorem Player_Stop_idle (p : Player) (h : p.running = false) : p.Stop = some (p, none) := by
  simp [Player.Stop, h]

theorem Player_Stop_clears_running (p p' : Player) (e : Option Error) (h : p.Stop = some (p', e)) :
    p'.running = false ∧ p'.paused = p.paused := by
  obtain ⟨fp, file, ta, tp, sp, conn, st, run, pa, sc, pk⟩ := p
  unfold Player.Stop at h
  cases run with
  | false =>
    simp only [Bool.not_false, if_true, Option.some.injEq, Prod.mk.injEq] at h
    rw [← h.1]
    exact ⟨rfl, rfl⟩
  | true =>
    cases sc with
    | true => simp at h
    | false =>
      cases conn <;> cases file <;> cases hpk : pk.closed <;>
        simp [hpk] at h <;> (rw [← h.1]; exact ⟨rfl, rfl⟩)

end playback

namespace telemetry

theorem Receiver_Stop_idle (r : Receiver) (b : Bool) (h : r.running = false) :
    r.Stop b = Outcome.returned (r, none) := by
  simp [Receiver.Stop, h]

theorem Receiver_Stop_clears_running (r r' : Receiver) (e : Option Error) (b : Bool)
    (h : r.Stop b = Outcome.returned (r', e)) : r'.running = false := by
  obtain ⟨cfg, conn, pk, sc, wg, run, st⟩ := r
  unfold Receiver.Stop at h
  cases run with
  | false =>
    simp only [Bool.not_false, if_true, Outcome.returned.injEq, Prod.mk.injEq] at h
    rw [← h.1]
  | true =>
    cases sc with
    | true => simp at h
    | false =>
      simp only [Bool.not_true, Bool.false_eq_true, if_false] at h
      split at h
      · simp at h
      · split at h
        · simp at h
        · simp only [Outcome.returned.injEq, Prod.mk.injEq] at h
          rw [← h.1]
          cases conn <;> rfl

end telemetry

/-- C23: idempotent stop. For the recorder, the player and the receiver alike,
`Stop` on an instance that is not running returns nil and changes nothing; this is
the case of an instance that was never started and of one on which `Stop` has
returned, so a second `Stop` right after the first returns nil and leaves the state
the first one made: the stop channel, the socket, the file and the output channel
are closed once. -/
theorem Stop_twice_as_once :
    (∀ r : recorder.Recorder, r.running = false → r.Stop = (r, none)) ∧
    (∀ r : recorder.Recorder, r.Stop.1.Stop = (r.Stop.1, none)) ∧
    (∀ (sys : recorder.NewSys) (dir name : String) (r : recorder.Recorder),
      recorder.NewRecorder sys dir name = (some r, none) → r.Stop = (r, none)) ∧
    (∀ p : playback.Player, p.running = false → p.Stop = some (p, none)) ∧
    (∀ (p p' : playback.Player) (e : Option Error),
      p.Stop = some (p', e) → p'.Stop = some (p', none)) ∧
    (∀ (path addr : String) (port : Int) (speed : playback.Float64),
      (playback.NewPlayer path addr port speed).1.Stop
        = some ((playback.NewPlayer path addr port speed).1, none)) ∧
    (∀ (r : telemetry.Receiver) (b : Bool),
      r.running = false → r.Stop b = Outcome.returned (r, none)) ∧
    (∀ (r r' : telemetry.Receiver) (e : Option Error) (b b' : Bool),
      r.Stop b = Outcome.returned (r', e) → r'.Stop b' = Outcome.returned (r', none)) ∧
    (∀ (config : telemetry.ReceiverConfig) (b : Bool),
      (telemetry.NewReceiver config).Stop b
        = Outcome.returned (telemetry.NewReceiver config, none)) := by
  refine ⟨recorder.Recorder_Stop_idle, fun r => recorder.Recorder_Stop_idle _ (recorder.Recorder_Stop_clears_running r),
    ?_, playback.Player_Stop_idle,
    fun p p' e h => playback.Player_Stop_idle _ (playback.Player_Stop_clears_running p p' e h).1,
    fun _ _ _ _ => rfl, telemetry.Receiver_Stop_idle,
    fun r r' e b b' h => telemetry.Receiver_Stop_idle _ _ (telemetry.Receiver_Stop_clears_running r r' e b h),
    fun _ _ => rfl⟩
  intro sys dir name r h
  apply recorder.Recorder_Stop_idle
  unfold recorder.NewRecorder at h
  cases hm : sys.mkdirAll with
  | some err => simp [hm] at h
  | none =>
    simp only [hm, Prod.mk.injEq, Option.some.injEq, and_true] at h
    rw [← h]

namespace recorder

theorem Recorder_Stop_keeps_stats (r : Recorder) : r.Stop.1.stats = r.stats := by
  unfold Recorder.Stop
  cases hr : r.running with
  | false => rfl
  | true =>
    simp only [Bool.not_true, Bool.false_eq_true, if_false]
    cases hf : r.file with
    | none => rfl
    | some f =>
      simp only [os.Close]
      cases hc : f.closed <;> rfl

end recorder

namespace playback

/-- `Stop` on a running player closes the stop channel. -/
theorem Player_Stop_closes_stopChan (p p' : Player) (e : Option Error)
    (hrun : p.running = true) (h : p.Stop = some (p', e)) : p'.stopChan = true := by
  obtain ⟨fp, file, ta, tp, sp, conn, st, run, pa, sc, pk⟩ := p
  simp only at hrun
  subst hrun
  unfold Player.Stop at h
  cases sc with
  | true => simp at h
  | false =>
    cases conn <;> cases file <;> cases hpk : pk.closed <;>
      simp [hpk] at h <;> (rw [← h.1])

end playback

namespace telemetry

/-- `Stop` on a running receiver closes the stop channel. -/
theorem Receiver_Stop_closes_stopChan (r r' : Receiver) (e : Option Error) (b : Bool)
    (hrun : r.running = true) (h : r.Stop b = Outcome.returned (r', e)) :
    r'.stopChan = true := by
  obtain ⟨cfg, conn, pk, sc, wg, run, st⟩ := r
  simp only at hrun
  subst hrun
  unfold Receiver.Stop at h
  cases sc with
  | true => simp at h
  | false =>
    simp only [Bool.not_true, Bool.false_eq_true, if_false] at h
    split at h
    · simp at h
    · split at h
      · simp at h
      · simp only [Outcome.returned.injEq, Prod.mk.injEq] at h
        rw [← h.1]
        cases conn <;> rfl

end telemetry

set_option maxRecDepth 100000 in
/-- C24: components are not restartable. The code has no such guard: `Start` tests
the running flag only, which `Stop` clears, and the stop channel is made once, by
the constructor, and closed by `Stop`. So on an instance that was running and on
which `Stop` has returned, a later `Start` is accepted like a first one and sets the
running flag again. The recorder creates its file anew, so the file holds a new
header and none of the entries written before, while the counters keep the packets
and bytes of the first run. The restarted player is running, but its playback loop
finds the stop channel closed and returns at once without playing anything, and the
next `Stop` panics on closing the closed channel. The restarted receiver is
running, and its next `Stop` panics in the same way. On the samples: the recorder
had written a header and one entry of 41 bytes; after the second `Start` its file
holds the 46 bytes of a new header while `PacketsRecorded` is 1 and `BytesWritten`
is 41. -/
theorem Start_after_Stop_runs_again :
    (∀ (r : recorder.Recorder) (sys : recorder.StartSys) (limit : Nat),
      sys.create = .ok limit → 46 ≤ min limit os.maxFileSize →
      (r.Stop.1.Start sys).2 = none ∧ (r.Stop.1.Start sys).1.running = true ∧
      (r.Stop.1.Start sys).1.file
        = some { content := format.header sys.headerNow.UnixNano, limit := limit,
                 closed := false } ∧
      (r.Stop.1.Start sys).1.stats.PacketsRecorded = r.stats.PacketsRecorded ∧
      (r.Stop.1.Start sys).1.stats.BytesWritten = r.stats.BytesWritten) ∧
    (∀ (p p' : playback.Player) (e : Option Error) (sys : playback.StartSys)
      (content : List Byte),
      p.running = true → p.Stop = some (p', e) → sys.open_ = .ok content → sys.dial = none →
      46 ≤ content.length → content.take 4 = playback.magicF1TR →
      (p'.Start sys).2 = none ∧ (p'.Start sys).1.running = true ∧
      (∀ (lsys : playback.LoopSys) (fuel : Nat),
        ∃ l, (p'.Start sys).1.playbackLoop lsys (fuel + 1) = playback.LoopStep.done l ∧
          l.events = [] ∧ l.p = (p'.Start sys).1) ∧
      (p'.Start sys).1.Stop = none) ∧
    (∀ (r r' : telemetry.Receiver) (e : Option Error) (b : Bool) (sys : telemetry.StartSys),
      r.running = true → r.Stop b = Outcome.returned (r', e) → sys.listen = none →
      (r'.Start sys).2 = none ∧ (r'.Start sys).1.running = true ∧
      (∀ (read : telemetry.ReadResult) (now : Time),
        ((⟨(r'.Start sys).1, false, telemetry.StopAt.lock, telemetry.LoopAt.select⟩ :
          telemetry.World).loopStep read now).map (fun w => w.loop)
          = some telemetry.LoopAt.exited) ∧
      ∀ b' : Bool, (r'.Start sys).1.Stop b' = Outcome.panicked) ∧
    sample.stoppedRecorder.running = false ∧
    sample.stoppedRecorder.file.map (fun f => f.content.length) = some (46 + 41) ∧
    (sample.stoppedRecorder.Start sample.startSys).2 = none ∧
    (sample.stoppedRecorder.Start sample.startSys).1.running = true ∧
    (sample.stoppedRecorder.Start sample.startSys).1.file.map (fun f => f.content)
      = some (format.header 1700000000000000001) ∧
    (format.header 1700000000000000001).length = 46 ∧
    (sample.stoppedRecorder.Start sample.startSys).1.stats.PacketsRecorded = 1 ∧
    (sample.stoppedRecorder.Start sample.startSys).1.stats.BytesWritten = 41 ∧
    sample.startedPlayer.running = true ∧
    sample.startedPlayer.Stop = some (sample.stoppedPlayer, none) ∧
    sample.stoppedPlayer.running = false ∧
    (sample.stoppedPlayer.Start (sample.playSys sample.zeroStampFile)).2 = none ∧
    (sample.stoppedPlayer.Start (sample.playSys sample.zeroStampFile)).1.running = true ∧
    (∃ l, (sample.stoppedPlayer.Start (sample.playSys sample.zeroStampFile)).1.playbackLoop
        sample.loopSys 3 = playback.LoopStep.done l ∧
      l.events = [] ∧ l.p.stats.PacketsPlayed = 0) ∧
    (sample.stoppedPlayer.Start (sample.playSys sample.zeroStampFile)).1.Stop = none ∧
    sample.startedReceiver.running = true ∧
    sample.startedReceiver.Stop true = Outcome.returned (sample.stoppedReceiver, none) ∧
    sample.stoppedReceiver.running = false ∧
    (sample.stoppedReceiver.Start sample.listenSys).2 = none ∧
    (sample.stoppedReceiver.Start sample.listenSys).1.running = true ∧
    (sample.stoppedReceiver.Start sample.listenSys).1.Stop true = Outcome.panicked ∧
    (sample.stoppedReceiver.Start sample.listenSys).1.Stop false = Outcome.panicked := by
  refine ⟨?_, ?_, ?_, by decide, by decide, by decide, by decide, by decide, by decide,
    by decide, by decide, by decide, by decide, by decide, by decide, by decide,
    ⟨_, rfl, by decide, by decide⟩, by decide, by decide, by decide, by decide, by decide,
    by decide, by decide, by decide⟩
  · intro r sys limit hc hroom
    rw [recorder.Start_ok _ sys limit (recorder.Recorder_Stop_clears_running r) hc hroom]
    refine ⟨rfl, rfl, rfl, ?_, ?_⟩
    · show r.Stop.1.stats.PacketsRecorded = r.stats.PacketsRecorded
      rw [recorder.Recorder_Stop_keeps_stats]
    · show r.Stop.1.stats.BytesWritten = r.stats.BytesWritten
      rw [recorder.Recorder_Stop_keeps_stats]
  · intro p p' e sys content hrun hs ho hd hl hm
    have hsc := playback.Player_Stop_closes_stopChan p p' e hrun hs
    have hstart := playback.Start_accepts p' sys content
      (playback.Player_Stop_clears_running p p' e hs).1 ho hd hl hm
    have h2 : (p'.Start sys).2 = none := by rw [hstart]
    have hrun2 : (p'.Start sys).1.running = true := by rw [hstart]
    have hsc2 : (p'.Start sys).1.stopChan = true := by
      rw [hstart]
      exact hsc
    generalize (p'.Start sys).1 = q at hrun2 hsc2 ⊢
    refine ⟨h2, hrun2, ?_, ?_⟩
    · intro lsys fuel
      refine ⟨⟨q, 0, []⟩, ?_, rfl, rfl⟩
      simp only [playback.Player.playbackLoop, playback.Loop.run, playback.Loop.iteration, hsc2,
        if_true]
    · simp only [playback.Player.Stop, hrun2, Bool.not_true, Bool.false_eq_true, if_false, hsc2,
        if_true]
  · intro r r' e b sys hrun hs hl
    have hr := telemetry.Receiver_Stop_clears_running r r' e b hs
    have hsc := telemetry.Receiver_Stop_closes_stopChan r r' e b hrun hs
    have hstart : r'.Start sys = ({ r' with
        conn := some { closed := false }
        running := true
        stats := { PacketsReceived := 0, BytesReceived := 0, Errors := 0, StartTime := sys.now }
        wg := r'.wg + 1 }, none) := by
      simp only [telemetry.Receiver.Start, hr, hl, Bool.false_eq_true, if_false]
    rw [hstart]
    refine ⟨rfl, rfl, ?_, ?_⟩
    · intro read now
      simp only [telemetry.World.loopStep, hsc, if_true, Option.map_some']
      rfl
    · intro b'
      simp only [telemetry.Receiver.Stop, Bool.not_true, Bool.false_eq_true, if_false, hsc,
        if_true]

namespace playback

/-! ## The player: pausing -/

set_option maxRecDepth 100000 in
/-- C25: the player state machine. `Pause` sets the paused flag with no test of the
running flag, and `Stop`, also the one the playback loop calls at the end of the
recording, clears the running flag and leaves the paused flag as it is, while
`Start` resets it. So `IsPaused()` does not imply `IsRunning()`: `Pause` on a player
just made by `NewPlayer` leaves it paused and not running; so does `Pause` on a
player that was started and stopped; a player paused and then stopped stays paused;
and on a recording that holds the header only, the first pass of the loop that
`Start` launched reaches the end of the file and stops the player, and a `Pause`
after that leaves it paused and not running. -/
theorem Pause_sets_paused_when_not_running :
    (∀ p : Player, p.Pause = { p with paused := true } ∧
      p.Resume = { p with paused := false }) ∧
    (∀ p : Player, p.Pause.IsPaused = true ∧ p.Pause.IsRunning = p.IsRunning) ∧
    (∀ (p p' : Player) (e : Option Error), p.Stop = some (p', e) →
      p'.IsRunning = false ∧ p'.IsPaused = p.IsPaused) ∧
    (sample.newPlayer.IsRunning = false ∧ sample.newPlayer.Pause.IsPaused = true ∧
      sample.newPlayer.Pause.IsRunning = false) ∧
    (sample.startedPlayer.IsRunning = true ∧ sample.startedPlayer.IsPaused = false ∧
      ∃ p', sample.startedPlayer.Pause.Stop = some (p', none) ∧
        p'.IsPaused = true ∧ p'.IsRunning = false) ∧
    (sample.startedPlayer.Stop = some (sample.stoppedPlayer, none) ∧
      sample.stoppedPlayer.Pause.IsPaused = true ∧
      sample.stoppedPlayer.Pause.IsRunning = false) ∧
    ((sample.newPlayer.Start (sample.playSys (format.header 0))).2 = none ∧
      (sample.newPlayer.Start (sample.playSys (format.header 0))).1.IsRunning = true ∧
      ∃ l, (sample.newPlayer.Start (sample.playSys (format.header 0))).1.playbackLoop
          sample.loopSys 1 = LoopStep.done l ∧
        l.events = [] ∧ l.p.IsRunning = false ∧ l.p.IsPaused = false ∧
        l.p.Pause.IsPaused = true ∧ l.p.Pause.IsRunning = false) := by
  refine ⟨fun p => ⟨rfl, rfl⟩, fun p => ⟨rfl, rfl⟩,
    fun p p' e h => Player_Stop_clears_running p p' e h, by decide,
    ⟨by decide, by decide, _, rfl, by decide, by decide⟩, by decide,
    ⟨by decide, by decide, _, rfl, by decide, by decide, by decide, by decide, by decide⟩⟩

/-- A pass that finds the player neither stopped nor paused is the part after the
pause test. -/
theorem iteration_not_paused (sys : LoopSys) (l : Loop) (hstop : l.p.stopChan = false)
    (hpause : l.p.paused = false) : l.iteration sys = l.afterPauseTest sys := by
  unfold Loop.iteration Loop.afterPauseTest
  simp only [hstop, Player.IsPaused, hpause, Bool.false_eq_true, if_false]

/-- A pass that finds the player paused, and not stopped, makes one poll. -/
theorem iteration_paused (sys : LoopSys) (l : Loop) (hstop : l.p.stopChan = false)
    (hpause : l.p.paused = true) :
    l.iteration sys = LoopStep.next { l with events := l.events ++ [LoopEvent.pausePoll] } := by
  unfold Loop.iteration
  simp only [hstop, Player.IsPaused, hpause, Bool.false_eq_true, if_false, if_true]

/-- While the player stays paused the passes only poll. -/
theorem run_paused (sys : LoopSys) (n : Nat) : ∀ l : Loop, l.p.stopChan = false →
    l.p.paused = true →
    Loop.run sys n l
      = LoopStep.next { l with events := l.events ++ List.replicate n LoopEvent.pausePoll } := by
  induction n with
  | zero =>
    intro l _ _
    simp [Loop.run]
  | succ n ih =>
    intro l hstop hpause
    rw [Loop.run, iteration_paused sys l hstop hpause]
    simp only []
    rw [ih { l with events := l.events ++ [LoopEvent.pausePoll] } hstop hpause]
    simp [List.replicate_succ]

set_option maxRecDepth 100000 in
/-- Counterexample for C26: the player started on `sample.zeroStampFile` is neither
stopped nor paused, so a pass of the loop gets past the pause test; `Pause` is
called then; the rest of the pass, with the player paused all along, reads the
first entry, sends its payload and counts it. -/
theorem Pause_after_the_pause_test :
    sample.startedPlayer.stopChan = false ∧ sample.startedPlayer.IsPaused = false ∧
    sample.startedPlayer.Pause.stats.PacketsPlayed = 0 ∧
    sample.startedPlayer.Pause.file.map (fun f => f.offset) = some 46 ∧
    ∃ l, Loop.afterPauseTest sample.loopSys
        { p := sample.startedPlayer.Pause, lastTimestamp := 0, events := [] }
        = LoopStep.next l ∧
      l.p.IsPaused = true ∧ l.p.stats.PacketsPlayed = 1 ∧
      l.p.file.map (fun f => f.offset) = some (46 + 13) ∧
      l.events = [LoopEvent.send [1]] := by
  refine ⟨by decide, by decide, by decide, by decide, _, rfl, ?_, ?_, ?_, ?_⟩ <;> decide

/-- C26, amended: while the player is paused, every pass of the loop that starts
only polls: as many passes as one likes leave the stats, the file with its read
position and the socket as they were, and nothing is sent. After `Resume` the next
pass reads the entry at the read position, the first one not yet read, sends its
payload and counts it. (A pass that is already past its pause test when `Pause` is
called still plays its entry.) -/
theorem paused_loop_only_polls (sys : LoopSys) (l : Loop) (n : Nat) (f : os.RFile)
    (ts : Int) (data rest : List Byte)
    (hstop : l.p.stopChan = false) (hpause : l.p.paused = true)
    (hpk : l.p.packets.closed = false)
    (hf : l.p.file = some f) (hc : f.closed = false) (ho : f.offset ≤ f.content.length)
    (hrest : f.content.drop f.offset = format.entry ts data ++ rest)
    (hts : -2 ^ 63 ≤ ts ∧ ts < 2 ^ 63) (hlen : data.length < 2 ^ 32) :
    Loop.run sys n l
      = LoopStep.next { l with events := l.events ++ List.replicate n LoopEvent.pausePoll } ∧
    ∃ l', Loop.iteration sys
        { l with p := l.p.Resume,
                 events := l.events ++ List.replicate n LoopEvent.pausePoll }
        = LoopStep.next l' ∧
      l'.p.file = some { f with offset := f.offset + (data.length + 12) } ∧
      l'.p.stats.PacketsPlayed = (l.p.stats.PacketsPlayed + 1) % 2 ^ 64 ∧
      l'.events.getLast? = some (LoopEvent.send data) := by
  refine ⟨run_paused sys n l hstop hpause, ?_⟩
  obtain ⟨l', h1, _, _, _, _, h6, h7, _, h9⟩ := iteration_entry sys
    { l with p := l.p.Resume, events := l.events ++ List.replicate n LoopEvent.pausePoll }
    f ts data rest hstop rfl hpk hf hc ho hrest hts hlen
  refine ⟨l', h1, h6, h7, ?_⟩
  rw [h9]
  simp

set_option maxRecDepth 100000 in
/-- Witness for C26: the player started on `sample.zeroStampFile` and paused before
the first pass; three passes poll, and the pass after `Resume` sends the first
payload. -/
theorem paused_loop_only_polls_witness :
    sample.startedPlayer.Pause.paused = true ∧
    Loop.run sample.loopSys 3
        { p := sample.startedPlayer.Pause, lastTimestamp := 0, events := [] }
      = LoopStep.next { p := sample.startedPlayer.Pause, lastTimestamp := 0,
                        events := [LoopEvent.pausePoll, LoopEvent.pausePoll,
                                   LoopEvent.pausePoll] } ∧
    ∃ l', Loop.iteration sample.loopSys
        { p := sample.startedPlayer.Pause.Resume, lastTimestamp := 0,
          events := [LoopEvent.pausePoll, LoopEvent.pausePoll, LoopEvent.pausePoll] }
        = LoopStep.next l' ∧
      l'.p.file = some { content := sample.zeroStampFile, offset := 46 + 13, closed := false } ∧
      l'.p.stats.PacketsPlayed = 1 ∧
      l'.events.getLast? = some (LoopEvent.send [1]) :=
  ⟨rfl, paused_loop_only_polls sample.loopSys
    { p := sample.startedPlayer.Pause, lastTimestamp := 0, events := [] } 3
    { content := sample.zeroStampFile, offset := 46, closed := false } 0 [1]
    (format.entry 1000000000 [2]) (by decide) (by decide) (by decide) (by decide) (by decide)
    (by decide) (by decide) (by decide) (by decide)⟩

end playback

namespace telemetry

/-! ## The receiver: `Stop` against the receive loop -/

/-- While `Stop` waits in `wg.Wait()` with the mutex held and the loop stands before
a locked section, neither goroutine can move. -/
theorem stuck_at_wait (w : World) (hs : w.stop = StopAt.wait) (hm : w.muHeld = true)
    (hwg : w.r.wg ≠ 0)
    (hl : w.loop = LoopAt.isRunning ∨ w.loop = LoopAt.incrementErrors
      ∨ ∃ packet, w.loop = LoopAt.count packet) :
    w.stopStep = none ∧ ∀ (read : ReadResult) (now : Time), w.loopStep read now = none := by
  refine ⟨?_, fun read now => ?_⟩
  · simp [World.stopStep, hs, hwg]
  · rcases hl with h | h | ⟨packet, h⟩ <;> simp [World.loopStep, h, hm]

/-- From a world in which no goroutine can move, only the empty sequence of moves
can be made. -/
theorem run_stuck (w : World) (h1 : w.stopStep = none)
    (h2 : ∀ (read : ReadResult) (now : Time), w.loopStep read now = none)
    (ms : List Move) (w' : World) (h : w.run ms = some w') : ms = [] ∧ w' = w := by
  cases ms with
  | nil =>
    simp only [World.run, Option.some.injEq] at h
    exact ⟨rfl, h.symm⟩
  | cons m ms =>
    cases m with
    | stop => simp [World.run, h1] at h
    | loop read now => simp [World.run, h2 read now] at h

set_option maxRecDepth 100000 in
/-- C27: `Stop` against a receive loop that waits in the socket read. On the
started receiver, `Stop` takes the mutex, closes the stop channel, clears the
running flag and closes the socket; the read of the loop fails, with an error that
is no timeout, and the loop calls `IsRunning()`, which needs the mutex; `Stop` is in
`wg.Wait()` and keeps the mutex until it returns. From there no goroutine can move:
whatever moves are tried, `Stop` has not returned, the loop has not exited and the
output channel is not closed. (When the loop is at its `select` at the time the
stop channel is closed, it exits and `Stop` returns.) -/
theorem Stop_waits_while_loop_needs_the_mutex :
    sample.stopWorld.run [Move.stop, Move.stop, Move.stop, Move.stop, Move.stop,
        Move.loop ReadResult.failed ⟨1700000000000000001⟩] = some sample.stuckWorld ∧
    sample.stuckWorld.stop = StopAt.wait ∧ sample.stuckWorld.loop = LoopAt.isRunning ∧
    sample.stuckWorld.r.packets.closed = false ∧
    sample.stuckWorld.stopStep = none ∧
    (∀ (read : ReadResult) (now : Time), sample.stuckWorld.loopStep read now = none) ∧
    (∀ (ms : List Move) (w : World), sample.stuckWorld.run ms = some w →
      w = sample.stuckWorld) ∧
    (sample.stopWorld.run [Move.loop ReadResult.timeout ⟨1700000000000000001⟩,
        Move.stop, Move.stop, Move.stop, Move.stop, Move.stop,
        Move.loop ReadResult.timeout ⟨1700000000000000002⟩, Move.stop, Move.stop]).map
      (fun w => (w.stop, w.loop, w.muHeld, w.r.packets.closed))
      = some (StopAt.returned, LoopAt.exited, false, true) := by
  have hstuck := stuck_at_wait sample.stuckWorld rfl rfl (by decide) (Or.inl rfl)
  exact ⟨by decide, rfl, rfl, by decide, hstuck.1, hstuck.2,
    fun ms w h => (run_stuck _ hstuck.1 hstuck.2 ms w h).2, by decide⟩

end telemetry

end F1TR
